import Mathlib

/-! Verification development for makeflop.py (TwoSide fork), a FAT12
floppy-image manipulation library.

Embedding conventions.  Byte buffers (Python `bytearray`) become
`List Nat` with every element a byte value `< 256`; the decoded FAT
(a Python list of 12-bit ints) becomes `List Nat`; Python string names
and paths become `List Nat` of character codes.  Machine masks are
written with `%`, `/` and `*`: for the byte-ranged operands the source
applies them to, `x & 0xFF` is `x % 256`, `x & 0x0F` is `x % 16`,
`(x & 0xF0) >> 4` is `x / 16 % 16`, `x >> n` is division and `x << n`
multiplication by `2 ^ n`, and `a | b` on disjoint bit ranges is
`a + b`.  Python exceptions become `Except PyErr`; loops whose
termination depends on disk-state well-formedness take an explicit
`fuel` argument and return a recognizable default when it runs out
(the theorems below always supply enough fuel for the executions they
describe). -/

/-- The Python exception kinds observable in the embedded fragment of
makeflop.py.  `floppyError` is `Floppy.Error`; the others are builtin
Python exceptions that some code paths of the source actually raise
(e.g. evaluating an undefined identifier raises the builtin
NameError). -/
inductive PyErr where
  | floppyError
  | nameError
  | attributeError
  | indexError
  | unicodeError
  | zeroDivError
  | recursionError
  deriving Repr, DecidableEq

/-- Python slice read `d[off : off + n]` on a bytearray: clamps, never
fails. -/
def sliceN (d : List Nat) (off n : Nat) : List Nat := (d.drop off).take n

/-- Python slice read `d[a : b]`. -/
def sliceAB (d : List Nat) (a b : Nat) : List Nat := (d.drop a).take (b - a)

/-- Python slice assignment `d[off : off + v.length] = v` (the source
only ever assigns slices of unchanged length). -/
def splice (d : List Nat) (off : Nat) (v : List Nat) : List Nat :=
  d.take off ++ v ++ d.drop (off + v.length)

/-- Little-endian read of `n` bytes of `d` starting at `off`
(`struct.unpack` helper). -/
def leNat (d : List Nat) (off n : Nat) : Nat :=
  match n with
  | 0 => 0
  | m + 1 => d.getD off 0 + 256 * leNat d (off + 1) m

/-- Little-endian bytes of a value, `n` bytes wide (`struct.pack`
helper). -/
def leBytes (v n : Nat) : List Nat :=
  match n with
  | 0 => []
  | m + 1 => v % 256 :: leBytes (v / 256) m

/-! ## FAT table codec (`Floppy._fat_flush` / `Floppy._fat_open`) -/

/-- The byte-building loop of `Floppy._fat_flush` (src lines 336-345),
unrolled two entries at a time over the existing FAT-region bytes
`buf`.  An even-indexed entry at byte position `e` performs
`data[e] = entry & 0xFF` and
`data[e+1] = (data[e+1] & 0xF0) | ((entry >> 8) & 0x0F)` and advances
`e` by one; the following odd-indexed entry then performs
`data[e+1] = (data[e+1] & 0x0F) | ((entry << 4) & 0xF0)` (overwriting
the high nibble just preserved) and `data[e+2] = (entry >> 4) & 0xFF`,
advancing `e` by two.  So a full pair `a, b` replaces three buffer
bytes by `a % 256`, `a / 256 % 16 + (b % 16) * 16`, `b / 16 % 256`,
while a trailing even entry `a` replaces two bytes, keeping the high
nibble of the second from `buf`.  A buffer shorter than the entry list
requires is returned unchanged (the source never reaches that case:
the entry list was sized from this same region). -/
def fatFlushBytes : List Nat → List Nat → List Nat
  | [], buf => buf
  | [a], b0 :: b1 :: rest => a % 256 :: (b1 / 16 * 16 + a / 256 % 16) :: rest
  | [_], buf => buf
  | a :: b :: es, b0 :: b1 :: b2 :: rest =>
      a % 256 :: (a / 256 % 16 + b % 16 * 16) :: b / 16 % 256 :: fatFlushBytes es rest
  | _ :: _ :: _, buf => buf

/-- The read loop of `Floppy._fat_open` (src lines 317-327): unpacks
12-bit entries from the FAT-region bytes while at least two more bytes
remain (`(e+2) <= fat_end`).  The boolean is the parity
`len(self.fat) & 1` of the next entry index: an even-indexed entry is
`data[e] | ((data[e+1] & 0x0F) << 8)` and advances `e` by one (so the
second byte is examined again); an odd-indexed entry is
`((data[e] & 0xF0) >> 4) | (data[e+1] << 4)` and advances `e` by
two. -/
def fatUnpackAux : Bool → List Nat → List Nat
  | false, b0 :: b1 :: rest => (b0 + b1 % 16 * 256) :: fatUnpackAux true (b1 :: rest)
  | true, b0 :: b1 :: rest => (b0 / 16 % 16 + b1 * 16) :: fatUnpackAux false rest
  | _, _ => []

/-- `Floppy._fat_open`'s unpacking of a whole FAT region, starting at
an even entry index. -/
def fatUnpackBytes (buf : List Nat) : List Nat := fatUnpackAux false buf

/-- Number of 12-bit entries `Floppy._fat_open` unpacks from a region
of `B` bytes: two per full three bytes, plus one more when exactly two
bytes remain. -/
def fatEntryCount (B : Nat) : Nat := 2 * B / 3

theorem fatUnpackAux_nil (p : Bool) : fatUnpackAux p [] = [] := by
  cases p <;> rfl

theorem fatUnpackAux_single (p : Bool) (b : Nat) : fatUnpackAux p [b] = [] := by
  cases p <;> rfl

/-- C1.  For every array of 12-bit FAT entries (each value below
0x1000, any even or odd length), packing the array into the
two-entries-per-three-bytes byte layout exactly as `Floppy._fat_flush`
does (over an arbitrary byte buffer of the matching FAT-region size,
whose leftover nibble/bytes the pack preserves) and then unpacking the
resulting bytes exactly as `Floppy._fat_open` does yields the original
array.  The length hypothesis is the relation the source itself
guarantees: the in-memory FAT was sized by unpacking this same
region. -/
theorem fat_roundtrip :
    ∀ (fat buf : List Nat), (∀ x ∈ fat, x < 4096) → (∀ y ∈ buf, y < 256) →
      fat.length = fatEntryCount buf.length →
      fatUnpackBytes (fatFlushBytes fat buf) = fat := by
  intro fat buf
  induction fat, buf using fatFlushBytes.induct with
  | case1 buf =>
    intro _ _ hlen
    -- no entries: the buffer has at most one byte, unpacking reads nothing
    match buf, hlen with
    | [], _ => rfl
    | [b], _ => exact fatUnpackAux_single false b
    | b0 :: b1 :: rest, hlen =>
      exfalso
      simp only [fatEntryCount, List.length_nil, List.length_cons] at hlen
      omega
  | case2 a b0 b1 rest =>
    intro hf _ hlen
    -- one trailing even entry over a two-byte buffer tail
    simp only [fatEntryCount, List.length_cons, List.length_singleton] at hlen
    have hrest : rest = [] := by
      cases rest with
      | nil => rfl
      | cons c cs => exfalso; simp only [List.length_cons, List.length_nil] at hlen; omega
    subst hrest
    have ha : a < 4096 := hf a (by simp)
    show fatUnpackAux false _ = _
    simp only [fatFlushBytes, fatUnpackAux, fatUnpackAux_single]
    simp only [List.cons.injEq, and_true]
    omega
  | case3 a buf h =>
    intro _ _ hlen
    exfalso
    -- a singleton entry list forces a buffer of exactly two bytes
    simp only [fatEntryCount, List.length_singleton] at hlen
    match buf, h, hlen with
    | [], _, hlen => simp only [List.length_nil] at hlen; omega
    | [b], _, hlen => simp only [List.length_singleton] at hlen; omega
    | b0 :: b1 :: rest, h, _ => exact h b0 b1 rest rfl
  | case4 a b es b0 b1 b2 rest ih =>
    intro hf hb hlen
    have ha : a < 4096 := hf a (by simp)
    have hbv : b < 4096 := hf b (by simp)
    simp only [fatEntryCount, List.length_cons] at hlen
    show fatUnpackAux false _ = _
    simp only [fatFlushBytes, fatUnpackAux]
    simp only [List.cons.injEq]
    refine ⟨by omega, by omega, ?_⟩
    exact ih (fun x hx => hf x (by simp [hx])) (fun y hy => hb y (by simp [hy]))
      (by simp only [fatEntryCount, List.length_cons]; omega)
  | case5 a b es buf h =>
    intro _ _ hlen
    exfalso
    -- at least two entries force at least three buffer bytes
    simp only [fatEntryCount, List.length_cons] at hlen
    match buf, h, hlen with
    | [], _, hlen => simp only [List.length_nil] at hlen; omega
    | [c], _, hlen => simp only [List.length_singleton] at hlen; omega
    | [c, d], _, hlen => simp only [List.length_cons, List.length_singleton, List.length_nil] at hlen; omega
    | c :: d :: e :: rest, h, _ => exact h c d e rest rfl

/-- Witness for C1 at a concrete odd-length entry array over a
nontrivial (all-0xFF) initial buffer. -/
theorem fat_roundtrip_witness :
    fatUnpackBytes (fatFlushBytes [2748, 291, 3567] [255, 255, 255, 255, 255]) =
      [2748, 291, 3567] :=
  fat_roundtrip [2748, 291, 3567] [255, 255, 255, 255, 255]
    (by decide) (by decide) (by decide)

/-! ## Boot sector (`Floppy._boot_open`) and image loading -/

/-- Python `rstrip(" ")` on a byte/character-code list. -/
def rstripSpace (l : List Nat) : List Nat := (l.reverse.dropWhile (fun c => c == 32)).reverse

/-- The in-memory state of a `Floppy` instance: the raw image bytes,
the fields decoded from the boot sector, the offsets derived from
them, and the decoded 12-bit FAT.  `cluster_limit` is `Int` because
the source computes it with Python floor division on a difference that
can be negative for degenerate geometry. -/
structure Floppy where
  data : List Nat
  sector_size : Nat
  cluster_sects : Nat
  reserved_sects : Nat
  fat_count : Nat
  root_max : Nat
  sectors : Nat
  fat_sects : Nat
  track_sects : Nat
  heads : Nat
  volume_id : Nat
  volume_label : List Nat
  root : Nat
  cluster2 : Nat
  cluster_limit : Int
  fat : List Nat
  deriving Repr, DecidableEq

/-- `Floppy._boot_open` (src lines 227-259).  Error returns follow the
exceptions the Python interpreter actually raises on each path:
* a buffer shorter than 38 bytes reaches `raise self.Error(... % len(data))`
  whose message evaluates the undefined name `data`, so the builtin
  NameError is raised (src line 230);
* a buffer of exactly 38 bytes fails the index access `self.data[38]`
  with IndexError (src line 243);
* a non-ASCII volume label byte fails `.decode("ASCII")` with a
  Unicode error (src line 245);
* the declared-sectors overflow check raises `self.Error` proper
  (src line 247);
* a zero sector size or cluster size hits Python integer division by
  zero (src lines 250, 252);
* the two TwoSide geometry checks evaluate the misspelled attribute
  `self.error`, so the builtin AttributeError is raised (src lines
  256, 259). -/
def bootOpen (data : List Nat) : Except PyErr Floppy :=
  if data.length < 38 then .error .nameError
  else
    let sector_size := leNat data 11 2
    let cluster_sects := data.getD 13 0
    let reserved_sects := leNat data 14 2
    let fat_count := data.getD 16 0
    let root_max := leNat data 17 2
    let sectors := leNat data 19 2
    let fat_sects := leNat data 22 2
    let track_sects := leNat data 24 2
    let heads := leNat data 26 2
    if data.length ≤ 38 then .error .indexError
    else
      let hasVol : Bool := data.getD 38 0 == 0x29 && 54 ≤ data.length
      if hasVol && (sliceAB data 43 54).any (fun c => 128 ≤ c) then .error .unicodeError
      else
        let volume_id := if hasVol then leNat data 39 4 else 0
        let volume_label := if hasVol then rstripSpace (sliceAB data 43 54) else []
        if data.length < sectors * sector_size then .error .floppyError
        else
          let root := sector_size * (reserved_sects + fat_count * fat_sects)
          if sector_size = 0 then .error .zeroDivError
          else
            let root_sectors := (root_max * 32 + (sector_size - 1)) / sector_size
            let cluster2 := root + sector_size * root_sectors
            if cluster_sects = 0 then .error .zeroDivError
            else
              let cluster_limit :=
                Int.fdiv ((sectors : Int) - (cluster2 / sector_size : Nat)) (cluster_sects : Int) + 2
              if heads ≠ 2 then .error .attributeError
              else if cluster2 ≠ sector_size * track_sects then .error .attributeError
              else .ok {
                data := data
                sector_size := sector_size
                cluster_sects := cluster_sects
                reserved_sects := reserved_sects
                fat_count := fat_count
                root_max := root_max
                sectors := sectors
                fat_sects := fat_sects
                track_sects := track_sects
                heads := heads
                volume_id := volume_id
                volume_label := volume_label
                root := root
                cluster2 := cluster2
                cluster_limit := cluster_limit
                fat := [] }

/-- Byte offset where the first FAT copy starts
(`fat_start = reserved_sects * sector_size`, src line 300). -/
def fatStart (f : Floppy) : Nat := f.reserved_sects * f.sector_size

/-- Byte size of one FAT copy (the source's shadowing local
`fat_sects = self.fat_sects * self.sector_size`, src line 301). -/
def fatRegion (f : Floppy) : Nat := f.fat_sects * f.sector_size

/-- `Floppy._fat_open` (src lines 298-327): bounds checks, the
byte-for-byte comparison of every further FAT copy against copy 0
(a mismatch raises `Floppy.Error`, never repairs anything), then the
12-bit unpacking of copy 0 into the in-memory FAT list.  The function
only reads `data`; the image bytes it returns are the ones it was
given. -/
def fatOpen (f : Floppy) : Except PyErr Floppy :=
  if f.sectors < f.reserved_sects + f.fat_count * f.fat_sects then .error .floppyError
  else if f.fat_count < 1 ∨ f.fat_sects < 1 then .error .floppyError
  else if (List.range (f.fat_count - 1)).any (fun k =>
      sliceAB f.data (fatStart f + fatRegion f * (k + 1))
          (fatStart f + fatRegion f * (k + 1) + fatRegion f) !=
        sliceAB f.data (fatStart f) (fatStart f + fatRegion f)) then .error .floppyError
  else .ok { f with fat := fatUnpackBytes (sliceAB f.data (fatStart f) (fatStart f + fatRegion f)) }

/-- `Floppy.__init__` (src lines 221-225): parse the boot sector, then
the FAT.  Any exception propagates; no usable instance results. -/
def ofBytes (data : List Nat) : Except PyErr Floppy :=
  match bootOpen data with
  | .error e => .error e
  | .ok f => fatOpen f

/-- A small, fully valid synthetic image (all the embedded operations
are parametric in the boot geometry; this one keeps concrete
evaluations cheap).  Geometry: 32-byte sectors, 1 sector per cluster,
1 reserved sector, 2 FAT copies of 2 sectors each, 4 root entries,
36 sectors total, 9 sectors per track, 2 heads.  Layout: boot sector
at 0, FAT copies at 32 and 96, root directory at 160, cluster 2 at
byte 288 = sector_size * track_sects, clusters 2..28. -/
def tinyBytes : List Nat :=
  [0, 0, 0, 0, 0, 0, 0, 0, 0, 0, 0,
   32, 0,
   1,
   1, 0,
   2,
   4, 0,
   36, 0,
   249,
   2, 0,
   9, 0,
   2, 0,
   0, 0, 0, 0] ++
  ([240, 255, 255] ++ List.replicate 61 0) ++
  ([240, 255, 255] ++ List.replicate 61 0) ++
  List.replicate 128 0 ++
  List.replicate 864 0

/-- The `Floppy` state after `Floppy(tinyBytes)`. -/
def tinyFloppy : Floppy := {
  data := tinyBytes
  sector_size := 32
  cluster_sects := 1
  reserved_sects := 1
  fat_count := 2
  root_max := 4
  sectors := 36
  fat_sects := 2
  track_sects := 9
  heads := 2
  volume_id := 0
  volume_label := []
  root := 160
  cluster2 := 288
  cluster_limit := 29
  fat := 4080 :: 4095 :: List.replicate 40 0 }

set_option maxRecDepth 10000 in
theorem ofBytes_tiny : ofBytes tinyBytes = .ok tinyFloppy := by rfl

/-- The `Floppy` state right after `_boot_open` on the tiny image
(before `_fat_open` fills in the FAT). -/
def tinyBoot : Floppy := { tinyFloppy with fat := [] }

/-- Facts available about any successfully parsed boot sector: the
stored bytes are the input bytes, both length checks passed, and the
two TwoSide geometry checks passed. -/
theorem bootOpen_ok (d : List Nat) (f : Floppy) (h : bootOpen d = .ok f) :
    f.data = d ∧ 39 ≤ d.length ∧ f.sectors * f.sector_size ≤ d.length ∧ f.heads = 2 ∧
    f.cluster2 = f.sector_size * f.track_sects ∧ f.fat = [] ∧
    f.sector_size ≠ 0 ∧ f.cluster_sects ≠ 0 := by
  simp only [bootOpen] at h
  split at h
  · exact (Except.noConfusion h)
  split at h
  · exact (Except.noConfusion h)
  split at h
  · exact (Except.noConfusion h)
  split at h
  · exact (Except.noConfusion h)
  split at h
  · exact (Except.noConfusion h)
  split at h
  · exact (Except.noConfusion h)
  split at h
  · exact (Except.noConfusion h)
  split at h
  · exact (Except.noConfusion h)
  injection h with h
  subst h
  dsimp only
  refine ⟨rfl, by omega, by omega, by omega, by omega, rfl, by assumption, by assumption⟩

/-- C9 (code_bug record).  Constructing an Image from a byte buffer
never succeeds when the buffer is too short for the boot sector, when
it is shorter than the declared sector count times sector size, when
heads is not 2, or when the root-directory region does not end exactly
at one track boundary (second conjunct, stated contrapositively: every
successful parse satisfies all four conditions).  However, the claim's
"fails with FormatError" does not hold for the exception kind: on a
too-short buffer the `raise self.Error(...)` line interpolates the
undefined name `data` into its message, so the builtin NameError is
raised instead of `Floppy.Error` (first conjunct evaluates the
embedded loader on a concrete 37-byte input); the heads / track
boundary checks similarly evaluate the misspelled `self.error` and
raise AttributeError. -/
theorem bootOpen_failure_conditions :
    bootOpen (List.replicate 37 0) = .error .nameError ∧
    ∀ d f, bootOpen d = .ok f →
      39 ≤ d.length ∧ f.sectors * f.sector_size ≤ d.length ∧
      f.heads = 2 ∧ f.cluster2 = f.sector_size * f.track_sects := by
  constructor
  · rfl
  · intro d f h
    obtain ⟨-, h1, h2, h3, h4, -⟩ := bootOpen_ok d f h
    exact ⟨h1, h2, h3, h4⟩

set_option maxRecDepth 10000 in
/-- Witness for C9's second conjunct at the concrete tiny image. -/
theorem bootOpen_failure_conditions_witness :
    39 ≤ tinyBytes.length ∧ tinyBoot.sectors * tinyBoot.sector_size ≤ tinyBytes.length ∧
    tinyBoot.heads = 2 ∧ tinyBoot.cluster2 = tinyBoot.sector_size * tinyBoot.track_sects :=
  bootOpen_failure_conditions.2 tinyBytes tinyBoot (by rfl)

set_option maxRecDepth 10000 in
/-- Concrete evaluations of the loader on each of C9's failing
conditions, showing which exception is actually raised: a 38-byte
buffer fails the `self.data[38]` access with IndexError; an image
declaring more sectors than it has bytes raises `Floppy.Error`; one
with 1 head, and one whose root region does not end at the first track
boundary, raise AttributeError via the misspelled `self.error`. -/
theorem bootOpen_failure_kinds :
    bootOpen (List.replicate 38 0) = .error .indexError ∧
    bootOpen (splice tinyBytes 19 [37, 0]) = .error .floppyError ∧
    bootOpen (splice tinyBytes 26 [1, 0]) = .error .attributeError ∧
    bootOpen (splice tinyBytes 24 [8, 0]) = .error .attributeError := by
  refine ⟨rfl, by rfl, by rfl, by rfl⟩

/-- C8.  First conjunct: whenever any configured FAT copy `i ≥ 1`
differs byte-for-byte from copy 0, loading the image fails with an
exception, so no usable instance results.  Second conjunct: a
successful load returns the input bytes unaltered — the loader never
rewrites a FAT copy to repair anything. -/
theorem fat_mismatch_fatal :
    (∀ d f i, bootOpen d = .ok f → 1 ≤ i → i < f.fat_count →
        sliceAB f.data (fatStart f + fatRegion f * i)
            (fatStart f + fatRegion f * i + fatRegion f) ≠
          sliceAB f.data (fatStart f) (fatStart f + fatRegion f) →
        ∃ e, ofBytes d = .error e) ∧
    (∀ d f, ofBytes d = .ok f → f.data = d) := by
  constructor
  · intro d f i hboot h1 h2 hne
    have hof : ofBytes d = fatOpen f := by simp only [ofBytes, hboot]
    rw [hof]
    unfold fatOpen
    split
    · exact ⟨_, rfl⟩
    split
    · exact ⟨_, rfl⟩
    split
    · exact ⟨_, rfl⟩
    next hany =>
      exfalso
      apply hany
      rw [List.any_eq_true]
      refine ⟨i - 1, ?_, ?_⟩
      · rw [List.mem_range]; omega
      · rw [bne_iff_ne]
        have hi : i - 1 + 1 = i := by omega
        rw [hi]
        exact hne
  · intro d f h
    cases hb : bootOpen d with
    | error e =>
      rw [ofBytes, hb] at h
      exact (Except.noConfusion h)
    | ok f0 =>
      obtain ⟨hdata, -⟩ := bootOpen_ok d f0 hb
      simp only [ofBytes, hb] at h
      unfold fatOpen at h
      split at h
      · exact (Except.noConfusion h)
      split at h
      · exact (Except.noConfusion h)
      split at h
      · exact (Except.noConfusion h)
      injection h with h
      subst h
      exact hdata

/-- The tiny image with one byte of the second FAT copy corrupted
(byte 99 is byte 3 of FAT copy 1). -/
def tinyBadBytes : List Nat := tinyBytes.set 99 5

/-- The boot-sector parse of the corrupted tiny image (the boot sector
itself is untouched). -/
def tinyBadBoot : Floppy := { tinyBoot with data := tinyBadBytes }

set_option maxRecDepth 10000 in
/-- Witness for C8 at concrete images: the corrupted tiny image fails
to load, and the intact tiny image loads with its bytes unaltered. -/
theorem fat_mismatch_fatal_witness :
    (∃ e, ofBytes tinyBadBytes = .error e) ∧ tinyFloppy.data = tinyBytes :=
  ⟨fat_mismatch_fatal.1 tinyBadBytes tinyBadBoot 1 (by rfl) (by decide) (by decide)
      (by decide),
    fat_mismatch_fatal.2 tinyBytes tinyFloppy ofBytes_tiny⟩

/-! ## Directory entries and 8.3 names
(`Floppy._filestring`, `Floppy.FileEntry`) -/

/-- `Floppy._filestring` (src lines 76-82): ASCII-encode, pad with
spaces to `len`.  A non-ASCII character fails `s.encode("ASCII")` with
a Unicode error; a string longer than `len` reaches
`raise self.Error(...)`, which evaluates the undefined name `self`
(the function has no `self` parameter), so the builtin NameError is
raised. -/
def filestring (s : List Nat) (len : Nat) : Except PyErr (List Nat) :=
  if s.any (fun c => 128 ≤ c) then .error .unicodeError
  else
    let b := s ++ List.replicate (len - s.length) 32
    if b.length ≠ len then .error .nameError
    else .ok b

/-- `Floppy.FileEntry`: the decoded 32-byte directory entry plus the
engine-tracked location (owning directory start cluster and slot
index).  The source initializes `dir_cluster`/`dir_index` to -1 for
fresh entries and only ever reads them after they have been assigned a
real location, so they are modeled as `Nat`. -/
structure FileEntry where
  data : List Nat
  path : List Nat
  incipit : Nat
  attributes : Nat
  write_time : Nat
  write_date : Nat
  cluster : Nat
  size : Nat
  dir_cluster : Nat
  dir_index : Nat
  deriving Repr, DecidableEq

/-- `FileEntry.__init__` with `data=None` (src lines 91-97): a blank
entry, 0xE5 incipit, all other bytes zero. -/
def entryNew : FileEntry := {
  data := 229 :: List.replicate 31 0
  path := []
  incipit := 229
  attributes := 0
  write_time := 0
  write_date := 0
  cluster := 0
  size := 0
  dir_cluster := 0
  dir_index := 0 }

/-- `FileEntry.__init__` unpacking a 32-byte record (src lines
91-113).  The name is re-assembled as `filename.rstrip(" ")`, plus a
dot and `extension.rstrip(" ")` when the latter is nonempty; the
numeric fields come from `struct.unpack("<BHHHHHHHHL", data[11:32])`.
(The Python `decode("ASCII")` would fail on bytes over 127; the
embedding keeps the raw codes, and the theorems below only traverse
directories whose stored names are ASCII.) -/
def entryOfBytes (b : List Nat) (dc di : Nat) : FileEntry :=
  let incipit := b.getD 0 0
  let path :=
    if incipit ≠ 0 ∧ incipit ≠ 229 then
      let fn := rstripSpace (sliceAB b 0 8)
      let ext := rstripSpace (sliceAB b 8 11)
      if 0 < ext.length then fn ++ [46] ++ ext else fn
    else []
  { data := sliceAB b 0 32
    path := path
    incipit := incipit
    attributes := b.getD 11 0
    write_time := leNat b 22 2
    write_date := leNat b 24 2
    cluster := leNat b 26 2
    size := leNat b 28 4
    dir_cluster := dc
    dir_index := di }

/-- `FileEntry.compile` (src lines 115-136): split the stored name at
its first dot into filename and extension, re-encode both through
`_filestring` (8 and 3 bytes) unless the incipit marks a terminal
(0x00) or the (misspelled, src line 125: `0xEF` instead of the 0xE5
deleted sentinel) entry, then rewrite the attribute byte and the
packed time/date/cluster/size tail, keeping bytes 12-21 from the
stored record. -/
def entryCompile (e : FileEntry) : Except PyErr (List Nat) :=
  let fn := if e.path.contains 46 then e.path.take (e.path.indexOf 46) else e.path
  let ext := if e.path.contains 46 then e.path.drop (e.path.indexOf 46 + 1) else []
  let withName : Except PyErr (List Nat) :=
    if e.incipit ≠ 0 ∧ e.incipit ≠ 239 then
      match filestring fn 8, filestring ext 3 with
      | .ok f8, .ok e3 => .ok (splice (splice e.data 0 f8) 8 e3)
      | .error er, _ => .error er
      | _, .error er => .error er
    else .ok (e.data.set 0 e.incipit)
  match withName with
  | .error er => .error er
  | .ok d1 =>
      .ok (splice (d1.set 11 e.attributes) 22
        (leBytes e.write_time 2 ++ leBytes e.write_date 2 ++
         leBytes e.cluster 2 ++ leBytes e.size 4))

/-- `FileEntry.set_name` (src lines 161-164): store the name and set
the incipit to the first byte of the name padded to 12 characters. -/
def setName (e : FileEntry) (s : List Nat) : Except PyErr FileEntry :=
  match filestring s 12 with
  | .error er => .error er
  | .ok b => .ok { e with path := s, incipit := b.getD 0 0 }

/-- `FileEntry.new_file` (src lines 172-178); the current date/time of
`set_now` is passed in as `wd`/`wt`. -/
def newFile (name : List Nat) (wd wt : Nat) : Except PyErr FileEntry :=
  match setName entryNew name with
  | .error er => .error er
  | .ok e => .ok { e with write_date := wd, write_time := wt, attributes := 0 }

/-- `FileEntry.new_dir` (src lines 180-186). -/
def newDir (name : List Nat) (wd wt : Nat) : Except PyErr FileEntry :=
  match setName entryNew name with
  | .error er => .error er
  | .ok e => .ok { e with write_date := wd, write_time := wt, attributes := 16 }

/-- `FileEntry.new_terminal` (src lines 198-202). -/
def newTerminal : FileEntry := { entryNew with incipit := 0 }

/-- A component is 8.3-decomposable in the sense of the claim: either
it has no dot and at most 8 characters, or it splits at some dot into
at most 8 name characters before it and at most 3 extension characters
after it. -/
def decomp83b (s : List Nat) : Bool :=
  (!s.contains 46 && decide (s.length ≤ 8)) ||
  (List.range s.length).any (fun p =>
    s.getD p 0 == 46 && decide (p ≤ 8) && decide (s.length ≤ p + 4))

theorem filestring_ascii (s : List Nat) (len : Nat) (hascii : ∀ c ∈ s, c < 128) :
    filestring s len =
      if (s ++ List.replicate (len - s.length) 32).length ≠ len then .error .nameError
      else .ok (s ++ List.replicate (len - s.length) 32) := by
  have hany : s.any (fun c => 128 ≤ c) = false := by
    rw [List.any_eq_false]
    intro c hc
    simp only [decide_eq_true_eq]
    exact Nat.not_le.mpr (hascii c hc)
  simp only [filestring, hany, Bool.false_eq_true, if_false]

theorem filestring_ascii_long (s : List Nat) (len : Nat) (hascii : ∀ c ∈ s, c < 128)
    (hlong : len < s.length) : filestring s len = .error .nameError := by
  rw [filestring_ascii s len hascii, if_pos]
  simp only [List.length_append, List.length_replicate]
  omega

theorem filestring_ascii_ok (s : List Nat) (len : Nat) (hascii : ∀ c ∈ s, c < 128)
    (hfit : s.length ≤ len) :
    filestring s len = .ok (s ++ List.replicate (len - s.length) 32) := by
  rw [filestring_ascii s len hascii, if_neg]
  simp only [List.length_append, List.length_replicate]
  omega

/-- C10 counterexample.  The 9-character ASCII component "ABCDEFGHI"
is not 8.3-decomposable, yet building its directory entry
(`FileEntry.new_file`, which runs `set_name` — this is where the claim
locates the failure) succeeds: `_filestring(s, 12)` only enforces a
12-character bound, so nothing fails at entry construction.  (The
NameError only comes later, when `compile()` serializes the entry; see
the amended theorem.) -/
theorem nondecomposable_constructs :
    decomp83b [65, 66, 67, 68, 69, 70, 71, 72, 73] = false ∧
    ∃ e, newFile [65, 66, 67, 68, 69, 70, 71, 72, 73] 0 0 = .ok e :=
  ⟨by decide, ⟨_, rfl⟩⟩

/-- C10 amended.  For an ASCII path component that is not
8.3-decomposable (and whose first stored byte is not the 0x00 terminal
marker), building the directory entry and serializing it — the
`new_file` / `compile` pipeline that `add_file_path` runs — fails with
NameError: at `set_name` when the component exceeds 12 characters,
otherwise at `compile`.  (A non-ASCII component instead fails with a
Unicode error inside `encode("ASCII")`, which is why ASCII is a
hypothesis here.) -/
theorem nondecomposable_name_error (s : List Nat) (wd wt : Nat)
    (hascii : ∀ c ∈ s, c < 128) (hinc : s.getD 0 32 ≠ 0)
    (hnd : decomp83b s = false) :
    (newFile s wd wt).bind entryCompile = .error .nameError := by
  by_cases hlen : s.length ≤ 12
  · -- construction succeeds; compile must fail
    have hfs : filestring s 12 = .ok (s ++ List.replicate (12 - s.length) 32) :=
      filestring_ascii_ok s 12 hascii hlen
    have hgd : (s ++ List.replicate (12 - s.length) 32).getD 0 0 = s.getD 0 32 := by
      cases s with
      | nil => rfl
      | cons c cs => rfl
    have hlt : s.getD 0 32 < 128 := by
      cases s with
      | nil => decide
      | cons c cs => exact hascii c (by simp)
    simp only [newFile, setName, hfs, Except.bind, entryCompile, hgd]
    rw [if_pos (by constructor <;> omega)]
    by_cases hdot : s.contains 46
    · -- split at the first dot
      have hmem : 46 ∈ s := List.mem_of_elem_eq_true hdot
      have hplt : s.indexOf 46 < s.length := List.indexOf_lt_length.mpr hmem
      have hget : s.getD (s.indexOf 46) 0 = 46 := by
        rw [List.getD_eq_getElem _ _ hplt]
        exact List.getElem_indexOf hplt
      have hsplit : ¬(s.indexOf 46 ≤ 8 ∧ s.length ≤ s.indexOf 46 + 4) := by
        intro ⟨h8, h4⟩
        have : decomp83b s = true := by
          simp only [decomp83b, Bool.or_eq_true, List.any_eq_true]
          right
          exact ⟨s.indexOf 46, by rwa [List.mem_range], by
            simp only [Bool.and_eq_true, beq_iff_eq, decide_eq_true_eq]
            exact ⟨⟨hget, h8⟩, h4⟩⟩
        rw [hnd] at this
        exact Bool.false_ne_true this
      simp only [hdot, if_true]
      by_cases h8 : s.indexOf 46 ≤ 8
      · -- the extension is too long
        have h4 : s.indexOf 46 + 4 < s.length := by omega
        have hfn : filestring (s.take (s.indexOf 46)) 8 =
            .ok (s.take (s.indexOf 46) ++
              List.replicate (8 - (s.take (s.indexOf 46)).length) 32) := by
          apply filestring_ascii_ok
          · intro c hc; exact hascii c (List.mem_of_mem_take hc)
          · rw [List.length_take]; omega
        have hext : filestring (s.drop (s.indexOf 46 + 1)) 3 = .error .nameError := by
          apply filestring_ascii_long
          · intro c hc; exact hascii c (List.mem_of_mem_drop hc)
          · rw [List.length_drop]; omega
        rw [hfn, hext]
      · -- the filename part is too long; the extension still encodes
        have hfn : filestring (s.take (s.indexOf 46)) 8 = .error .nameError := by
          apply filestring_ascii_long
          · intro c hc; exact hascii c (List.mem_of_mem_take hc)
          · rw [List.length_take]; omega
        have hext : filestring (s.drop (s.indexOf 46 + 1)) 3 =
            .ok (s.drop (s.indexOf 46 + 1) ++
              List.replicate (3 - (s.drop (s.indexOf 46 + 1)).length) 32) := by
          apply filestring_ascii_ok
          · intro c hc; exact hascii c (List.mem_of_mem_drop hc)
          · rw [List.length_drop]; omega
        rw [hfn, hext]
    · -- no dot: the whole component is the filename and exceeds 8
      have hdotf : s.contains 46 = false := by
        revert hdot; cases s.contains 46 <;> simp
      have h8 : ¬ s.length ≤ 8 := by
        intro h8
        have : decomp83b s = true := by
          simp only [decomp83b, Bool.or_eq_true, Bool.and_eq_true]
          left
          exact ⟨by rw [hdotf]; rfl, by simpa using h8⟩
        rw [hnd] at this
        exact Bool.false_ne_true this
      simp only [hdotf, Bool.false_eq_true, if_false]
      have hfn : filestring s 8 = .error .nameError :=
        filestring_ascii_long s 8 hascii (by omega)
      have hext : filestring [] 3 = .ok (List.replicate 3 32) :=
        filestring_ascii_ok [] 3 (by simp) (by simp)
      rw [hfn, hext]
  · -- the component exceeds 12 characters: set_name itself fails
    have : filestring s 12 = .error .nameError :=
      filestring_ascii_long s 12 hascii (by omega)
    simp only [newFile, setName, this, Except.bind]

/-- Witness for C10's amended theorem at the concrete 11-character
dotless component "ABCDEFGHEXT". -/
theorem nondecomposable_name_error_witness :
    (newFile [65, 66, 67, 68, 69, 70, 71, 72, 69, 88, 84] 0 0).bind entryCompile =
      .error .nameError :=
  nondecomposable_name_error [65, 66, 67, 68, 69, 70, 71, 72, 69, 88, 84] 0 0
    (by decide) (by decide) (by decide)

/-! ## TwoSide geometry and the cluster allocator
(`Floppy._add_chain`, `Floppy._reserve_side1`) -/

/-- Clusters fully on side 1 of each track
(`cside = track_sects // cluster_sects`, src line 414; rounds down to
avoid split clusters). -/
def cside (f : Floppy) : Nat := f.track_sects / f.cluster_sects

/-- Number of track pairs
(`tcount = sectors // (track_sects * 2)`, src line 415). -/
def tcountSides (f : Floppy) : Nat := f.sectors / (f.track_sects * 2)

/-- Total clusters on side 1 only
(`csplit = (tcount-1) * cside`, src line 416; the first track holds
boot sector, FATs and root).  The source computes this in Python ints;
`Nat` subtraction coincides for the meaningful case `tcount ≥ 1`,
which every theorem below satisfies. -/
def csplit (f : Floppy) : Nat := (tcountSides f - 1) * cside f

/-- Clusters per dual-track
(`cdual = (track_sects * 2) // cluster_sects`, src line 417). -/
def cdual (f : Floppy) : Nat := f.track_sects * 2 / f.cluster_sects

/-- The TwoSide scan permutation (src lines 418-427 and identically
457-471): scan position `i` (a raw FAT index, `l = i - 2`) is mapped
to a geometry triple — positions below `csplit` go to head 0, the rest
to head 1 — and back to the FAT cluster index
`j = itrack*cdual + (1-ihead)*(cdual-cside) + icluster + 2` that
occupies that position.  (For `cluster_sects = 0` the Python source
would raise ZeroDivisionError; `Nat` division by zero makes this
total, and all theorems below assume positive geometry.) -/
def sideJ (f : Floppy) (i : Nat) : Nat :=
  let l := i - 2
  if l < csplit f then
    let icluster := l % cside f
    let itrack := l / cside f
    let ihead := 0
    itrack * cdual f + (1 - ihead) * (cdual f - cside f) + icluster + 2
  else
    let icluster := (l - csplit f) % (cdual f - cside f)
    let itrack := (l - csplit f) / (cdual f - cside f)
    let ihead := 1
    itrack * cdual f + (1 - ihead) * (cdual f - cside f) + icluster + 2

/-- `Floppy._cluster_offset` (src lines 366-370). -/
def clusterOffset (f : Floppy) (cluster : Nat) : Nat :=
  if cluster < 2 then f.root
  else f.cluster2 + f.sector_size * f.cluster_sects * (cluster - 2)

/-- Clusters needed for a payload
(`clusters = ceil(len(data)/cluster_size)`, minimum 1, src lines
405-408). -/
def clustersNeeded (f : Floppy) (n : Nat) : Nat :=
  let cluster_size := f.sector_size * f.cluster_sects
  let c := (n + cluster_size - 1) / cluster_size
  if c < 1 then 1 else c

/-- The free-cluster scan of `Floppy._add_chain` (src lines 410-433):
`for i in range(2, len(fat))`, skip scan positions mapping past
`cluster_limit`, collect `j` when `fat[j] == 0`, stop as soon as
enough clusters are collected.  The first argument counts the
remaining loop iterations (`len(fat) - i`, supplied exactly by
`addChain`), so the recursion is structural and computable. -/
def chainSelect (f : Floppy) : Nat → Nat → Nat → List Nat → List Nat
  | 0, _, _, chain => chain
  | fuel + 1, clusters, i, chain =>
      let j := sideJ f i
      if (f.cluster_limit : Int) ≤ (j : Int) then chainSelect f fuel clusters (i + 1) chain
      else
        let chain1 := if f.fat.getD j 0 = 0 then chain ++ [j] else chain
        if clusters ≤ chain1.length then chain1
        else chainSelect f fuel clusters (i + 1) chain1

/-- The chain-storing loop of `Floppy._add_chain` (src lines 437-440):
link consecutive chain members, terminate the last with 0xFFF. -/
def fatLink : List Nat → List Nat → List Nat
  | fat, [] => fat
  | fat, [c] => fat.set c 4095
  | fat, c :: c2 :: rest => fatLink (fat.set c c2) (c2 :: rest)

/-- The data-storing loop of `Floppy._add_chain` (src lines 442-449):
write the payload cluster-chunk by cluster-chunk at each chain
member's offset.  (A zero cluster size with a nonempty payload would
loop forever in Python; here the recursion is on the chain, which the
source guarantees covers the payload.) -/
def writeChainData (f : Floppy) : List Nat → List Nat → Floppy
  | _, [] => f
  | [], _ => f
  | c :: rest, data =>
      let cluster_size := f.sector_size * f.cluster_sects
      let write := min data.length cluster_size
      let f1 := { f with data := splice f.data (clusterOffset f c) (data.take write) }
      writeChainData f1 rest (data.drop write)

/-- `Floppy._add_chain` (src lines 403-451).  Returns the updated
state and the start cluster, or -1 when not enough free clusters
exist (in which case the state is unchanged: the scan mutates
nothing). -/
def addChain (f : Floppy) (data : List Nat) : Floppy × Int :=
  let clusters := clustersNeeded f data.length
  let chain := chainSelect f (f.fat.length - 2) clusters 2 []
  if chain.length < clusters then (f, -1)
  else
    let f1 := { f with fat := fatLink f.fat chain }
    (writeChainData f1 chain data, (chain.headD 0 : Int))

/-- The loop of `Floppy._reserve_side1` (src lines 456-479), carrying
the mutating FAT list and the running count; the first argument counts
the remaining iterations of `for i in range(2, cluster_limit)`. -/
def reserveLoop (f : Floppy) (reserve : Bool) : Nat → List Nat → Int → Nat → List Nat × Int
  | 0, fat, count, _ => (fat, count)
  | fuel + 1, fat, count, i =>
      let j := sideJ f i
      if i - 2 < csplit f then
        if fat.getD j 0 = 0 then
          reserveLoop f reserve fuel (if reserve then fat.set j 4080 else fat)
            (count + 1) (i + 1)
        else reserveLoop f reserve fuel fat count (i + 1)
      else
        if fat.getD j 0 ≠ 0 then reserveLoop f reserve fuel fat (count - 1) (i + 1)
        else reserveLoop f reserve fuel fat count (i + 1)

/-- `Floppy._reserve_side1` (src lines 453-479): count (and when
`reserve` is set, mark with the 0xFF0 sentinel) the free side-1
clusters, minus one for every used side-2 cluster, over
`range(2, cluster_limit)`. -/
def reserveSide1 (f : Floppy) (reserve : Bool) : Floppy × Int :=
  let r := reserveLoop f reserve (f.cluster_limit.toNat - 2) f.fat 0 2
  ({ f with fat := r.1 }, r.2)

/-- `Floppy.free_side1` (src lines 481-484). -/
def freeSide1 (f : Floppy) : Int := (reserveSide1 f false).2

/-- `Floppy.close_side1` (src lines 486-491; the `print` is output
only). -/
def closeSide1 (f : Floppy) : Floppy × Int := reserveSide1 f true

theorem getD_set_ne (l : List Nat) (m n v : Nat) (h : m ≠ n) :
    (l.set m v).getD n 0 = l.getD n 0 := by
  simp [List.getD_eq_getElem?_getD, List.getElem?_set_ne h]

theorem getD_set_self (l : List Nat) (m v : Nat) (h : m < l.length) :
    (l.set m v).getD m 0 = v := by
  simp [List.getD_eq_getElem?_getD, List.getElem?_set_self, h]

/-- Number of scan positions in `[i, i+n)` holding a free side-1
cluster (the positions `_reserve_side1` counts positively). -/
def countFreeSide1 (f : Floppy) (i n : Nat) : Nat :=
  (List.range' i n).countP (fun k =>
    decide (k - 2 < csplit f) && (f.fat.getD (sideJ f k) 0 == 0))

/-- Number of scan positions in `[i, i+n)` holding a used side-2
cluster (the positions `_reserve_side1` counts negatively). -/
def countUsedSide2 (f : Floppy) (i n : Nat) : Nat :=
  (List.range' i n).countP (fun k =>
    !decide (k - 2 < csplit f) && !(f.fat.getD (sideJ f k) 0 == 0))

theorem countFreeSide1_succ (f : Floppy) (i n : Nat) :
    countFreeSide1 f i (n + 1) =
      (if i - 2 < csplit f ∧ f.fat.getD (sideJ f i) 0 = 0 then 1 else 0) +
        countFreeSide1 f (i + 1) n := by
  simp only [countFreeSide1, List.range'_succ, List.countP_cons]
  by_cases h1 : i - 2 < csplit f <;> by_cases h2 : f.fat.getD (sideJ f i) 0 = 0 <;>
    simp [h1, h2] <;> omega

theorem countUsedSide2_succ (f : Floppy) (i n : Nat) :
    countUsedSide2 f i (n + 1) =
      (if ¬(i - 2 < csplit f) ∧ f.fat.getD (sideJ f i) 0 ≠ 0 then 1 else 0) +
        countUsedSide2 f (i + 1) n := by
  simp only [countUsedSide2, List.range'_succ, List.countP_cons]
  by_cases h1 : i - 2 < csplit f <;> by_cases h2 : f.fat.getD (sideJ f i) 0 = 0 <;>
    simp [h1, h2] <;> omega

/-- Full characterization of the reserving `_reserve_side1` loop over
the `n` scan positions `[i, i+n)`, assuming the carried FAT still
agrees with the original at every position not yet visited, and that
the scan permutation is injective on the scanned range: the returned
count adds the free-side-1 positions and subtracts the used-side-2
ones, and the returned FAT holds 0xFF0 exactly at the visited free
side-1 clusters, everything else unchanged. -/
theorem reserveLoop_spec (f : Floppy) :
    ∀ (n i : Nat), 2 ≤ i →
      (∀ k1 k2, 2 ≤ k1 → k1 < i + n → 2 ≤ k2 → k2 < i + n → k1 ≠ k2 →
        sideJ f k1 ≠ sideJ f k2) →
      ∀ (fat : List Nat) (count : Int),
      (∀ k, i ≤ k → k < i + n → fat.getD (sideJ f k) 0 = f.fat.getD (sideJ f k) 0) →
      (∀ k, i ≤ k → k < i + n → sideJ f k < fat.length) →
      (reserveLoop f true n fat count i).2 =
          count + countFreeSide1 f i n - countUsedSide2 f i n ∧
      (reserveLoop f true n fat count i).1.length = fat.length ∧
      (∀ p k, i ≤ k → k < i + n → k - 2 < csplit f → sideJ f k = p →
          f.fat.getD p 0 = 0 → (reserveLoop f true n fat count i).1.getD p 0 = 4080) ∧
      (∀ p, (∀ k, i ≤ k → k < i + n → k - 2 < csplit f → sideJ f k = p →
          f.fat.getD p 0 ≠ 0) →
          (reserveLoop f true n fat count i).1.getD p 0 = fat.getD p 0) := by
  intro n
  induction n with
  | zero =>
    intro i h2 hinj fat count hagree hbound
    refine ⟨?_, rfl, ?_, ?_⟩
    · simp [reserveLoop, countFreeSide1, countUsedSide2]
    · intro p k hik hklim _ _ _; omega
    · intro p _; rfl
  | succ n ih =>
    intro i h2 hinj fat count hagree hbound
    have hil : i < i + (n + 1) := by omega
    have hju : sideJ f i < fat.length := hbound i le_rfl hil
    have hag : fat.getD (sideJ f i) 0 = f.fat.getD (sideJ f i) 0 := hagree i le_rfl hil
    have hinj1 : ∀ k1 k2, 2 ≤ k1 → k1 < (i + 1) + n → 2 ≤ k2 → k2 < (i + 1) + n →
        k1 ≠ k2 → sideJ f k1 ≠ sideJ f k2 := by
      intro k1 k2 a1 a2 a3 a4 a5
      exact hinj k1 k2 a1 (by omega) a3 (by omega) a5
    simp only [reserveLoop]
    by_cases hs : i - 2 < csplit f
    · rw [if_pos hs]
      by_cases hz : fat.getD (sideJ f i) 0 = 0
      · -- a free side-1 cluster: reserved, counted +1
        rw [if_pos hz]
        simp only [if_true]
        have hz1 : f.fat.getD (sideJ f i) 0 = 0 := by rw [← hag]; exact hz
        have hagree1 : ∀ k, i + 1 ≤ k → k < (i + 1) + n →
            (fat.set (sideJ f i) 4080).getD (sideJ f k) 0 = f.fat.getD (sideJ f k) 0 := by
          intro k hk hkl
          rw [getD_set_ne _ _ _ _ (hinj i k h2 hil (by omega) (by omega) (by omega))]
          exact hagree k (by omega) (by omega)
        have hbound1 : ∀ k, i + 1 ≤ k → k < (i + 1) + n →
            sideJ f k < (fat.set (sideJ f i) 4080).length := by
          intro k hk hkl
          rw [List.length_set]
          exact hbound k (by omega) (by omega)
        obtain ⟨ihc, ihl, ih3, ih4⟩ :=
          ih (i + 1) (by omega) hinj1 (fat.set (sideJ f i) 4080) (count + 1)
            hagree1 hbound1
        refine ⟨?_, ?_, ?_, ?_⟩
        · rw [ihc, countFreeSide1_succ, countUsedSide2_succ,
            if_pos ⟨hs, hz1⟩, if_neg (by tauto)]
          push_cast
          ring
        · rw [ihl, List.length_set]
        · intro p k hik hklim hks hkj hpz
          rcases Nat.eq_or_lt_of_le hik with heq | hlt
          · -- the cluster reserved at this step
            subst heq
            by_cases hlater : ∃ k2, i + 1 ≤ k2 ∧ k2 < (i + 1) + n ∧ k2 - 2 < csplit f ∧
                sideJ f k2 = p ∧ f.fat.getD p 0 = 0
            · obtain ⟨k2, b1, b2, b3, b4, b5⟩ := hlater
              exact ih3 p k2 b1 b2 b3 b4 b5
            · rw [ih4 p (by
                  intro k2 hk2 hk2l hk2s hk2j hk2z
                  exact absurd ⟨k2, hk2, hk2l, hk2s, hk2j, hk2z⟩ hlater)]
              subst hkj
              exact getD_set_self fat (sideJ f i) 4080 hju
          · exact ih3 p k hlt (by omega) hks hkj hpz
        · intro p hnone
          have hpne : sideJ f i ≠ p := by
            intro hpe
            exact (hnone i le_rfl hil hs hpe) (hpe ▸ hz1)
          rw [ih4 p (fun k hk hkl hksp hkj hkz => hnone k (by omega) (by omega) hksp hkj hkz),
            getD_set_ne _ _ _ _ hpne]
      · -- a used side-1 cluster: skipped
        rw [if_neg hz]
        have hz1 : f.fat.getD (sideJ f i) 0 ≠ 0 := by rw [← hag]; exact hz
        obtain ⟨ihc, ihl, ih3, ih4⟩ :=
          ih (i + 1) (by omega) hinj1 fat count
            (fun k hk hkl => hagree k (by omega) (by omega))
            (fun k hk hkl => hbound k (by omega) (by omega))
        refine ⟨?_, ihl, ?_, ?_⟩
        · rw [ihc, countFreeSide1_succ, countUsedSide2_succ,
            if_neg (by tauto), if_neg (by tauto)]
          push_cast
          ring
        · intro p k hik hklim hks hkj hpz
          rcases Nat.eq_or_lt_of_le hik with heq | hlt
          · subst heq
            subst hkj
            exact absurd hpz hz1
          · exact ih3 p k hlt (by omega) hks hkj hpz
        · intro p hnone
          exact ih4 p (fun k hk hkl hksp hkj hkz => hnone k (by omega) (by omega) hksp hkj hkz)
    · rw [if_neg hs]
      have hside2 : ∀ (r : List Nat × Int),
          (∀ p k, i + 1 ≤ k → k < (i + 1) + n → k - 2 < csplit f → sideJ f k = p →
            f.fat.getD p 0 = 0 → r.1.getD p 0 = 4080) →
          (∀ p k, i ≤ k → k < i + (n + 1) → k - 2 < csplit f → sideJ f k = p →
            f.fat.getD p 0 = 0 → r.1.getD p 0 = 4080) := by
        intro r hr p k hik hklim hks hkj hpz
        rcases Nat.eq_or_lt_of_le hik with heq | hlt
        · subst heq; exact absurd hks hs
        · exact hr p k hlt (by omega) hks hkj hpz
      by_cases hz : fat.getD (sideJ f i) 0 ≠ 0
      · -- a used side-2 cluster: counted -1
        rw [if_pos hz]
        have hz1 : f.fat.getD (sideJ f i) 0 ≠ 0 := by rw [← hag]; exact hz
        obtain ⟨ihc, ihl, ih3, ih4⟩ :=
          ih (i + 1) (by omega) hinj1 fat (count - 1)
            (fun k hk hkl => hagree k (by omega) (by omega))
            (fun k hk hkl => hbound k (by omega) (by omega))
        refine ⟨?_, ihl, hside2 _ ih3, ?_⟩
        · rw [ihc, countFreeSide1_succ, countUsedSide2_succ,
            if_neg (by tauto), if_pos ⟨hs, hz1⟩]
          push_cast
          ring
        · intro p hnone
          exact ih4 p (fun k hk hkl hksp hkj hkz => hnone k (by omega) (by omega) hksp hkj hkz)
      · -- a free side-2 cluster: ignored
        rw [if_neg hz]
        have hz1 : f.fat.getD (sideJ f i) 0 = 0 := by
          rw [← hag]
          by_contra hcon
          exact hz hcon
        obtain ⟨ihc, ihl, ih3, ih4⟩ :=
          ih (i + 1) (by omega) hinj1 fat count
            (fun k hk hkl => hagree k (by omega) (by omega))
            (fun k hk hkl => hbound k (by omega) (by omega))
        refine ⟨?_, ihl, hside2 _ ih3, ?_⟩
        · rw [ihc, countFreeSide1_succ, countUsedSide2_succ,
            if_neg (by tauto), if_neg (by tauto)]
          push_cast
          ring
        · intro p hnone
          exact ih4 p (fun k hk hkl hksp hkj hkz => hnone k (by omega) (by omega) hksp hkj hkz)

/-- `_add_chain`'s scan only ever collects clusters whose FAT entry is
0 (free), beyond whatever was already in the accumulator. -/
theorem chainSelect_free_aux (f : Floppy) (clusters : Nat) :
    ∀ n i chain, ∀ q ∈ chainSelect f n clusters i chain,
      q ∈ chain ∨ f.fat.getD q 0 = 0 := by
  intro n
  induction n with
  | zero =>
    intro i chain q hq
    exact Or.inl hq
  | succ n ih =>
    intro i chain q hq
    simp only [chainSelect] at hq
    by_cases hskip : (f.cluster_limit : Int) ≤ ((sideJ f i : Nat) : Int)
    · rw [if_pos hskip] at hq
      exact ih (i + 1) chain q hq
    · rw [if_neg hskip] at hq
      by_cases hz : f.fat.getD (sideJ f i) 0 = 0
      · simp only [if_pos hz] at hq
        by_cases hstop : clusters ≤ (chain ++ [sideJ f i]).length
        · rw [if_pos hstop] at hq
          rcases List.mem_append.mp hq with h | h
          · exact Or.inl h
          · exact Or.inr (List.mem_singleton.mp h ▸ hz)
        · rw [if_neg hstop] at hq
          rcases ih (i + 1) (chain ++ [sideJ f i]) q hq with h | h
          · rcases List.mem_append.mp h with h2 | h2
            · exact Or.inl h2
            · exact Or.inr (List.mem_singleton.mp h2 ▸ hz)
          · exact Or.inr h
      · simp only [if_neg hz] at hq
        by_cases hstop : clusters ≤ chain.length
        · rw [if_pos hstop] at hq
          exact Or.inl hq
        · rw [if_neg hstop] at hq
          exact ih (i + 1) chain q hq

/-- A cluster holding the 0xFF0 reserved sentinel is never selected by
`_add_chain`'s scan. -/
theorem chainSelect_not_reserved (g : Floppy) (j : Nat) (hj : g.fat.getD j 0 = 4080)
    (fuel clusters : Nat) : j ∉ chainSelect g fuel clusters 2 [] := by
  intro hmem
  rcases chainSelect_free_aux g clusters fuel 2 [] j hmem with h | h
  · exact absurd h (List.not_mem_nil j)
  · rw [hj] at h
    exact absurd h (by omega)

/-- The tiny image with one side-2 cluster (cluster 2) already in
use. -/
def tinyUsed : Floppy := { tinyFloppy with fat := tinyFloppy.fat.set 2 4095 }

/-- C4 counterexample.  On `tinyUsed`, exactly K = 9 side-1 clusters
are free, but `close_side1` returns 8, not K: every used side-2
cluster is subtracted from the returned count (the count and the
reservation tally are different things). -/
theorem closeSide1_count_not_free_count :
    (countFreeSide1 tinyUsed 2 27 : Int) = 9 ∧ (closeSide1 tinyUsed).2 = 8 := by
  constructor
  · rfl
  · rfl

/-- C4 amended.  `close_side1` sets the FAT entry of every still-free
side-1 cluster (and nothing else) to the reserved sentinel 0xFF0 —
reserving exactly K entries when K side-1 clusters are free — and
returns K − U where U is the number of used side-2 clusters (negative
exactly when side 1 is over-subscribed into side 2, U > K); and no
`_add_chain` scan on any state can ever select a cluster whose FAT
entry holds 0xFF0.  Hypotheses: at least one data cluster exists, the
scan permutation is injective on the scanned range, and it stays
inside the FAT list (all hold for the shipped geometry and are
decidable per geometry). -/
theorem closeSide1_spec (f : Floppy)
    (hlim2 : 2 ≤ f.cluster_limit.toNat)
    (hinj : ∀ k1 < f.cluster_limit.toNat, ∀ k2 < f.cluster_limit.toNat,
      ¬(2 ≤ k1 ∧ 2 ≤ k2 ∧ k1 ≠ k2 ∧ sideJ f k1 = sideJ f k2))
    (hbound : ∀ k < f.cluster_limit.toNat, 2 ≤ k → sideJ f k < f.fat.length) :
    (closeSide1 f).2 = (countFreeSide1 f 2 (f.cluster_limit.toNat - 2) : Int) -
        (countUsedSide2 f 2 (f.cluster_limit.toNat - 2) : Int) ∧
    (closeSide1 f).1.fat.length = f.fat.length ∧
    (∀ p k, 2 ≤ k → k < f.cluster_limit.toNat → k - 2 < csplit f → sideJ f k = p →
        f.fat.getD p 0 = 0 → (closeSide1 f).1.fat.getD p 0 = 4080) ∧
    (∀ p, (∀ k, 2 ≤ k → k < f.cluster_limit.toNat → k - 2 < csplit f → sideJ f k = p →
        f.fat.getD p 0 ≠ 0) → (closeSide1 f).1.fat.getD p 0 = f.fat.getD p 0) ∧
    (∀ (g : Floppy) (j : Nat), g.fat.getD j 0 = 4080 →
        ∀ fuel clusters, j ∉ chainSelect g fuel clusters 2 []) := by
  have hn : 2 + (f.cluster_limit.toNat - 2) = f.cluster_limit.toNat := by omega
  obtain ⟨h1, h2, h3, h4⟩ :=
    reserveLoop_spec f (f.cluster_limit.toNat - 2) 2 le_rfl
      (by
        intro k1 k2 a1 a2 a3 a4 a5
        intro heq
        exact hinj k1 (by omega) k2 (by omega) ⟨a1, a3, a5, heq⟩)
      f.fat 0
      (fun k _ _ => rfl)
      (fun k h2k hkl => hbound k (by omega) h2k)
  refine ⟨?_, h2, ?_, ?_, ?_⟩
  · show (reserveLoop f true (f.cluster_limit.toNat - 2) f.fat 0 2).2 = _
    rw [h1]
    ring
  · intro p k a1 a2 a3 a4 a5
    exact h3 p k a1 (by omega) a3 a4 a5
  · intro p hp
    exact h4 p (fun k a1 a2 a3 a4 => hp k a1 (by omega) a3 a4)
  · exact fun g j hj fuel clusters => chainSelect_not_reserved g j hj fuel clusters

set_option maxRecDepth 10000 in
/-- Witness for C4's amended theorem on the concrete `tinyUsed` image:
the returned count is K − U = 9 − 1, and the first side-1 cluster
(cluster 11, scan position 2) really is reserved with 0xFF0. -/
theorem closeSide1_spec_witness :
    (closeSide1 tinyUsed).2 =
      (countFreeSide1 tinyUsed 2 (tinyUsed.cluster_limit.toNat - 2) : Int) -
        (countUsedSide2 tinyUsed 2 (tinyUsed.cluster_limit.toNat - 2) : Int) ∧
    (closeSide1 tinyUsed).1.fat.getD 11 0 = 4080 := by
  have h := closeSide1_spec tinyUsed (by decide) (by decide) (by decide)
  exact ⟨h.1, h.2.2.1 11 2 (by decide) (by decide) (by decide) (by decide) (by decide)⟩

/-! ## The shipped blank 720k Atari ST image and claim C3 -/

/-- The `blank_floppy` template of the TwoSide fork (src lines
204-219): boot sector, two FAT copies of 3 sectors, a 32-entry root —
together exactly filling side 1 of the first cylinder — then 0xE5
fill. -/
def blankBytes : List Nat :=
  [0x00, 0x00, 0x4E, 0x4E, 0x4E, 0x4E, 0x4E, 0x4E, 0x91, 0xE9, 0x6C, 0x00, 0x02, 0x02, 0x01, 0x00,
   0x02, 0x20, 0x00, 0xA0, 0x05, 0xF9, 0x03, 0x00, 0x09, 0x00, 0x02, 0x00, 0x00, 0x00, 0x4E, 0x4E,
   0x4E, 0x4E, 0x4E, 0x4E, 0x4E, 0x4E, 0x4E, 0x4E, 0x4E, 0x4E, 0x4E, 0x4E, 0x4E, 0x4E, 0x4E, 0x4E,
   0x4E, 0x4E, 0x4E, 0x4E, 0x4E, 0x4E, 0x4E, 0x4E, 0x4E, 0x4E, 0x4E, 0x4E, 0x00, 0x00, 0x00, 0x00,
   0x00, 0x00, 0x00, 0x00, 0x00, 0x00, 0x00, 0x00, 0xF5, 0xF5, 0xF5, 0xFE, 0x4F, 0x01, 0x01, 0x02,
   0xF7, 0x4E, 0x4E, 0x4E, 0x4E, 0x4E, 0x4E, 0x4E, 0x4E, 0x4E, 0x4E, 0x4E, 0x4E, 0x4E, 0x4E, 0x4E,
   0x4E, 0x4E, 0x4E, 0x4E, 0x4E, 0x4E, 0x4E, 0x00, 0x00, 0x00, 0x00, 0x00, 0x00, 0x00, 0x00, 0x00,
   0x00, 0x00, 0x00, 0xF5, 0xF5, 0xF5, 0xFB, 0xE5, 0xE5, 0xE5, 0xE5, 0xE5, 0xE5, 0xE5, 0xE5, 0xE5] ++
  List.replicate 368 0xE5 ++
  [0xE5, 0xE5, 0xE5, 0xE5, 0xE5, 0xE5, 0xE5, 0xE5, 0xE5, 0xE5, 0xE5, 0xE5, 0xE5, 0xE5, 0xD6, 0x37] ++
  ([0xF7, 0xFF, 0xFF] ++ List.replicate 1533 0) ++
  ([0xF7, 0xFF, 0xFF] ++ List.replicate 1533 0) ++
  List.replicate 1024 0 ++
  List.replicate 781824 0xE5

/-- The `Floppy()` state on the blank template: 512-byte sectors,
2-sector clusters, 1 reserved sector, two 3-sector FATs (1024 decoded
entries), 32 root entries, 1440 sectors, 9 sectors per track, 2 heads;
cluster 2 starts at byte 4608 = one full track, clusters run 2..716. -/
def blankST : Floppy := {
  data := blankBytes
  sector_size := 512
  cluster_sects := 2
  reserved_sects := 1
  fat_count := 2
  root_max := 32
  sectors := 1440
  fat_sects := 3
  track_sects := 9
  heads := 2
  volume_id := 0
  volume_label := []
  root := 3584
  cluster2 := 4608
  cluster_limit := 717
  fat := 4087 :: 4095 :: List.replicate 1022 0 }

/-- The logical sectors a cluster occupies:
`cluster_sects` consecutive sectors starting at
`cluster2/sector_size + cluster_sects*(j-2)`. -/
def clusterSectors (f : Floppy) (j : Nat) : List Nat :=
  List.range' (f.cluster2 / f.sector_size + f.cluster_sects * (j - 2)) f.cluster_sects

/-- Physical head of a logical sector: sectors are laid out cylinder
by cylinder, head 0 first then head 1, `track_sects` sectors each. -/
def sectorHead (f : Floppy) (s : Nat) : Nat := s / f.track_sects % f.heads

/-- A cluster lies entirely on head `h`. -/
def clusterOnHead (f : Floppy) (j h : Nat) : Prop :=
  ∀ s ∈ clusterSectors f j, sectorHead f s = h

/-- The geometry triple (head, track-on-side, cluster-in-track) that
the TwoSide scan assigns to scan position `i` (src lines 418-426). -/
def sideTriple (f : Floppy) (i : Nat) : Nat × Nat × Nat :=
  let l := i - 2
  if l < csplit f then (0, l / cside f, l % cside f)
  else (1, (l - csplit f) / (cdual f - cside f), (l - csplit f) % (cdual f - cside f))

/-- Lexicographic order on geometry triples: head first, then track,
then in-track position. -/
def lt3 (a b : Nat × Nat × Nat) : Prop :=
  a.1 < b.1 ∨ (a.1 = b.1 ∧ (a.2.1 < b.2.1 ∨ (a.2.1 = b.2.1 ∧ a.2.2 < b.2.2)))

/-- `N` single-cluster chain allocations on the blank image, each one
the `_add_chain` call of one single-cluster file (a 1-byte payload
needs exactly one 1024-byte cluster). -/
def allocSeq : Nat → Floppy
  | 0 => blankST
  | n + 1 => (addChain (allocSeq n) [0]).1

/-- Closed form of the scan permutation on the blank geometry
(`cside = 4`, `csplit = 316`, `cdual = 9`). -/
theorem sideJ_blank_eq (l : Nat) :
    sideJ blankST (l + 2) =
      if l < 316 then l / 4 * 9 + 5 + l % 4 + 2
      else (l - 316) / 5 * 9 + (l - 316) % 5 + 2 := by
  show sideJ blankST (l + 2) = _
  rw [sideJ]
  have h1 : csplit blankST = 316 := rfl
  have h2 : cside blankST = 4 := rfl
  have h3 : cdual blankST = 9 := rfl
  simp only [h1, h2, h3, Nat.add_sub_cancel]
  split
  · ring_nf
  · ring_nf

theorem sideJ_blank_bounds (l : Nat) (hl : l ≤ 316) :
    2 ≤ sideJ blankST (l + 2) ∧ sideJ blankST (l + 2) < 717 := by
  rw [sideJ_blank_eq]
  split <;> omega

theorem sideJ_blank_inj (l1 l2 : Nat) (h1 : l1 ≤ 316) (h2 : l2 ≤ 316) (hne : l1 ≠ l2) :
    sideJ blankST (l1 + 2) ≠ sideJ blankST (l2 + 2) := by
  rw [sideJ_blank_eq, sideJ_blank_eq]
  rcases Nat.lt_or_ge l1 316 with ha | ha <;> rcases Nat.lt_or_ge l2 316 with hb | hb
  · rw [if_pos ha, if_pos hb]; omega
  · rw [if_pos ha, if_neg (by omega)]; omega
  · rw [if_neg (by omega), if_pos hb]; omega
  · rw [if_neg (by omega), if_neg (by omega)]; omega

/-- If the first `M` scan positions are skipped or occupied and
position `i+M` holds a free in-range cluster, a single-cluster scan
returns exactly that cluster. -/
theorem chainSelect_single (f : Floppy) :
    ∀ (M fuel i : Nat), M < fuel →
      (∀ m, m < M → (f.cluster_limit : Int) ≤ ((sideJ f (i + m) : Nat) : Int) ∨
        f.fat.getD (sideJ f (i + m)) 0 ≠ 0) →
      ((sideJ f (i + M) : Nat) : Int) < f.cluster_limit →
      f.fat.getD (sideJ f (i + M)) 0 = 0 →
      chainSelect f fuel 1 i [] = [sideJ f (i + M)] := by
  intro M
  induction M with
  | zero =>
    intro fuel i hfuel _ hlim hfree
    obtain ⟨fuel1, rfl⟩ : ∃ k, fuel = k + 1 := ⟨fuel - 1, by omega⟩
    simp only [chainSelect]
    rw [if_neg (by rw [Nat.add_zero] at hlim; omega)]
    rw [Nat.add_zero] at hfree
    rw [if_pos hfree, if_pos (by simp)]
    simp
  | succ M ih =>
    intro fuel i hfuel hskip hlim hfree
    obtain ⟨fuel1, rfl⟩ : ∃ k, fuel = k + 1 := ⟨fuel - 1, by omega⟩
    have hrec : chainSelect f fuel1 1 (i + 1) [] = [sideJ f (i + (M + 1))] := by
      have := ih fuel1 (i + 1) (by omega)
        (fun m hm => by
          have := hskip (m + 1) (by omega)
          rwa [show i + (m + 1) = i + 1 + m by omega] at this)
        (by rwa [show i + 1 + M = i + (M + 1) by omega])
        (by rwa [show i + 1 + M = i + (M + 1) by omega])
      rwa [show i + 1 + M = i + (M + 1) by omega] at this
    simp only [chainSelect]
    rcases hskip 0 (by omega) with h | h
    · rw [Nat.add_zero] at h
      rw [if_pos (by omega)]
      exact hrec
    · rw [Nat.add_zero] at h
      by_cases hg : (f.cluster_limit : Int) ≤ ((sideJ f i : Nat) : Int)
      · rw [if_pos hg]
        exact hrec
      · rw [if_neg hg, if_neg h, if_neg (by simp)]
        exact hrec

theorem blankFat_getD (p : Nat) (hp : 2 ≤ p) : blankST.fat.getD p 0 = 0 := by
  obtain ⟨q, rfl⟩ : ∃ q, p = q + 2 := ⟨p - 2, by omega⟩
  have hb : blankST.fat = 4087 :: 4095 :: List.replicate 1022 0 := rfl
  rw [hb]
  simp only [List.getD_eq_getElem?_getD, List.getElem?_cons_succ, List.getElem?_replicate]
  split <;> rfl

/-- The boot geometry of the blank 720k image, as field equations (the
allocation lemmas below are stated over any state carrying this
geometry, which `_add_chain` preserves). -/
def blankGeom (g : Floppy) : Prop :=
  g.sector_size = 512 ∧ g.cluster_sects = 2 ∧ g.track_sects = 9 ∧
  g.sectors = 1440 ∧ g.cluster_limit = 717

theorem sideJ_eq_of_geom (g : Floppy) (h : blankGeom g) (i : Nat) :
    sideJ g i = sideJ blankST i := by
  obtain ⟨h1, h2, h3, h4, h5⟩ := h
  simp only [sideJ, csplit, cside, cdual, tcountSides, h1, h2, h3, h4]
  rfl

theorem writeChainData_frame (f : Floppy) :
    ∀ chain data, (writeChainData f chain data).fat = f.fat ∧
      (writeChainData f chain data).sector_size = f.sector_size ∧
      (writeChainData f chain data).cluster_sects = f.cluster_sects ∧
      (writeChainData f chain data).track_sects = f.track_sects ∧
      (writeChainData f chain data).sectors = f.sectors ∧
      (writeChainData f chain data).cluster_limit = f.cluster_limit := by
  intro chain
  induction chain generalizing f with
  | nil =>
    intro data
    cases data <;> exact ⟨rfl, rfl, rfl, rfl, rfl, rfl⟩
  | cons c rest ih =>
    intro data
    cases data with
    | nil => exact ⟨rfl, rfl, rfl, rfl, rfl, rfl⟩
    | cons b bs =>
      show ((writeChainData _ rest _).fat = f.fat ∧ _)
      exact ih _ _

/-- One single-cluster `_add_chain` call on a blank-geometry state
after `N` earlier single-cluster allocations: scan positions `0..N-1`
are occupied, so the scan returns the cluster at position `N`, links
it with the end-of-chain sentinel (the payload write does not touch
the FAT), and the geometry survives. -/
theorem addChain_blank_step (g : Floppy) (N : Nat) (hN : N ≤ 316)
    (hgeom : blankGeom g) (hlen : g.fat.length = 1024)
    (h1 : ∀ p k, k < N → sideJ blankST (k + 2) = p → g.fat.getD p 0 = 4095)
    (h2 : ∀ p, (∀ k, k < N → sideJ blankST (k + 2) ≠ p) →
      g.fat.getD p 0 = blankST.fat.getD p 0) :
    (addChain g [0]).2 = ((sideJ blankST (N + 2) : Nat) : Int) ∧
    (addChain g [0]).1.fat = g.fat.set (sideJ blankST (N + 2)) 4095 ∧
    blankGeom (addChain g [0]).1 ∧
    (addChain g [0]).1.fat.length = g.fat.length := by
  have hfree : g.fat.getD (sideJ blankST (N + 2)) 0 = 0 := by
    rw [h2 (sideJ blankST (N + 2))
      (fun k hk => sideJ_blank_inj k N (by omega) hN (by omega))]
    exact blankFat_getD _ (sideJ_blank_bounds N hN).1
  have hcn : clustersNeeded g 1 = 1 := by
    simp only [clustersNeeded, hgeom.1, hgeom.2.1]
    decide
  have hsel : chainSelect g (g.fat.length - 2) 1 2 [] =
      [sideJ blankST (N + 2)] := by
    rw [hlen]
    have h := chainSelect_single g N 1022 2
      (by omega)
      (fun m hm => by
        right
        rw [sideJ_eq_of_geom g hgeom, show 2 + m = m + 2 by omega]
        rw [h1 (sideJ blankST (m + 2)) m hm rfl]
        omega)
      (by
        rw [sideJ_eq_of_geom g hgeom, show 2 + N = N + 2 by omega, hgeom.2.2.2.2]
        have := (sideJ_blank_bounds N hN).2
        omega)
      (by
        rw [sideJ_eq_of_geom g hgeom, show 2 + N = N + 2 by omega]
        exact hfree)
    rw [sideJ_eq_of_geom g hgeom, show 2 + N = N + 2 by omega] at h
    exact h
  have hlink : fatLink g.fat [sideJ blankST (N + 2)] =
      g.fat.set (sideJ blankST (N + 2)) 4095 := rfl
  simp only [addChain, hcn, hsel, List.length_singleton, lt_self_iff_false, if_false]
  obtain ⟨w1, w2, w3, w4, w5, w6⟩ :=
    writeChainData_frame { g with fat := (fatLink g.fat [sideJ blankST (N + 2)]) }
      [sideJ blankST (N + 2)] [0]
  refine ⟨rfl, ?_, ?_, ?_⟩
  · rw [w1, hlink]
  · exact ⟨by rw [w2]; exact hgeom.1, by rw [w3]; exact hgeom.2.1,
      by rw [w4]; exact hgeom.2.2.1, by rw [w5]; exact hgeom.2.2.2.1,
      by rw [w6]; exact hgeom.2.2.2.2⟩
  · rw [w1, hlink, List.length_set]

set_option maxRecDepth 100000 in
/-- State invariant after `N` single-cluster allocations on the blank
image: the geometry survives, the FAT still has its 1024 entries, the
clusters at scan positions `0..N-1` hold the end-of-chain sentinel,
and every other entry still holds its blank value. -/
theorem allocSeq_spec : ∀ N, N ≤ 316 →
    blankGeom (allocSeq N) ∧ (allocSeq N).fat.length = 1024 ∧
    (∀ p k, k < N → sideJ blankST (k + 2) = p → (allocSeq N).fat.getD p 0 = 4095) ∧
    (∀ p, (∀ k, k < N → sideJ blankST (k + 2) ≠ p) →
      (allocSeq N).fat.getD p 0 = blankST.fat.getD p 0) := by
  intro N
  induction N with
  | zero =>
    intro _
    refine ⟨⟨rfl, rfl, rfl, rfl, rfl⟩, rfl, ?_, ?_⟩
    · intro p k hk
      omega
    · intro p _
      rfl
  | succ N ih =>
    intro hN
    obtain ⟨hg, hl, ha, hb⟩ := ih (by omega)
    obtain ⟨s2, sfat, sg, sl⟩ := addChain_blank_step (allocSeq N) N (by omega) hg hl ha hb
    refine ⟨sg, by show (addChain (allocSeq N) [0]).1.fat.length = 1024; rw [sl, hl],
      ?_, ?_⟩
    · intro p k hk hkp
      show (addChain (allocSeq N) [0]).1.fat.getD p 0 = 4095
      rw [sfat]
      rcases Nat.lt_or_ge k N with hkN | hkN
      · have hne : sideJ blankST (N + 2) ≠ p := by
          rw [← hkp]
          exact sideJ_blank_inj N k (by omega) (by omega) (by omega)
        rw [getD_set_ne _ _ _ _ hne]
        exact ha p k hkN hkp
      · have hkeq : k = N := by omega
        subst hkeq
        rw [← hkp]
        refine getD_set_self _ _ _ ?_
        rw [hl]
        have := (sideJ_blank_bounds k (by omega)).2
        omega
    · intro p hp
      show (addChain (allocSeq N) [0]).1.fat.getD p 0 = _
      rw [sfat, getD_set_ne _ _ _ _ (hp N (by omega))]
      exact hb p (fun k hk => hp k (by omega))

/-- The sectors of a cluster on the blank geometry. -/
theorem clusterSectors_blank (j : Nat) :
    clusterSectors blankST j = [9 + 2 * (j - 2), 9 + 2 * (j - 2) + 1] := rfl

/-- The physical head of a sector on the blank geometry. -/
theorem sectorHead_blank (s : Nat) : sectorHead blankST s = s / 9 % 2 := rfl

/-- Every side-1 scan position (`l < csplit = 316`) maps to a cluster
lying entirely on head 0. -/
theorem sideJ_blank_onHead0 (l : Nat) (hl : l < 316) :
    clusterOnHead blankST (sideJ blankST (l + 2)) 0 := by
  intro s hs
  rw [sideJ_blank_eq, if_pos hl, clusterSectors_blank] at hs
  rw [sectorHead_blank]
  simp only [List.mem_cons, List.not_mem_nil, or_false, List.mem_singleton] at hs
  rcases hs with rfl | rfl <;> omega

/-- Closed form of the scan geometry triple on the blank geometry. -/
theorem sideTriple_blank_eq (l : Nat) :
    sideTriple blankST (l + 2) =
      if l < 316 then (0, l / 4, l % 4) else (1, (l - 316) / 5, (l - 316) % 5) := by
  rw [sideTriple]
  have h1 : csplit blankST = 316 := rfl
  have h2 : cside blankST = 4 := rfl
  have h3 : cdual blankST = 9 := rfl
  simp only [h1, h2, h3, Nat.add_sub_cancel]

/-- C3.  First conjunct: the `_add_chain` scan considers clusters in
strictly ascending geometry-position order — (head, track, in-track
position) lexicographically — so every head-0 (side-1) position is
exhausted before any head-1 position.  Second conjunct, with a
single-cluster file add modeled by its `_add_chain` data-chain
allocation (the only step of `add_file_path` that picks the file's
cluster): on the freshly formatted blank image, for every N below
csplit = (tracks-per-side − 1) × (track_sectors / cluster_sects) =
316, the (N+1)-st single-cluster allocation returns the cluster at
scan position N, which lies entirely on head 0.  Third conjunct: the
(csplit+1)-st allocation returns cluster 2, which lies entirely on
head 1. -/
theorem twoside_allocation_order :
    (∀ i1 i2, 2 ≤ i1 → i1 < i2 → lt3 (sideTriple blankST i1) (sideTriple blankST i2)) ∧
    (∀ N, N < csplit blankST →
      (addChain (allocSeq N) [0]).2 = ((sideJ blankST (N + 2) : Nat) : Int) ∧
      clusterOnHead blankST (sideJ blankST (N + 2)) 0) ∧
    ((addChain (allocSeq 316) [0]).2 = ((2 : Nat) : Int) ∧ clusterOnHead blankST 2 1) := by
  have hc316 : csplit blankST = 316 := rfl
  refine ⟨?_, ?_, ?_⟩
  · intro i1 i2 h2 hlt
    obtain ⟨l1, rfl⟩ : ∃ l, i1 = l + 2 := ⟨i1 - 2, by omega⟩
    obtain ⟨l2, rfl⟩ : ∃ l, i2 = l + 2 := ⟨i2 - 2, by omega⟩
    have hl12 : l1 < l2 := by omega
    rw [sideTriple_blank_eq, sideTriple_blank_eq]
    rcases Nat.lt_or_ge l1 316 with ha | ha <;> rcases Nat.lt_or_ge l2 316 with hb | hb
    · rw [if_pos ha, if_pos hb]
      dsimp only [lt3]
      rcases Nat.lt_or_ge (l1 / 4) (l2 / 4) with h | h
      · exact Or.inr ⟨rfl, Or.inl h⟩
      · exact Or.inr ⟨rfl, Or.inr ⟨by omega, by omega⟩⟩
    · rw [if_pos ha, if_neg (by omega)]
      dsimp only [lt3]
      exact Or.inl Nat.zero_lt_one
    · omega
    · rw [if_neg (by omega), if_neg (by omega)]
      dsimp only [lt3]
      rcases Nat.lt_or_ge ((l1 - 316) / 5) ((l2 - 316) / 5) with h | h
      · exact Or.inr ⟨rfl, Or.inl h⟩
      · exact Or.inr ⟨rfl, Or.inr ⟨by omega, by omega⟩⟩
  · intro N hN
    rw [hc316] at hN
    obtain ⟨hg, hl, ha, hb⟩ := allocSeq_spec N (by omega)
    obtain ⟨s2, -, -, -⟩ := addChain_blank_step (allocSeq N) N (by omega) hg hl ha hb
    exact ⟨s2, sideJ_blank_onHead0 N hN⟩
  · obtain ⟨hg, hl, ha, hb⟩ := allocSeq_spec 316 le_rfl
    obtain ⟨s2, -, -, -⟩ := addChain_blank_step (allocSeq 316) 316 le_rfl hg hl ha hb
    have hj : sideJ blankST (316 + 2) = 2 := rfl
    rw [hj] at s2
    refine ⟨s2, ?_⟩
    intro s hs
    rw [clusterSectors_blank] at hs
    rw [sectorHead_blank]
    simp only [List.mem_cons, List.not_mem_nil, or_false, List.mem_singleton] at hs
    rcases hs with rfl | rfl <;> rfl

/-- Witness for C3 at concrete inputs: scan positions 2 and 3 are in
ascending geometry order, and the very first single-cluster
allocation on the blank image lands on cluster 7 (side 1, cylinder 1,
head 0). -/
theorem twoside_allocation_order_witness :
    lt3 (sideTriple blankST 2) (sideTriple blankST 3) ∧
    (addChain (allocSeq 0) [0]).2 = ((7 : Nat) : Int) ∧
    clusterOnHead blankST 7 0 :=
  ⟨twoside_allocation_order.1 2 3 le_rfl (by omega),
    (twoside_allocation_order.2.1 0 (by decide)).1,
    (twoside_allocation_order.2.1 0 (by decide)).2⟩

/-! ## Cluster chains and the directory engine
(`Floppy._read_chain` .. `Floppy.extract_file_path`)

Bit tests on the attribute byte are rendered with `/` and `%`:
`(a & 0x08) != 0` is `a / 8 % 2 = 1` and `(a & 0x10) != 0` is
`a / 16 % 2 = 1`.  Recursions whose termination depends on the FAT
state carry a fuel argument; exhaustion models Python's
RecursionError / nontermination and each wrapper passes a fuel the
source's own bounds make sufficient. -/

/-- `Floppy._read_chain` (src lines 372-386), fuel-indexed: follow FAT
links below 0xFF0, a cluster below 2 reads the root region with the
remaining size, otherwise accumulate one cluster-sized chunk and
continue while bytes remain. -/
def readChain (f : Floppy) : Nat → Nat → Nat → List Nat
  | 0, _, _ => []
  | fuel + 1, cluster, size =>
      if cluster < 4080 then
        if cluster < 2 then sliceN f.data f.root size
        else
          let read := min size (f.sector_size * f.cluster_sects)
          let chunk := sliceN f.data (clusterOffset f cluster) read
          if size - read < 1 then chunk
          else chunk ++ readChain f fuel (f.fat.getD cluster 0) (size - read)
      else []

/-- Wrapper with sufficient fuel: with a positive cluster size the
loop runs at most `size + 1` times. -/
def readChainTop (f : Floppy) (cluster size : Nat) : List Nat :=
  readChain f (size + 2) cluster size

/-- `Floppy._read_dir_chain` (src lines 388-394). -/
def readDirChain (f : Floppy) (cluster : Nat) : List Nat :=
  if cluster < 2 then sliceN f.data f.root (f.root_max * 32)
  else readChainTop f cluster (f.sector_size * f.sectors / f.cluster_sects)

/-- `Floppy._delete_chain` (src lines 396-401), fuel-indexed: zero
each link of the chain; stops at a link below 2 or at/above 0xFF0. -/
def deleteChain : List Nat → Nat → Nat → List Nat
  | fat, 0, _ => fat
  | fat, fuel + 1, cluster =>
      if 2 ≤ cluster ∧ cluster < 4080 then
        deleteChain (fat.set cluster 0) fuel (fat.getD cluster 0)
      else fat

/-- Wrapper with sufficient fuel: every iteration zeroes a so-far
nonzero cell or is one of the final two steps, so `length + 2` always
suffices. -/
def deleteChainTop (fat : List Nat) (cluster : Nat) : List Nat :=
  deleteChain fat (fat.length + 2) cluster

/-- `Floppy._dir_entry_offset` (src lines 529-539), fuel-indexed (the
source recurses; exhaustion is Python's RecursionError).  A chain
ending before the requested slot raises `Floppy.Error`. -/
def dirEntryOffset (f : Floppy) : Nat → Nat → Nat → Except PyErr Nat
  | 0, _, _ => .error .recursionError
  | fuel + 1, cluster, dir_index =>
      if cluster < 2 then .ok (f.root + 32 * dir_index)
      else if 4080 ≤ cluster then .error .floppyError
      else
        let per_cluster := f.sector_size * f.cluster_sects / 32
        if dir_index < per_cluster then .ok (clusterOffset f cluster + 32 * dir_index)
        else dirEntryOffset f fuel (f.fat.getD cluster 0) (dir_index - per_cluster)

/-- Wrapper with sufficient fuel: the slot index drops by at least one
per recursion step when a cluster holds at least one entry. -/
def dirEntryOffsetTop (f : Floppy) (cluster dir_index : Nat) : Except PyErr Nat :=
  dirEntryOffset f (dir_index + 1) cluster dir_index

/-- `Floppy.delete_file` (src lines 541-545): free the entry's chain,
then mark its slot byte with the 0xE5 deleted sentinel (the slot
offset is computed against the already-updated FAT, as in the
source). -/
def deleteFile (f : Floppy) (e : FileEntry) : Except PyErr Floppy :=
  let f1 := { f with fat := (deleteChainTop f.fat e.cluster) }
  match dirEntryOffsetTop f1 e.dir_cluster e.dir_index with
  | .error er => .error er
  | .ok offset => .ok { f1 with data := (f1.data.set offset 229) }

/-- The 32-byte records of a directory byte stream, as `FileEntry`
values tagged with their owning cluster and slot
(`for i in range(len(directory)//32)` in the source). -/
def dirEntries (dir : List Nat) (cluster : Nat) : List FileEntry :=
  (List.range (dir.length / 32)).map (fun i => entryOfBytes (sliceN dir (i * 32) 32) cluster i)

/-- Python `path.find(c)`: index of the first occurrence. -/
def strFind (s : List Nat) (c : Nat) : Option Nat :=
  s.findIdx? (fun x => x == c)

/-- Python `path.rfind(c)`: index of the last occurrence. -/
def strRFind (s : List Nat) (c : Nat) : Option Nat :=
  match strFind s.reverse c with
  | none => none
  | some k => some (s.length - 1 - k)

/-- What the `_find_path_dir` scan loop (src lines 557-574) does at
its first decisive entry. -/
inductive ScanHit where
  | terminal : ScanHit
  | descend (e : FileEntry) : ScanHit
  | found (e : FileEntry) : ScanHit
  deriving Repr, DecidableEq

/-- The scan loop of `_find_path_dir`: stop at the 0x00 terminal, skip
deleted entries, volume labels and the "." / ".." pseudo-entries, take
the first matching subdirectory (descending further when path remains)
or the first matching file when no path remains. -/
def findScanHit (seek next : List Nat) : List FileEntry → Option ScanHit
  | [] => none
  | e :: rest =>
      if e.incipit = 0 then some .terminal
      else if e.incipit = 229 then findScanHit seek next rest
      else if e.attributes / 8 % 2 = 1 then findScanHit seek next rest
      else if e.attributes / 16 % 2 = 1 then
        if e.path = [46] ∨ e.path = [46, 46] then findScanHit seek next rest
        else if e.path = seek then
          (if 0 < next.length then some (.descend e) else some (.found e))
        else findScanHit seek next rest
      else if e.path = seek ∧ next = [] then some (.found e)
      else findScanHit seek next rest

/-- `Floppy._find_path_dir` (src lines 547-575), fuel-indexed on the
descent depth (each descent consumes one separator, so
`path.length + 1` always suffices). -/
def findPathDir (f : Floppy) : Nat → Nat → List Nat → Option FileEntry
  | 0, _, _ => none
  | fuel + 1, cluster, path =>
      let separator := strFind path 92
      let path_seek := match separator with | some p => path.take p | none => path
      let path_next := match separator with | some p => path.drop (p + 1) | none => []
      match findScanHit path_seek path_next
          (dirEntries (readDirChain f cluster) cluster) with
      | some (.descend e) => findPathDir f fuel e.cluster path_next
      | some (.found e) => some e
      | _ => none

/-- `Floppy.find_path` (src lines 577-579). -/
def findPath (f : Floppy) (path : List Nat) : Option FileEntry :=
  findPathDir f (path.length + 1) 0 path

/-- The scan loop of `Floppy._delete_tree` (src lines 581-600) over a
directory's (pre-read) entries, parameterized by the recursive
subtree-deletion call `g`: stop at the terminal, skip deleted entries,
volume labels and "." / ".."; recurse into subdirectories before
deleting their entry; delete file entries directly. -/
def treeScan (g : Floppy → FileEntry → Except PyErr Floppy) :
    Floppy → List FileEntry → Except PyErr Floppy
  | f, [] => .ok f
  | f, e :: rest =>
      if e.incipit = 0 then .ok f
      else if e.incipit = 229 then treeScan g f rest
      else if e.attributes / 8 % 2 = 1 then treeScan g f rest
      else if e.attributes / 16 % 2 = 1 then
        if e.path = [46] ∨ e.path = [46, 46] then treeScan g f rest
        else
          match g f e with
          | .error er => .error er
          | .ok f1 =>
              match deleteFile f1 e with
              | .error er => .error er
              | .ok f2 => treeScan g f2 rest
      else
        match deleteFile f e with
        | .error er => .error er
        | .ok f1 => treeScan g f1 rest

/-- `Floppy._delete_tree` (src lines 581-600), fuel-indexed on the
tree depth (exhaustion is Python's RecursionError on a cyclic
directory graph). -/
def deleteTree : Nat → Floppy → FileEntry → Except PyErr Floppy
  | 0, _, _ => .error .recursionError
  | fuel + 1, f, de =>
      treeScan (deleteTree fuel) f (dirEntries (readDirChain f de.cluster) de.cluster)

/-- `Floppy.delete_path` (src lines 602-610). -/
def deletePath (fuel : Nat) (f : Floppy) (path : List Nat) :
    Except PyErr (Floppy × Bool) :=
  match findPath f path with
  | none => .ok (f, false)
  | some e =>
      let step : Except PyErr Floppy :=
        if e.attributes / 16 % 2 = 1 then deleteTree fuel f e else .ok f
      match step with
      | .error er => .error er
      | .ok f1 =>
          match deleteFile f1 e with
          | .error er => .error er
          | .ok f2 => .ok (f2, true)

/-- The free-slot scan of `Floppy._add_entry` (src lines 621-631):
index and terminal flag of the first 0x00 (terminal) or 0xE5 (deleted)
slot. -/
def freeSlotScan : List FileEntry → Nat → Option (Nat × Bool)
  | [], _ => none
  | e :: rest, i =>
      if e.incipit = 0 then some (i, true)
      else if e.incipit = 229 then some (i, false)
      else freeSlotScan rest (i + 1)

/-- The tail walk of `Floppy._add_entry` (src lines 640-642):
`while fat[tail] < 0xFF0: tail = fat[tail]`, fuel-indexed. -/
def chainTail (fat : List Nat) : Nat → Nat → Nat
  | 0, tail => tail
  | fuel + 1, tail =>
      if fat.getD tail 0 < 4080 then chainTail fat fuel (fat.getD tail 0) else tail

/-- The insertion tail of `Floppy._add_entry` (src lines 645-658):
store the entry's new location in it, serialize it into its slot, and
re-terminate the directory right after it when the slot used to be the
terminal and another slot exists. -/
def addEntryInsert (f : Floppy) (dir_cluster : Nat) (entry : FileEntry)
    (i dir_len : Nat) (terminal : Bool) : Except PyErr (Floppy × FileEntry × Bool) :=
  let entry1 := { entry with dir_cluster := dir_cluster, dir_index := i }
  match dirEntryOffsetTop f dir_cluster i with
  | .error er => .error er
  | .ok offset =>
      match entryCompile entry1 with
      | .error er => .error er
      | .ok bytes =>
          let fA := { f with data := (splice f.data offset bytes) }
          if terminal ∧ i + 1 < dir_len then
            match dirEntryOffsetTop fA dir_cluster (i + 1) with
            | .error er => .error er
            | .ok offset2 =>
                match entryCompile newTerminal with
                | .error er => .error er
                | .ok termBytes =>
                    .ok ({ fA with data := (splice fA.data offset2 termBytes) },
                      entry1, true)
          else .ok (fA, entry1, true)

/-- `Floppy._add_entry` (src lines 612-658): find the first free slot
of the directory; when there is none, fail on the root, otherwise
append one zero-filled cluster to the directory's chain and insert in
it; serialize the entry (and a fresh terminal when needed).  Returns
the updated state, the entry (with its location fields set on
success), and the success flag. -/
def addEntry (f : Floppy) (dir_cluster : Nat) (entry : FileEntry) :
    Except PyErr (Floppy × FileEntry × Bool) :=
  let directory := readDirChain f dir_cluster
  let dir_len := directory.length / 32
  match freeSlotScan (dirEntries directory dir_cluster) 0 with
  | some (i, terminal) => addEntryInsert f dir_cluster entry i dir_len terminal
  | none =>
      if dir_cluster < 2 then .ok (f, entry, false)
      else
        let r := addChain f (List.replicate (f.sector_size * f.cluster_sects) 0)
        if r.2 < 0 then .ok (r.1, entry, false)
        else
          let chainStart := r.2.toNat
          let tail := chainTail r.1.fat (r.1.fat.length + 1) dir_cluster
          let f2 := { r.1 with
            fat := ((r.1.fat.set tail chainStart).set chainStart 4095) }
          addEntryInsert f2 dir_cluster entry dir_len dir_len false

/-- The ". " / ".. " raw name bytes written over the first two
entries of a fresh directory block (src lines 696-697). -/
def dotNameBytes : List Nat := 46 :: List.replicate 10 32

/-- See `dotNameBytes`. -/
def dotDotNameBytes : List Nat := 46 :: 46 :: List.replicate 9 32

/-- The subdirectory-match scan of `Floppy._add_dir_recursive` (src
lines 670-682): first subdirectory entry with the sought name, before
the terminal; unlike `_find_path_dir` it skips neither volume labels
nor "." / ".." (their names simply never match a real component). -/
def dirSeekScan (seek : List Nat) : List FileEntry → Option FileEntry
  | [] => none
  | e :: rest =>
      if e.incipit = 0 then none
      else if e.incipit = 229 then dirSeekScan seek rest
      else if e.attributes / 16 % 2 = 1 ∧ e.path = seek then some e
      else dirSeekScan seek rest

/-- `Floppy._add_dir_recursive` (src lines 660-708), fuel-indexed on
the descent depth; `wd`/`wt` are the `set_now` timestamps.  Returns
the updated state and the cluster of the directory at the path, or -1
on allocation failure. -/
def addDirRecursive (wd wt : Nat) : Nat → Floppy → Nat → List Nat →
    Except PyErr (Floppy × Int)
  | 0, _, _, _ => .error .recursionError
  | fuel + 1, f, cluster, path =>
      let separator := strFind path 92
      let path_seek := match separator with | some p => path.take p | none => path
      let path_next := match separator with | some p => path.drop (p + 1) | none => []
      match dirSeekScan path_seek (dirEntries (readDirChain f cluster) cluster) with
      | some e =>
          if path_next.length < 1 then .ok (f, (e.cluster : Int))
          else addDirRecursive wd wt fuel f e.cluster path_next
      | none =>
          match newDir [95] wd wt, newDir [95, 95] wd wt with
          | .ok dp0, .ok dp1 =>
              match entryCompile dp0, entryCompile { dp1 with cluster := cluster } with
              | .ok c0, .ok c1 =>
                  let dir_block :=
                    c0 ++ c1 ++ List.replicate (f.sector_size * f.cluster_sects - 64) 0
                  let r := addChain f dir_block
                  if r.2 < 0 then .ok (r.1, -1)
                  else
                    let ncn := r.2.toNat
                    match dirEntryOffsetTop r.1 ncn 0 with
                    | .error er => .error er
                    | .ok offset =>
                        match entryCompile { dp0 with cluster := ncn } with
                        | .error er => .error er
                        | .ok bytes0 =>
                            let f2 := { r.1 with data := (splice r.1.data offset bytes0) }
                            let f3 := { f2 with data := (splice f2.data offset dotNameBytes) }
                            let f4 := { f3 with
                              data := (splice f3.data (offset + 32) dotDotNameBytes) }
                            match newDir path_seek wd wt with
                            | .error er => .error er
                            | .ok nde =>
                                match addEntry f4 cluster { nde with cluster := ncn } with
                                | .error er => .error er
                                | .ok (f5, _, ok) =>
                                    if ok then
                                      if path_next.length < 1 then .ok (f5, (ncn : Int))
                                      else addDirRecursive wd wt fuel f5 ncn path_next
                                    else
                                      .ok ({ f5 with
                                        fat := (deleteChainTop f5.fat ncn) }, -1)
              | .error er, _ => .error er
              | _, .error er => .error er
          | .error er, _ => .error er
          | _, .error er => .error er

/-- `Floppy.add_dir_path` (src lines 710-718). -/
def addDirPath (wd wt fuel : Nat) (f : Floppy) (path : List Nat) :
    Except PyErr (Floppy × Int) :=
  if path.length < 1 then .ok (f, 0)
  else addDirRecursive wd wt fuel f 0 path

/-- `Floppy.add_file_path` (src lines 720-747): delete any existing
entry at the path, ensure the parent directory exists, allocate the
data chain, insert the file entry (rolling the chain back when the
insert fails), and serialize the entry once more at its final slot. -/
def addFilePath (wd wt fuel : Nat) (f : Floppy) (path data : List Nat) :
    Except PyErr (Floppy × Bool) :=
  match deletePath fuel f path with
  | .error er => .error er
  | .ok (f1, _) =>
      let separator := strRFind path 92
      let dir_path := match separator with | some p => path.take p | none => []
      let file_path := match separator with | some p => path.drop (p + 1) | none => path
      match addDirPath wd wt fuel f1 dir_path with
      | .error er => .error er
      | .ok (f2, dir_cluster) =>
          if dir_cluster < 0 then .ok (f2, false)
          else
            let r := addChain f2 data
            if r.2 < 0 then .ok (r.1, false)
            else
              match newFile file_path wd wt with
              | .error er => .error er
              | .ok e0 =>
                  let e1 := { e0 with cluster := r.2.toNat, size := data.length }
                  match addEntry r.1 dir_cluster.toNat e1 with
                  | .error er => .error er
                  | .ok (f4, e2, ok) =>
                      if ok then
                        match dirEntryOffsetTop f4 e2.dir_cluster e2.dir_index with
                        | .error er => .error er
                        | .ok offset =>
                            match entryCompile e2 with
                            | .error er => .error er
                            | .ok bytes =>
                                .ok ({ f4 with data := (splice f4.data offset bytes) },
                                  true)
                      else .ok ({ f4 with fat := (deleteChainTop f4.fat r.2.toNat) }, false)

/-- `Floppy.extract_file_path` (src lines 749-754). -/
def extractFilePath (f : Floppy) (path : List Nat) : Option (List Nat) :=
  match findPath f path with
  | none => none
  | some e => some (readChainTop f e.cluster e.size)

/-! ## Frame and rollback lemmas -/

/-- All the embedded mutations touch only the image bytes and the FAT
entries: the geometry fields survive and the FAT keeps its length. -/
def dfOnly (f g : Floppy) : Prop :=
  ∃ d ft, g = { f with data := d, fat := ft } ∧ ft.length = f.fat.length

theorem dfOnly_refl (f : Floppy) : dfOnly f f := ⟨f.data, f.fat, rfl, rfl⟩

theorem dfOnly_trans {f g h : Floppy} (h1 : dfOnly f g) (h2 : dfOnly g h) :
    dfOnly f h := by
  obtain ⟨d1, ft1, rfl, hl1⟩ := h1
  obtain ⟨d2, ft2, rfl, hl2⟩ := h2
  exact ⟨d2, ft2, rfl, by simpa [hl1] using hl2⟩

theorem dfOnly_data (f : Floppy) (d : List Nat) : dfOnly f { f with data := d } :=
  ⟨d, f.fat, rfl, rfl⟩

theorem dfOnly_fat (f : Floppy) (ft : List Nat) (h : ft.length = f.fat.length) :
    dfOnly f { f with fat := ft } := ⟨f.data, ft, rfl, h⟩

theorem deleteChain_length (fuel : Nat) :
    ∀ fat cluster, (deleteChain fat fuel cluster).length = fat.length := by
  induction fuel with
  | zero => intro fat cluster; rfl
  | succ fuel ih =>
    intro fat cluster
    simp only [deleteChain]
    split
    · rw [ih, List.length_set]
    · rfl

theorem fatLink_length : ∀ chain fat, (fatLink fat chain).length = fat.length := by
  intro chain
  induction chain with
  | nil => intro fat; rfl
  | cons c rest ih =>
    intro fat
    cases rest with
    | nil => exact List.length_set ..
    | cons c2 r2 =>
      show (fatLink (fat.set c c2) (c2 :: r2)).length = _
      rw [ih (fat.set c c2), List.length_set]

theorem writeChainData_dfOnly (f : Floppy) :
    ∀ chain data, dfOnly f (writeChainData f chain data) := by
  intro chain
  induction chain generalizing f with
  | nil => intro data; cases data <;> exact dfOnly_refl f
  | cons c rest ih =>
    intro data
    cases data with
    | nil => exact dfOnly_refl f
    | cons b bs =>
      exact dfOnly_trans (dfOnly_data f _) (ih _ _)

theorem addChain_dfOnly (f : Floppy) (data : List Nat) :
    dfOnly f (addChain f data).1 := by
  rw [addChain]
  split
  · exact dfOnly_refl f
  · exact dfOnly_trans
      (dfOnly_fat f _ (fatLink_length ..))
      (writeChainData_dfOnly _ _ _)

theorem deleteFile_dfOnly (f f1 : Floppy) (e : FileEntry)
    (h : deleteFile f e = .ok f1) : dfOnly f f1 := by
  rw [deleteFile] at h
  split at h
  · exact (Except.noConfusion h)
  · injection h with h
    subst h
    exact dfOnly_trans (dfOnly_fat f _ (deleteChain_length ..)) (dfOnly_data _ _)

theorem treeScan_dfOnly (g : Floppy → FileEntry → Except PyErr Floppy)
    (hg : ∀ f e f1, g f e = .ok f1 → dfOnly f f1) :
    ∀ es f f1, treeScan g f es = .ok f1 → dfOnly f f1 := by
  intro es
  induction es with
  | nil =>
    intro f f1 h
    injection h with h
    subst h
    exact dfOnly_refl f
  | cons e rest ih =>
    intro f f1 h
    rw [treeScan] at h
    split at h
    · injection h with h; subst h; exact dfOnly_refl f
    split at h
    · exact ih f f1 h
    split at h
    · exact ih f f1 h
    split at h
    · split at h
      · exact ih f f1 h
      · split at h
        · exact (Except.noConfusion h)
        next fa ha =>
          split at h
          · exact (Except.noConfusion h)
          next fb hb =>
            exact dfOnly_trans (hg f e fa ha)
              (dfOnly_trans (deleteFile_dfOnly fa fb e hb) (ih fb f1 h))
    · split at h
      · exact (Except.noConfusion h)
      next fa ha =>
        exact dfOnly_trans (deleteFile_dfOnly f fa e ha) (ih fa f1 h)

theorem deleteTree_dfOnly :
    ∀ fuel f de f1, deleteTree fuel f de = .ok f1 → dfOnly f f1 := by
  intro fuel
  induction fuel with
  | zero => intro f de f1 h; exact (Except.noConfusion h)
  | succ fuel ih =>
    intro f de f1 h
    exact treeScan_dfOnly (deleteTree fuel) (fun a b c hh => ih a b c hh) _ f f1 h

theorem deletePath_dfOnly (fuel : Nat) (f : Floppy) (path : List Nat) (f1 : Floppy)
    (b : Bool) (h : deletePath fuel f path = .ok (f1, b)) : dfOnly f f1 := by
  rw [deletePath] at h
  split at h
  · injection h with h
    rw [← (Prod.mk.injEq ..).mp h |>.1]
    exact dfOnly_refl f
  next e he =>
    simp only at h
    split at h
    · exact (Except.noConfusion h)
    next fa ha =>
      split at h
      · exact (Except.noConfusion h)
      next fb hb =>
        injection h with h
        have hfb : fb = f1 := ((Prod.mk.injEq ..).mp h).1
        rw [← hfb]
        refine dfOnly_trans ?_ (deleteFile_dfOnly fa fb _ hb)
        by_cases hat : e.attributes / 16 % 2 = 1
        · rw [if_pos hat] at ha
          exact deleteTree_dfOnly fuel f _ fa ha
        · rw [if_neg hat] at ha
          injection ha with ha
          subst ha
          exact dfOnly_refl f

theorem sideJ_ge_two (f : Floppy) (i : Nat) : 2 ≤ sideJ f i := by
  simp only [sideJ]
  split <;> omega

theorem set_of_getD (l : List Nat) (n v : Nat) (hn : n < l.length)
    (hv : l.getD n 0 = v) : l.set n v = l := by
  apply List.ext_getElem?
  intro m
  by_cases hm : n = m
  · subst hm
    rw [List.getElem?_set_self hn]
    rw [List.getD_eq_getElem?_getD] at hv
    rcases h2 : l[n]? with _ | w
    · exact absurd h2 (by simp [List.getElem?_eq_some_iff]; omega)
    · rw [h2] at hv
      simp at hv
      rw [hv]
  · exact List.getElem?_set_ne hm

theorem fatLink_getD_notmem :
    ∀ chain fat p, p ∉ chain → (fatLink fat chain).getD p 0 = fat.getD p 0 := by
  intro chain
  induction chain with
  | nil => intro fat p _; rfl
  | cons c rest ih =>
    intro fat p hp
    have hpc : p ≠ c := fun h => hp (h ▸ List.mem_cons_self ..)
    have hpr : p ∉ rest := fun h => hp (List.mem_cons_of_mem _ h)
    cases rest with
    | nil =>
      show (fat.set c 4095).getD p 0 = _
      exact getD_set_ne _ _ _ _ (fun h => hpc h.symm)
    | cons c2 r2 =>
      show (fatLink (fat.set c c2) (c2 :: r2)).getD p 0 = _
      rw [ih (fat.set c c2) p hpr]
      exact getD_set_ne _ _ _ _ (fun h => hpc h.symm)

theorem fatLink_set_comm :
    ∀ chain fat p v, p ∉ chain →
      fatLink (fat.set p v) chain = (fatLink fat chain).set p v := by
  intro chain
  induction chain with
  | nil => intro fat p v _; rfl
  | cons c rest ih =>
    intro fat p v hp
    have hpc : p ≠ c := fun h => hp (h ▸ List.mem_cons_self ..)
    have hpr : p ∉ rest := fun h => hp (List.mem_cons_of_mem _ h)
    cases rest with
    | nil =>
      show ((fat.set p v).set c 4095) = (fat.set c 4095).set p v
      exact List.set_comm _ _ _ hpc
    | cons c2 r2 =>
      show fatLink ((fat.set p v).set c c2) (c2 :: r2)
          = (fatLink (fat.set c c2) (c2 :: r2)).set p v
      rw [List.set_comm _ _ _ (fun h : p = c => hpc h), ih (fat.set c c2) p v hpr]

/-- Freeing a freshly linked chain restores the FAT exactly: the core
rollback step of `add_file_path`. -/
theorem deleteChain_undo_fatLink :
    ∀ chain fat fuel, chain ≠ [] → chain.Nodup →
      (∀ c ∈ chain, 2 ≤ c ∧ c < 4080 ∧ c < fat.length ∧ fat.getD c 0 = 0) →
      chain.length < fuel →
      deleteChain (fatLink fat chain) fuel (chain.headD 0) = fat := by
  intro chain
  induction chain with
  | nil => intro fat fuel hne _ _ _; exact absurd rfl hne
  | cons c rest ih =>
    intro fat fuel _ hnd hmem hfuel
    obtain ⟨hc2, hc4080, hclen, hcz⟩ := hmem c (List.mem_cons_self ..)
    obtain ⟨fuel, rfl⟩ : ∃ k, fuel = k + 1 := ⟨fuel - 1, by omega⟩
    have hcr : c ∉ rest := (List.nodup_cons.mp hnd).1
    cases rest with
    | nil =>
      show deleteChain (fat.set c 4095) (fuel + 1) c = fat
      simp only [deleteChain, if_pos (And.intro hc2 hc4080)]
      rw [getD_set_self _ _ _ hclen]
      rw [List.set_set]
      rw [set_of_getD _ _ _ hclen hcz]
      have hf1 : 1 ≤ fuel := by simp only [List.length_cons, List.length_nil] at hfuel; omega
      obtain ⟨fuel, rfl⟩ : ∃ k, fuel = k + 1 := ⟨fuel - 1, by omega⟩
      simp only [deleteChain]
      rw [if_neg (by omega)]
    | cons c2 r2 =>
      show deleteChain (fatLink (fat.set c c2) (c2 :: r2)) (fuel + 1) c = fat
      simp only [deleteChain, if_pos (And.intro hc2 hc4080)]
      rw [fatLink_getD_notmem _ _ _ hcr, getD_set_self _ _ _ hclen]
      rw [← fatLink_set_comm _ _ _ _ hcr, List.set_set]
      rw [set_of_getD _ _ _ hclen hcz]
      refine ih fat fuel (by simp) (List.nodup_cons.mp hnd).2 ?_ (by simpa using hfuel)
      intro q hq
      exact hmem q (List.mem_cons_of_mem _ hq)

theorem chainSelect_nodup_aux (f : Floppy) (clusters : Nat) :
    ∀ n i chain,
      2 ≤ i →
      (∀ q ∈ chain, ∃ k, 2 ≤ k ∧ k < i ∧ sideJ f k = q) →
      chain.Nodup →
      (∀ k1 k2, 2 ≤ k1 → k1 < i + n → 2 ≤ k2 → k2 < i + n → k1 ≠ k2 →
        sideJ f k1 ≠ sideJ f k2) →
      (chainSelect f n clusters i chain).Nodup ∧
      (∀ q ∈ chainSelect f n clusters i chain,
        ∃ k, 2 ≤ k ∧ k < i + n ∧ sideJ f k = q) := by
  intro n
  induction n with
  | zero =>
    intro i chain hi hsrc hnd _
    refine ⟨hnd, fun q hq => ?_⟩
    obtain ⟨k, hk1, hk2, hk3⟩ := hsrc q hq
    exact ⟨k, hk1, by omega, hk3⟩
  | succ n ih =>
    intro i chain hi hsrc hnd hinj
    simp only [chainSelect]
    have hstep : ∀ ch : List Nat,
        (∀ q ∈ ch, ∃ k, 2 ≤ k ∧ k < i + 1 ∧ sideJ f k = q) → ch.Nodup →
        (chainSelect f n clusters (i + 1) ch).Nodup ∧
        (∀ q ∈ chainSelect f n clusters (i + 1) ch,
          ∃ k, 2 ≤ k ∧ k < i + 1 + n ∧ sideJ f k = q) := by
      intro ch hs hn
      have := ih (i + 1) ch (by omega) hs hn
        (fun k1 k2 a1 b1 a2 b2 hne => hinj k1 k2 a1 (by omega) a2 (by omega) hne)
      refine ⟨this.1, fun q hq => ?_⟩
      obtain ⟨k, hk1, hk2, hk3⟩ := this.2 q hq
      exact ⟨k, hk1, by omega, hk3⟩
    have hwk : ∀ q ∈ chain, ∃ k, 2 ≤ k ∧ k < i + 1 ∧ sideJ f k = q := by
      intro q hq
      obtain ⟨k, hk1, hk2, hk3⟩ := hsrc q hq
      exact ⟨k, hk1, by omega, hk3⟩
    by_cases hskip : (f.cluster_limit : Int) ≤ ((sideJ f i : Nat) : Int)
    · rw [if_pos hskip]
      have := hstep chain hwk hnd
      exact ⟨this.1, fun q hq => by
        obtain ⟨k, hk1, hk2, hk3⟩ := this.2 q hq
        exact ⟨k, hk1, by omega, hk3⟩⟩
    · rw [if_neg hskip]
      by_cases hz : f.fat.getD (sideJ f i) 0 = 0
      · simp only [if_pos hz]
        have hnotin : sideJ f i ∉ chain := by
          intro hmem
          obtain ⟨k, hk1, hk2, hk3⟩ := hsrc (sideJ f i) hmem
          exact hinj k i hk1 (by omega) hi (by omega) (by omega) hk3
        have hnd1 : (chain ++ [sideJ f i]).Nodup := by
          rw [List.nodup_append]
          exact ⟨hnd, List.nodup_singleton _, by
            simp only [List.disjoint_singleton]
            exact hnotin⟩
        have hsrc1 : ∀ q ∈ chain ++ [sideJ f i],
            ∃ k, 2 ≤ k ∧ k < i + 1 ∧ sideJ f k = q := by
          intro q hq
          rcases List.mem_append.mp hq with h | h
          · exact hwk q h
          · exact ⟨i, hi, by omega, (List.mem_singleton.mp h).symm⟩
        by_cases hstop : clusters ≤ (chain ++ [sideJ f i]).length
        · rw [if_pos hstop]
          refine ⟨hnd1, fun q hq => ?_⟩
          obtain ⟨k, hk1, hk2, hk3⟩ := hsrc1 q hq
          exact ⟨k, hk1, by omega, hk3⟩
        · rw [if_neg hstop]
          have := hstep (chain ++ [sideJ f i]) hsrc1 hnd1
          exact ⟨this.1, fun q hq => by
            obtain ⟨k, hk1, hk2, hk3⟩ := this.2 q hq
            exact ⟨k, hk1, by omega, hk3⟩⟩
      · simp only [if_neg hz]
        by_cases hstop : clusters ≤ chain.length
        · rw [if_pos hstop]
          refine ⟨hnd, fun q hq => ?_⟩
          obtain ⟨k, hk1, hk2, hk3⟩ := hwk q hq
          exact ⟨k, hk1, by omega, hk3⟩
        · rw [if_neg hstop]
          have := hstep chain hwk hnd
          exact ⟨this.1, fun q hq => by
            obtain ⟨k, hk1, hk2, hk3⟩ := this.2 q hq
            exact ⟨k, hk1, by omega, hk3⟩⟩

theorem chainSelect_bounds_aux (f : Floppy) (clusters : Nat) :
    ∀ n i chain, (∀ q : Nat, q ∈ chain → 2 ≤ q ∧ ((q : Int) < f.cluster_limit)) →
      ∀ q : Nat, q ∈ chainSelect f n clusters i chain →
        2 ≤ q ∧ ((q : Int) < f.cluster_limit) := by
  intro n
  induction n with
  | zero => intro i chain h q hq; exact h q hq
  | succ n ih =>
    intro i chain h q hq
    simp only [chainSelect] at hq
    by_cases hskip : (f.cluster_limit : Int) ≤ ((sideJ f i : Nat) : Int)
    · rw [if_pos hskip] at hq
      exact ih (i + 1) chain h q hq
    · rw [if_neg hskip] at hq
      have hnew : ∀ q : Nat, q ∈ chain ++ [sideJ f i] →
          2 ≤ q ∧ ((q : Int) < f.cluster_limit) := by
        intro q hq
        rcases List.mem_append.mp hq with h2 | h2
        · exact h q h2
        · rw [List.mem_singleton.mp h2]
          exact ⟨sideJ_ge_two f i, by omega⟩
      by_cases hz : f.fat.getD (sideJ f i) 0 = 0
      · simp only [if_pos hz] at hq
        by_cases hstop : clusters ≤ (chain ++ [sideJ f i]).length
        · rw [if_pos hstop] at hq
          exact hnew q hq
        · rw [if_neg hstop] at hq
          exact ih (i + 1) _ hnew q hq
      · simp only [if_neg hz] at hq
        by_cases hstop : clusters ≤ chain.length
        · rw [if_pos hstop] at hq
          exact h q hq
        · rw [if_neg hstop] at hq
          exact ih (i + 1) chain h q hq

theorem clustersNeeded_pos (f : Floppy) (n : Nat) : 1 ≤ clustersNeeded f n := by
  simp only [clustersNeeded]
  split <;> omega

theorem addChain_neg (f : Floppy) (data : List Nat)
    (h : (addChain f data).2 < 0) : (addChain f data).1 = f := by
  by_cases hc : (chainSelect f (f.fat.length - 2) (clustersNeeded f data.length) 2 []).length
      < clustersNeeded f data.length
  · simp only [addChain, if_pos hc]
  · exfalso
    simp only [addChain, if_neg hc] at h
    omega

theorem addChain_ok_fat (f : Floppy) (data : List Nat)
    (h : 0 ≤ (addChain f data).2) :
    clustersNeeded f data.length ≤
      (chainSelect f (f.fat.length - 2) (clustersNeeded f data.length) 2 []).length ∧
    (addChain f data).1.fat =
      fatLink f.fat (chainSelect f (f.fat.length - 2) (clustersNeeded f data.length) 2 []) ∧
    (addChain f data).2 =
      ((chainSelect f (f.fat.length - 2) (clustersNeeded f data.length) 2 []).headD 0 : Int) := by
  by_cases hc : (chainSelect f (f.fat.length - 2) (clustersNeeded f data.length) 2 []).length
      < clustersNeeded f data.length
  · exfalso
    simp only [addChain, if_pos hc] at h
    omega
  · simp only [addChain, if_neg hc]
    refine ⟨by omega, ?_, trivial⟩
    exact (writeChainData_frame _ _ _).1

theorem addEntryInsert_true (f : Floppy) (dc : Nat) (e : FileEntry) (i dl : Nat)
    (t : Bool) (f4 : Floppy) (e4 : FileEntry) (ok : Bool)
    (h : addEntryInsert f dc e i dl t = .ok (f4, e4, ok)) : ok = true := by
  rw [addEntryInsert] at h
  simp only at h
  repeat' split at h
  all_goals first
    | exact (Except.noConfusion h)
    | (injection h with h
       exact (((Prod.mk.injEq ..).mp ((Prod.mk.injEq ..).mp h).2).2).symm)

theorem addEntryInsert_dfOnly (f : Floppy) (dc : Nat) (e : FileEntry) (i dl : Nat)
    (t : Bool) (f4 : Floppy) (e4 : FileEntry) (ok : Bool)
    (h : addEntryInsert f dc e i dl t = .ok (f4, e4, ok)) : dfOnly f f4 := by
  rw [addEntryInsert] at h
  simp only at h
  repeat' split at h
  all_goals first
    | exact (Except.noConfusion h)
    | (injection h with h
       rw [← ((Prod.mk.injEq ..).mp h).1]
       first
         | exact dfOnly_trans (dfOnly_data f _) (dfOnly_data _ _)
         | exact dfOnly_data f _)

theorem addEntry_false (f : Floppy) (dc : Nat) (e : FileEntry)
    (f4 : Floppy) (e4 : FileEntry)
    (h : addEntry f dc e = .ok (f4, e4, false)) : f4 = f := by
  rw [addEntry] at h
  split at h
  next i t _ =>
    exact absurd (addEntryInsert_true _ _ _ _ _ _ _ _ _ h) (by simp)
  · split at h
    · injection h with h
      exact ((Prod.mk.injEq ..).mp h).1.symm
    · simp only at h
      split at h
      · injection h with h
        rw [← ((Prod.mk.injEq ..).mp h).1]
        exact addChain_neg f _ (by assumption)
      · exact absurd (addEntryInsert_true _ _ _ _ _ _ _ _ _ h) (by simp)

theorem addEntry_dfOnly (f : Floppy) (dc : Nat) (e : FileEntry)
    (f4 : Floppy) (e4 : FileEntry) (ok : Bool)
    (h : addEntry f dc e = .ok (f4, e4, ok)) : dfOnly f f4 := by
  rw [addEntry] at h
  split at h
  next i t _ =>
    exact addEntryInsert_dfOnly _ _ _ _ _ _ _ _ _ h
  · split at h
    · injection h with h
      rw [← ((Prod.mk.injEq ..).mp h).1]
      exact dfOnly_refl f
    · simp only at h
      split at h
      · injection h with h
        rw [← ((Prod.mk.injEq ..).mp h).1]
        exact addChain_dfOnly f _
      · refine dfOnly_trans
          (addChain_dfOnly f (List.replicate (f.sector_size * f.cluster_sects) 0)) ?_
        refine dfOnly_trans ?_ (addEntryInsert_dfOnly _ _ _ _ _ _ _ _ _ h)
        exact dfOnly_fat _ _ (by rw [List.length_set, List.length_set])

theorem addDirRecursive_dfOnly (wd wt : Nat) :
    ∀ fuel f cluster path f5 c,
      addDirRecursive wd wt fuel f cluster path = .ok (f5, c) → dfOnly f f5 := by
  intro fuel
  induction fuel with
  | zero => intro f cluster path f5 c h; exact (Except.noConfusion h)
  | succ fuel ih =>
    intro f cluster path f5 c h
    rw [addDirRecursive] at h
    simp only at h
    repeat' split at h
    all_goals first
      | exact (Except.noConfusion h)
      | exact ih _ _ _ _ _ h
      | (refine dfOnly_trans ?_ (ih _ _ _ _ _ h)
         refine dfOnly_trans (dfOnly_trans (addChain_dfOnly _ _)
           (dfOnly_trans (dfOnly_data _ _) (dfOnly_trans (dfOnly_data _ _) (dfOnly_data _ _))))
           (addEntry_dfOnly _ _ _ _ _ _ (by assumption)))
      | (injection h with h
         rw [← ((Prod.mk.injEq ..).mp h).1]
         first
           | exact dfOnly_refl _
           | exact addChain_dfOnly _ _
           | (refine dfOnly_trans (dfOnly_trans (addChain_dfOnly _ _)
               (dfOnly_trans (dfOnly_data _ _) (dfOnly_trans (dfOnly_data _ _) (dfOnly_data _ _))))
               (addEntry_dfOnly _ _ _ _ _ _ (by assumption)))
           | (refine dfOnly_trans (dfOnly_trans (dfOnly_trans (addChain_dfOnly _ _)
               (dfOnly_trans (dfOnly_data _ _) (dfOnly_trans (dfOnly_data _ _) (dfOnly_data _ _))))
               (addEntry_dfOnly _ _ _ _ _ _ (by assumption)))
               (dfOnly_fat _ _ (by simp [deleteChainTop, deleteChain_length]))))

theorem addDirPath_dfOnly (wd wt fuel : Nat) (f : Floppy) (path : List Nat)
    (f2 : Floppy) (c : Int) (h : addDirPath wd wt fuel f path = .ok (f2, c)) :
    dfOnly f f2 := by
  rw [addDirPath] at h
  split at h
  · injection h with h
    rw [← ((Prod.mk.injEq ..).mp h).1]
    exact dfOnly_refl f
  · exact addDirRecursive_dfOnly wd wt fuel f 0 path f2 c h

/-- C5.  On a `False` return of `add_file_path`, only the data chain is
rolled back: the resulting FAT is exactly the FAT after the
delete-existing-entry and ensure-directory stages (whose effects — the
deletion of any file previously at the path, and any directories
created — persist). -/
theorem addFilePath_rollback (wd wt fuel : Nat) (f : Floppy) (path data : List Nat)
    (f' : Floppy)
    (hlen : 2 ≤ f.fat.length)
    (hlim : f.cluster_limit ≤ (f.fat.length : Int))
    (hlim2 : f.cluster_limit ≤ 4080)
    (hinj : ∀ k1, k1 < f.fat.length → ∀ k2, k2 < f.fat.length →
      ¬(2 ≤ k1 ∧ 2 ≤ k2 ∧ k1 ≠ k2 ∧ sideJ f k1 = sideJ f k2))
    (h : addFilePath wd wt fuel f path data = .ok (f', false)) :
    ∃ f1 b1 f2 dc,
      deletePath fuel f path = .ok (f1, b1) ∧
      addDirPath wd wt fuel f1
        (match strRFind path 92 with | some p => path.take p | none => []) = .ok (f2, dc) ∧
      f'.fat = f2.fat := by
  rw [addFilePath] at h
  split at h
  · exact (Except.noConfusion h)
  next f1 b1 hdel =>
    simp only at h
    split at h
    · exact (Except.noConfusion h)
    next f2 dc hdir =>
      refine ⟨f1, b1, f2, dc, hdel, hdir, ?_⟩
      split at h
      · injection h with h
        rw [← ((Prod.mk.injEq ..).mp h).1]
      next hneg =>
        split at h
        · injection h with h
          rw [← ((Prod.mk.injEq ..).mp h).1, addChain_neg f2 data (by assumption)]
        next hr =>
          split at h
          · exact (Except.noConfusion h)
          next e0 hnew =>
            split at h
            · exact (Except.noConfusion h)
            next f4 e2 ok hadd =>
              split at h
              next hok =>
                repeat' split at h
                all_goals first
                  | exact (Except.noConfusion h)
                  | (injection h with h
                     exact absurd ((Prod.mk.injEq ..).mp h).2 (by simp))
              next hok =>
                injection h with h
                rw [← ((Prod.mk.injEq ..).mp h).1]
                have hok2 : ok = false := by
                  cases ok
                  · rfl
                  · exact absurd rfl hok
                rw [hok2] at hadd
                have hf4 : f4 = (addChain f2 data).1 := addEntry_false _ _ _ _ _ hadd
                have h0 : (0 : Int) ≤ (addChain f2 data).2 := by omega
                obtain ⟨hclen, hfat, hhead⟩ := addChain_ok_fat f2 data h0
                have hdf : dfOnly f f2 :=
                  dfOnly_trans (deletePath_dfOnly fuel f path f1 b1 hdel)
                    (addDirPath_dfOnly wd wt fuel f1 _ f2 dc hdir)
                obtain ⟨d, ft, hf2eq, hftlen⟩ := hdf
                have hfl : f2.fat.length = f.fat.length := by
                  rw [hf2eq]; exact hftlen
                have hJ : ∀ i, sideJ f2 i = sideJ f i := by
                  intro i; rw [hf2eq]; rfl
                have hcl : f2.cluster_limit = f.cluster_limit := by
                  rw [hf2eq]
                have hnd := (chainSelect_nodup_aux f2
                    (clustersNeeded f2 data.length) (f2.fat.length - 2) 2 []
                    (by omega)
                    (by intro q hq; exact absurd hq (List.not_mem_nil q))
                    List.nodup_nil
                    (fun k1 k2 a1 hb1 a2 hb2 hne => by
                      have hk1 : k1 < f.fat.length := by omega
                      have hk2 : k2 < f.fat.length := by omega
                      intro hEq
                      exact hinj k1 hk1 k2 hk2
                        ⟨a1, a2, hne, by rw [← hJ k1, ← hJ k2]; exact hEq⟩)).1
                have hbounds := chainSelect_bounds_aux f2
                    (clustersNeeded f2 data.length) (f2.fat.length - 2) 2 []
                    (by intro q hq; exact absurd hq (List.not_mem_nil q))
                have hfree := chainSelect_free_aux f2
                    (clustersNeeded f2 data.length) (f2.fat.length - 2) 2 []
                have hmemprops : ∀ c ∈ chainSelect f2 (f2.fat.length - 2)
                    (clustersNeeded f2 data.length) 2 [],
                    2 ≤ c ∧ c < 4080 ∧ c < f2.fat.length ∧ f2.fat.getD c 0 = 0 := by
                  intro c hc
                  obtain ⟨hc2, hcL⟩ := hbounds c hc
                  rw [hcl] at hcL
                  have hcz : f2.fat.getD c 0 = 0 := by
                    rcases hfree c hc with hx | hx
                    · exact absurd hx (List.not_mem_nil c)
                    · exact hx
                  exact ⟨hc2, by omega, by omega, hcz⟩
                have hne : chainSelect f2 (f2.fat.length - 2)
                    (clustersNeeded f2 data.length) 2 [] ≠ [] := by
                  have := clustersNeeded_pos f2 data.length
                  intro hempty
                  rw [hempty] at hclen
                  simp only [List.length_nil] at hclen
                  omega
                have hchainlen : (chainSelect f2 (f2.fat.length - 2)
                    (clustersNeeded f2 data.length) 2 []).length ≤ f2.fat.length := by
                  have hsub : (chainSelect f2 (f2.fat.length - 2)
                      (clustersNeeded f2 data.length) 2 []).toFinset ⊆
                      Finset.range f2.fat.length := by
                    intro x hx
                    exact Finset.mem_range.mpr
                      (hmemprops x (List.mem_toFinset.mp hx)).2.2.1
                  have hcard := Finset.card_le_card hsub
                  rw [List.toFinset_card_of_nodup hnd, Finset.card_range] at hcard
                  exact hcard
                show deleteChainTop f4.fat (addChain f2 data).2.toNat = f2.fat
                rw [hf4, hfat, hhead, Int.toNat_natCast, deleteChainTop, fatLink_length]
                exact deleteChain_undo_fatLink _ f2.fat _ hne hnd hmemprops (by omega)

/-- The tiny image holding file "F" with payload `[1, 2, 3]`. -/
def tinyWithF : Floppy :=
  match addFilePath 0 0 50 tinyFloppy [70] [1, 2, 3] with
  | .ok r => r.1
  | .error _ => tinyFloppy

/-- `tinyWithF` plus a file "G" filling every remaining cluster. -/
def tinyFull : Floppy :=
  match addFilePath 0 0 50 tinyWithF [71] (List.replicate 832 7) with
  | .ok r => r.1
  | .error _ => tinyWithF

/-- The state after re-adding "F" with a 64-byte payload fails on the
full image. -/
def tinyFullFail : Floppy :=
  match addFilePath 0 0 50 tinyFull [70] (List.replicate 64 9) with
  | .ok r => r.1
  | .error _ => tinyFull

set_option maxRecDepth 100000 in
/-- C5 counterexample.  On the full tiny image, "F" is present and
readable; re-adding it with a larger payload returns `False` — and
afterwards "F" is gone: the entry deleted by the first stage is not
restored, so the logical state differs from before the call. -/
theorem addFilePath_failure_destroys :
    extractFilePath tinyFull [70] = some [1, 2, 3] ∧
    (addFilePath 0 0 50 tinyFull [70] (List.replicate 64 9)).toOption.map Prod.snd
      = some false ∧
    extractFilePath tinyFullFail [70] = none :=
  ⟨rfl, rfl, rfl⟩

set_option maxRecDepth 100000 in
/-- C5 witness: the rollback theorem applied to the failing re-add of
"F" on the full tiny image. -/
theorem addFilePath_rollback_witness :
    (2 ≤ tinyFull.fat.length) ∧
    (tinyFull.cluster_limit ≤ (tinyFull.fat.length : Int)) ∧
    (tinyFull.cluster_limit ≤ 4080) ∧
    (∀ k1, k1 < tinyFull.fat.length → ∀ k2, k2 < tinyFull.fat.length →
      ¬(2 ≤ k1 ∧ 2 ≤ k2 ∧ k1 ≠ k2 ∧ sideJ tinyFull k1 = sideJ tinyFull k2)) ∧
    (∃ f1 b1 f2 dc,
      deletePath 50 tinyFull [70] = .ok (f1, b1) ∧
      addDirPath 0 0 50 f1
        (match strRFind [70] 92 with | some p => List.take p [70] | none => [])
        = .ok (f2, dc) ∧
      tinyFullFail.fat = f2.fat) :=
  ⟨by decide, by decide, by decide, by decide,
    addFilePath_rollback 0 0 50 tinyFull [70] (List.replicate 64 9) tinyFullFail
      (by decide) (by decide) (by decide) (by decide) rfl⟩

/-! ## Byte-level helper lemmas for the directory-entry codec -/

theorem getD_append_right (x y : List Nat) (k d : Nat) :
    (x ++ y).getD (x.length + k) d = y.getD k d := by
  rw [List.getD_eq_getElem?_getD, List.getD_eq_getElem?_getD,
    List.getElem?_append_right (by omega)]
  congr 2
  omega

theorem getD_append_left (x y : List Nat) (k d : Nat) (h : k < x.length) :
    (x ++ y).getD k d = x.getD k d := by
  rw [List.getD_eq_getElem?_getD, List.getD_eq_getElem?_getD,
    List.getElem?_append_left h]

theorem set_append_shift (x y : List Nat) (k : Nat) (v : Nat) :
    (x ++ y).set (x.length + k) v = x ++ y.set k v := by
  have h2 : x.length + k - x.length = k := by omega
  rw [List.set_append_right _ _ (by omega), h2]

theorem leNat_shift (n : Nat) :
    ∀ (x y : List Nat) (k : Nat), leNat (x ++ y) (x.length + k) n = leNat y k n := by
  induction n with
  | zero => intro x y k; rfl
  | succ n ih =>
    intro x y k
    show (x ++ y).getD (x.length + k) 0 + 256 * leNat (x ++ y) (x.length + k + 1) n = _
    rw [getD_append_right, Nat.add_assoc, ih x y (k + 1)]
    rfl

theorem leBytes_length (v : Nat) : ∀ n, (leBytes v n).length = n := by
  intro n
  induction n generalizing v with
  | zero => rfl
  | succ n ih =>
    show (v % 256 :: leBytes (v / 256) n).length = n + 1
    rw [List.length_cons, ih (v / 256)]

theorem leNat_leBytes (n : Nat) :
    ∀ (v : Nat) (rest : List Nat), leNat (leBytes v n ++ rest) 0 n = v % 256 ^ n := by
  induction n with
  | zero => intro v rest; simp [leNat, Nat.mod_one]
  | succ n ih =>
    intro v rest
    show leNat ((v % 256 :: leBytes (v / 256) n) ++ rest) 0 (n + 1) = _
    show (v % 256 :: (leBytes (v / 256) n ++ rest)).getD 0 0 +
      256 * leNat (v % 256 :: (leBytes (v / 256) n ++ rest)) 1 n = _
    have hshift : leNat ([v % 256] ++ (leBytes (v / 256) n ++ rest))
        (List.length [v % 256] + 0) n = leNat (leBytes (v / 256) n ++ rest) 0 n :=
      leNat_shift n [v % 256] (leBytes (v / 256) n ++ rest) 0
    simp only [List.length_cons, List.length_nil] at hshift
    have hc : (v % 256 :: (leBytes (v / 256) n ++ rest)) =
        [v % 256] ++ (leBytes (v / 256) n ++ rest) := rfl
    rw [hc, getD_append_left _ _ 0 0 (by simp), hshift, ih (v / 256) rest]
    show v % 256 + 256 * (v / 256 % 256 ^ n) = v % 256 ^ (n + 1)
    rw [pow_succ, Nat.mul_comm (256 ^ n) 256, Nat.mod_mul]

theorem rstrip_replicate_append (k : Nat) (x : List Nat) :
    rstripSpace (x ++ List.replicate k 32) = rstripSpace x := by
  rw [rstripSpace, rstripSpace, List.reverse_append, List.reverse_replicate]
  congr 1
  induction k with
  | zero => rfl
  | succ k ih =>
    rw [List.replicate_succ, List.cons_append, List.dropWhile_cons]
    simpa using ih

theorem rstrip_no_space (x : List Nat) (h : ∀ c ∈ x, ¬c = 32) :
    rstripSpace x = x := by
  rw [rstripSpace]
  rcases hr : x.reverse with _ | ⟨c, t⟩
  · simpa using congrArg List.reverse hr
  · have hc : c ∈ x := by
      rw [← List.mem_reverse, hr]
      exact List.mem_cons_self ..
    rw [List.dropWhile_cons, if_neg (by simpa using h c hc), ← hr, List.reverse_reverse]

/-- A component is canonical 8.3: printable non-space ASCII, a name
part of at most 8 characters, and — when a dot is present — a nonempty
extension of at most 3 characters after the first dot.  Exactly these
components survive the `compile`/parse round trip verbatim. -/
def canonical83 (s : List Nat) : Bool :=
  s.all (fun c => 33 ≤ c && c < 128) &&
  (if s.contains 46 then
    decide ((s.take (s.indexOf 46)).length ≤ 8) &&
    decide ((s.drop (s.indexOf 46 + 1)).length ≤ 3) &&
    decide (0 < (s.drop (s.indexOf 46 + 1)).length)
  else decide (s.length ≤ 8))

theorem entry_bytes_shape (D f8 e3 : List Nat) (attr wt wd cl sz : Nat)
    (hD : D.length = 32) (h8 : f8.length = 8) (h3 : e3.length = 3) :
    splice ((splice (splice D 0 f8) 8 e3).set 11 attr) 22
      (leBytes wt 2 ++ leBytes wd 2 ++ leBytes cl 2 ++ leBytes sz 4) =
    f8 ++ e3 ++ attr :: ((D.drop 12).take 10 ++
      (leBytes wt 2 ++ leBytes wd 2 ++ leBytes cl 2 ++ leBytes sz 4)) := by
  have h1 : splice D 0 f8 = f8 ++ D.drop 8 := by
    simp [splice, h8]
  have h2 : splice (f8 ++ D.drop 8) 8 e3 = (f8 ++ e3) ++ D.drop 11 := by
    rw [splice, h3]
    have ht : (f8 ++ D.drop 8).take 8 = f8 := List.take_left' h8
    have hd1 : (f8 ++ D.drop 8).drop (8 + 3) = D.drop 11 := by
      have hx : (f8 ++ D.drop 8).drop (f8.length + 3) = (D.drop 8).drop 3 :=
        List.drop_append 3
      rw [h8] at hx
      rw [hx, List.drop_drop]
    rw [ht, hd1, List.append_assoc]
  have h3s : ((f8 ++ e3) ++ D.drop 11).set 11 attr =
      (f8 ++ e3) ++ attr :: D.drop 12 := by
    have hlen : (f8 ++ e3).length = 11 := by simp [h8, h3]
    have hx : ((f8 ++ e3) ++ D.drop 11).set ((f8 ++ e3).length + 0) attr =
        (f8 ++ e3) ++ (D.drop 11).set 0 attr := set_append_shift ..
    rw [hlen] at hx
    have hd11 : D.drop 11 = D.getD 11 0 :: D.drop 12 := by
      rw [List.getD_eq_getElem?_getD, List.getElem?_eq_getElem (by omega)]
      exact List.drop_eq_getElem_cons (by omega)
    rw [show (11 : Nat) = 11 + 0 from rfl, hx, hd11]
    rfl
  have h4 : splice ((f8 ++ e3) ++ attr :: D.drop 12) 22
      (leBytes wt 2 ++ leBytes wd 2 ++ leBytes cl 2 ++ leBytes sz 4) =
      f8 ++ e3 ++ attr :: ((D.drop 12).take 10 ++
        (leBytes wt 2 ++ leBytes wd 2 ++ leBytes cl 2 ++ leBytes sz 4)) := by
    have hT : (leBytes wt 2 ++ leBytes wd 2 ++ leBytes cl 2 ++ leBytes sz 4).length = 10 := by
      simp [leBytes_length]
    have htk : ((f8 ++ e3) ++ attr :: D.drop 12).take 22 =
        (f8 ++ e3) ++ attr :: (D.drop 12).take 10 := by
      rw [List.take_append_eq_append_take,
        List.take_of_length_le (by simp [h8, h3])]
      congr 1
      have hx : 22 - (f8 ++ e3).length = 11 := by simp [h8, h3]
      rw [hx]
      rfl
    have hdp : ((f8 ++ e3) ++ attr :: D.drop 12).drop (22 + 10) = [] := by
      apply List.drop_eq_nil_of_le
      simp only [List.length_append, List.length_cons, List.length_drop, h8, h3, hD]
      omega
    rw [splice, hT, htk, hdp, List.append_nil, List.append_assoc, List.cons_append,
      List.append_assoc]
  rw [h1, h2, h3s, h4]

theorem entry_bytes_fields (f8 e3 mid : List Nat) (attr wt wd cl sz : Nat)
    (h8 : f8.length = 8) (h3 : e3.length = 3) (hmid : mid.length = 10) :
    (f8 ++ e3 ++ attr :: (mid ++
        (leBytes wt 2 ++ leBytes wd 2 ++ leBytes cl 2 ++ leBytes sz 4))).length = 32 ∧
    (f8 ++ e3 ++ attr :: (mid ++
        (leBytes wt 2 ++ leBytes wd 2 ++ leBytes cl 2 ++ leBytes sz 4))).getD 0 0
      = f8.getD 0 0 ∧
    sliceAB (f8 ++ e3 ++ attr :: (mid ++
        (leBytes wt 2 ++ leBytes wd 2 ++ leBytes cl 2 ++ leBytes sz 4))) 0 8 = f8 ∧
    sliceAB (f8 ++ e3 ++ attr :: (mid ++
        (leBytes wt 2 ++ leBytes wd 2 ++ leBytes cl 2 ++ leBytes sz 4))) 8 11 = e3 ∧
    (f8 ++ e3 ++ attr :: (mid ++
        (leBytes wt 2 ++ leBytes wd 2 ++ leBytes cl 2 ++ leBytes sz 4))).getD 11 0
      = attr ∧
    leNat (f8 ++ e3 ++ attr :: (mid ++
        (leBytes wt 2 ++ leBytes wd 2 ++ leBytes cl 2 ++ leBytes sz 4))) 26 2
      = cl % 65536 ∧
    leNat (f8 ++ e3 ++ attr :: (mid ++
        (leBytes wt 2 ++ leBytes wd 2 ++ leBytes cl 2 ++ leBytes sz 4))) 28 4
      = sz % 4294967296 := by
  have hT1 : (leBytes wt 2).length = 2 := leBytes_length wt 2
  have hT2 : (leBytes wd 2).length = 2 := leBytes_length wd 2
  have hT3 : (leBytes cl 2).length = 2 := leBytes_length cl 2
  have hT4 : (leBytes sz 4).length = 4 := leBytes_length sz 4
  refine ⟨?_, ?_, ?_, ?_, ?_, ?_, ?_⟩
  · simp [h8, h3, hmid, hT1, hT2, hT3, hT4]
  · rcases hf : f8 with _ | ⟨a, t⟩
    · rw [hf] at h8; exact absurd h8 (by simp)
    · rfl
  · simp only [sliceAB, Nat.sub_zero, List.drop_zero, List.append_assoc]
    exact List.take_left' h8
  · simp only [sliceAB, List.append_assoc, show 11 - 8 = 3 from rfl]
    rw [List.drop_left' h8]
    exact List.take_left' h3
  · have hx := getD_append_right (f8 ++ e3)
      (attr :: (mid ++ (leBytes wt 2 ++ leBytes wd 2 ++ leBytes cl 2 ++ leBytes sz 4))) 0 0
    have hl : (f8 ++ e3).length = 11 := by simp [h8, h3]
    rw [hl] at hx
    simpa [List.append_assoc] using hx
  · have hgrp : f8 ++ e3 ++ attr :: (mid ++
        (leBytes wt 2 ++ leBytes wd 2 ++ leBytes cl 2 ++ leBytes sz 4)) =
        ((f8 ++ e3 ++ attr :: mid) ++ (leBytes wt 2 ++ leBytes wd 2)) ++
          (leBytes cl 2 ++ leBytes sz 4) := by
      simp [List.append_assoc]
    have hl : ((f8 ++ e3 ++ attr :: mid) ++ (leBytes wt 2 ++ leBytes wd 2)).length = 26 := by
      simp [h8, h3, hmid, hT1, hT2]
    have hx := leNat_shift 2 ((f8 ++ e3 ++ attr :: mid) ++ (leBytes wt 2 ++ leBytes wd 2))
      (leBytes cl 2 ++ leBytes sz 4) 0
    rw [hl] at hx
    rw [hgrp]
    have hv := leNat_leBytes 2 cl (leBytes sz 4)
    simpa [hv] using hx
  · have hgrp : f8 ++ e3 ++ attr :: (mid ++
        (leBytes wt 2 ++ leBytes wd 2 ++ leBytes cl 2 ++ leBytes sz 4)) =
        ((f8 ++ e3 ++ attr :: mid) ++ (leBytes wt 2 ++ leBytes wd 2 ++ leBytes cl 2)) ++
          (leBytes sz 4 ++ []) := by
      simp [List.append_assoc]
    have hl : ((f8 ++ e3 ++ attr :: mid) ++
        (leBytes wt 2 ++ leBytes wd 2 ++ leBytes cl 2)).length = 28 := by
      simp [h8, h3, hmid, hT1, hT2, hT3]
    have hx := leNat_shift 4 ((f8 ++ e3 ++ attr :: mid) ++
      (leBytes wt 2 ++ leBytes wd 2 ++ leBytes cl 2)) (leBytes sz 4 ++ []) 0
    rw [hl] at hx
    rw [hgrp]
    have hv : leNat (leBytes sz 4) 0 4 = sz % 4294967296 := by
      simpa using leNat_leBytes 4 sz []
    simpa [hv] using hx

theorem entry_parse_fields (fn ext mid B : List Nat) (attr wt wd cl sz dc di : Nat)
    (hB : B = (fn ++ List.replicate (8 - fn.length) 32) ++
      (ext ++ List.replicate (3 - ext.length) 32) ++
      attr :: (mid ++ (leBytes wt 2 ++ leBytes wd 2 ++ leBytes cl 2 ++ leBytes sz 4)))
    (hmid : mid.length = 10) (hfn8 : fn.length ≤ 8) (hext3 : ext.length ≤ 3)
    (hfna : ∀ c ∈ fn, 33 ≤ c ∧ c < 128) (hexta : ∀ c ∈ ext, 33 ≤ c ∧ c < 128) :
    B.length = 32 ∧
    (entryOfBytes B dc di).path = (if 0 < ext.length then fn ++ [46] ++ ext else fn) ∧
    (entryOfBytes B dc di).incipit ≠ 0 ∧
    (entryOfBytes B dc di).incipit ≠ 229 ∧
    (entryOfBytes B dc di).attributes = attr ∧
    (entryOfBytes B dc di).cluster = cl % 65536 ∧
    (entryOfBytes B dc di).size = sz % 4294967296 := by
  subst hB
  have h8 : (fn ++ List.replicate (8 - fn.length) 32).length = 8 := by
    simp only [List.length_append, List.length_replicate]
    omega
  have h3 : (ext ++ List.replicate (3 - ext.length) 32).length = 3 := by
    simp only [List.length_append, List.length_replicate]
    omega
  obtain ⟨hL, h0, hs8, hs11, h11, h26, h28⟩ :=
    entry_bytes_fields _ _ mid attr wt wd cl sz h8 h3 hmid
  have hincv : 32 ≤ (fn ++ List.replicate (8 - fn.length) 32).getD 0 0 ∧
      (fn ++ List.replicate (8 - fn.length) 32).getD 0 0 < 128 := by
    cases hfn : fn with
    | nil => simp [List.getD_eq_getElem?_getD]
    | cons c t =>
      have hc : c ∈ fn := by rw [hfn]; exact List.mem_cons_self ..
      have := hfna c hc
      simp only [List.cons_append, List.getD_cons_zero]
      omega
  have hne0 : (fn ++ List.replicate (8 - fn.length) 32).getD 0 0 ≠ 0 := by omega
  have hne229 : (fn ++ List.replicate (8 - fn.length) 32).getD 0 0 ≠ 229 := by omega
  have hfnr : rstripSpace (fn ++ List.replicate (8 - fn.length) 32) = fn := by
    rw [rstrip_replicate_append]
    exact rstrip_no_space fn (fun c hc => by have := hfna c hc; omega)
  have hextr : rstripSpace (ext ++ List.replicate (3 - ext.length) 32) = ext := by
    rw [rstrip_replicate_append]
    exact rstrip_no_space ext (fun c hc => by have := hexta c hc; omega)
  refine ⟨hL, ?_, ?_, ?_, ?_, ?_, ?_⟩
  · show (if _ ∧ _ then _ else _) = _
    rw [h0, if_pos ⟨hne0, hne229⟩, hs8, hs11, hfnr, hextr]
  · show ((fn ++ List.replicate (8 - fn.length) 32) ++ _ ++ _).getD 0 0 ≠ 0
    rw [h0]
    exact hne0
  · show ((fn ++ List.replicate (8 - fn.length) 32) ++ _ ++ _).getD 0 0 ≠ 229
    rw [h0]
    exact hne229
  · exact h11
  · exact h26
  · exact h28

theorem entryCompile_roundtrip (e : FileEntry) (dc di : Nat)
    (hd : e.data.length = 32)
    (hcanon : canonical83 e.path = true)
    (hinc : e.incipit ≠ 0 ∧ e.incipit ≠ 239) :
    ∃ b, entryCompile e = .ok b ∧ b.length = 32 ∧
      (entryOfBytes b dc di).path = e.path ∧
      (entryOfBytes b dc di).incipit ≠ 0 ∧
      (entryOfBytes b dc di).incipit ≠ 229 ∧
      (entryOfBytes b dc di).attributes = e.attributes ∧
      (entryOfBytes b dc di).cluster = e.cluster % 65536 ∧
      (entryOfBytes b dc di).size = e.size % 4294967296 := by
  have hall : ∀ c ∈ e.path, 33 ≤ c ∧ c < 128 := by
    have h1 := ((Bool.and_eq_true ..).mp hcanon).1
    intro c hc
    have h2 := List.all_eq_true.mp h1 c hc
    simp only [Bool.and_eq_true, decide_eq_true_eq] at h2
    exact h2
  have hif := ((Bool.and_eq_true ..).mp hcanon).2
  have hmid : ((e.data.drop 12).take 10).length = 10 := by
    rw [List.length_take, List.length_drop, hd]
    omega
  by_cases hdot : e.path.contains 46 = true
  · rw [if_pos hdot] at hif
    simp only [Bool.and_eq_true, decide_eq_true_eq] at hif
    obtain ⟨⟨hfn8, hext3⟩, hextpos⟩ := hif
    have h46 : (46 : Nat) ∈ e.path := List.mem_of_elem_eq_true hdot
    have hplt : e.path.indexOf 46 < e.path.length := List.indexOf_lt_length.mpr h46
    have hfna : ∀ c ∈ e.path.take (e.path.indexOf 46), 33 ≤ c ∧ c < 128 :=
      fun c hc => hall c (List.mem_of_mem_take hc)
    have hexta : ∀ c ∈ e.path.drop (e.path.indexOf 46 + 1), 33 ≤ c ∧ c < 128 :=
      fun c hc => hall c (List.mem_of_mem_drop hc)
    have hf8 := filestring_ascii_ok (e.path.take (e.path.indexOf 46)) 8
      (fun c hc => (hfna c hc).2) hfn8
    have he3 := filestring_ascii_ok (e.path.drop (e.path.indexOf 46 + 1)) 3
      (fun c hc => (hexta c hc).2) hext3
    have hcomp : entryCompile e = .ok
        ((e.path.take (e.path.indexOf 46) ++
            List.replicate (8 - (e.path.take (e.path.indexOf 46)).length) 32) ++
          (e.path.drop (e.path.indexOf 46 + 1) ++
            List.replicate (3 - (e.path.drop (e.path.indexOf 46 + 1)).length) 32) ++
          e.attributes :: ((e.data.drop 12).take 10 ++
            (leBytes e.write_time 2 ++ leBytes e.write_date 2 ++
             leBytes e.cluster 2 ++ leBytes e.size 4))) := by
      rw [entryCompile]
      simp only [hdot, if_true, if_pos hinc, hf8, he3]
      rw [entry_bytes_shape e.data _ _ e.attributes e.write_time e.write_date
        e.cluster e.size hd (by simp only [List.length_append, List.length_replicate, List.length_nil]; try omega)
        (by simp only [List.length_append, List.length_replicate, List.length_nil]; try omega)]
    obtain ⟨hL, hpath, hi0, hi229, hattr, hcl, hsz⟩ :=
      entry_parse_fields (e.path.take (e.path.indexOf 46))
        (e.path.drop (e.path.indexOf 46 + 1)) ((e.data.drop 12).take 10) _
        e.attributes e.write_time e.write_date e.cluster e.size dc di rfl
        hmid hfn8 hext3 hfna hexta
    have hrec : (e.path.take (e.path.indexOf 46) ++ [46]) ++
        e.path.drop (e.path.indexOf 46 + 1) = e.path := by
      have h2 : e.path[e.path.indexOf 46] = 46 := List.getElem_indexOf hplt
      have h1 := List.take_concat_get' e.path (e.path.indexOf 46) hplt
      rw [h2] at h1
      rw [h1, List.take_append_drop]
    refine ⟨_, hcomp, hL, ?_, hi0, hi229, hattr, hcl, hsz⟩
    rw [hpath, if_pos hextpos]
    exact hrec
  · have hdf : e.path.contains 46 = false := by
      revert hdot
      cases e.path.contains 46 <;> simp
    rw [hdf] at hif
    simp only [Bool.false_eq_true, if_false, decide_eq_true_eq] at hif
    have hf8 := filestring_ascii_ok e.path 8 (fun c hc => (hall c hc).2) hif
    have he3 : filestring [] 3 = .ok ([] ++ List.replicate (3 - List.length []) 32) :=
      filestring_ascii_ok [] 3 (fun c hc => absurd hc (List.not_mem_nil c)) (by simp)
    have hcomp : entryCompile e = .ok
        ((e.path ++ List.replicate (8 - e.path.length) 32) ++
          (([] : List Nat) ++ List.replicate (3 - ([] : List Nat).length) 32) ++
          e.attributes :: ((e.data.drop 12).take 10 ++
            (leBytes e.write_time 2 ++ leBytes e.write_date 2 ++
             leBytes e.cluster 2 ++ leBytes e.size 4))) := by
      rw [entryCompile]
      simp only [hdf, Bool.false_eq_true, if_false, if_pos hinc, hf8, he3]
      rw [entry_bytes_shape e.data _ _ e.attributes e.write_time e.write_date
        e.cluster e.size hd (by simp only [List.length_append, List.length_replicate, List.length_nil]; try omega)
        (by simp only [List.length_append, List.length_replicate, List.length_nil]; try omega)]
    obtain ⟨hL, hpath, hi0, hi229, hattr, hcl, hsz⟩ :=
      entry_parse_fields e.path [] ((e.data.drop 12).take 10) _
        e.attributes e.write_time e.write_date e.cluster e.size dc di rfl
        hmid hif (by simp) hall (fun c hc => absurd hc (List.not_mem_nil c))
    refine ⟨_, hcomp, hL, ?_, hi0, hi229, hattr, hcl, hsz⟩
    rw [hpath, if_neg (by simp)]

/-! ## Slice / splice interaction lemmas -/

theorem splice_length (d v : List Nat) (off : Nat) (h : off + v.length ≤ d.length) :
    (splice d off v).length = d.length := by
  simp only [splice, List.length_append, List.length_take, List.length_drop]
  omega

theorem splice_getElem? (d v : List Nat) (off : Nat) (hoff : off ≤ d.length) (i : Nat) :
    (splice d off v)[i]? =
      if i < off then d[i]? else if i < off + v.length then v[i - off]? else d[i]? := by
  have hlt : (d.take off).length = off := by
    rw [List.length_take]
    omega
  have hA : (d.take off ++ v).length = off + v.length := by
    rw [List.length_append, hlt]
  by_cases h1 : i < off
  · rw [if_pos h1, splice, List.getElem?_append_left (by omega),
      List.getElem?_append_left (by omega), List.getElem?_take, if_pos h1]
  · rw [if_neg h1, splice]
    by_cases h2 : i < off + v.length
    · rw [if_pos h2, List.getElem?_append_left (by omega),
        List.getElem?_append_right (by omega), hlt]
    · rw [if_neg h2, List.getElem?_append_right (by omega), List.getElem?_drop, hA]
      congr 1
      omega

theorem sliceN_length (d : List Nat) (off n : Nat) (h : off + n ≤ d.length) :
    (sliceN d off n).length = n := by
  simp only [sliceN, List.length_take, List.length_drop]
  omega

theorem sliceN_splice_left (d v : List Nat) (off a n : Nat) (hoff : off ≤ d.length)
    (h : a + n ≤ off) : sliceN (splice d off v) a n = sliceN d a n := by
  apply List.ext_getElem?
  intro i
  simp only [sliceN, List.getElem?_take, List.getElem?_drop]
  by_cases hi : i < n
  · rw [if_pos hi, if_pos hi, splice_getElem? d v off hoff (a + i), if_pos (by omega)]
  · rw [if_neg hi, if_neg hi]

theorem sliceN_splice_right (d v : List Nat) (off a n : Nat) (hoff : off ≤ d.length)
    (h : off + v.length ≤ a) : sliceN (splice d off v) a n = sliceN d a n := by
  apply List.ext_getElem?
  intro i
  simp only [sliceN, List.getElem?_take, List.getElem?_drop]
  by_cases hi : i < n
  · rw [if_pos hi, if_pos hi, splice_getElem? d v off hoff (a + i),
      if_neg (by omega), if_neg (by omega)]
  · rw [if_neg hi, if_neg hi]

theorem sliceN_splice_exact (d v : List Nat) (off : Nat)
    (hoff : off + v.length ≤ d.length) :
    sliceN (splice d off v) off v.length = v := by
  apply List.ext_getElem?
  intro i
  simp only [sliceN, List.getElem?_take, List.getElem?_drop]
  by_cases hi : i < v.length
  · rw [if_pos hi, splice_getElem? d v off (by omega) (off + i),
      if_neg (by omega), if_pos (by omega)]
    congr 1
    omega
  · rw [if_neg hi, Eq.comm, List.getElem?_eq_none (by omega)]

theorem getD_splice_left (d v : List Nat) (off a : Nat) (hoff : off ≤ d.length)
    (h : a < off) : (splice d off v).getD a 0 = d.getD a 0 := by
  rw [List.getD_eq_getElem?_getD, List.getD_eq_getElem?_getD,
    splice_getElem? d v off hoff a, if_pos h]

theorem getD_splice_right (d v : List Nat) (off a : Nat) (hoff : off ≤ d.length)
    (h : off + v.length ≤ a) : (splice d off v).getD a 0 = d.getD a 0 := by
  rw [List.getD_eq_getElem?_getD, List.getD_eq_getElem?_getD,
    splice_getElem? d v off hoff a, if_neg (by omega), if_neg (by omega)]

theorem clusterOffset_disjoint (g : Floppy) (c c' : Nat) (h2 : 2 ≤ c) (h2' : 2 ≤ c')
    (hne : c ≠ c') :
    clusterOffset g c + g.sector_size * g.cluster_sects ≤ clusterOffset g c' ∨
    clusterOffset g c' + g.sector_size * g.cluster_sects ≤ clusterOffset g c := by
  rcases Nat.lt_or_ge c c' with hlt | hge
  · left
    rw [clusterOffset, if_neg (by omega), clusterOffset, if_neg (by omega)]
    have : g.sector_size * g.cluster_sects * (c - 2) + g.sector_size * g.cluster_sects
        = g.sector_size * g.cluster_sects * (c - 2 + 1) := by ring
    have hle : g.sector_size * g.cluster_sects * (c - 2 + 1) ≤
        g.sector_size * g.cluster_sects * (c' - 2) :=
      Nat.mul_le_mul_left _ (by omega)
    omega
  · right
    have hlt : c' < c := by omega
    rw [clusterOffset, if_neg (by omega), clusterOffset, if_neg (by omega)]
    have : g.sector_size * g.cluster_sects * (c' - 2) + g.sector_size * g.cluster_sects
        = g.sector_size * g.cluster_sects * (c' - 2 + 1) := by ring
    have hle : g.sector_size * g.cluster_sects * (c' - 2 + 1) ≤
        g.sector_size * g.cluster_sects * (c - 2) :=
      Nat.mul_le_mul_left _ (by omega)
    omega

theorem sliceN_zero (d : List Nat) (a : Nat) : sliceN d a 0 = [] := rfl

theorem writeChainData_slices (csize : Nat) :
    ∀ (chain : List Nat) (g : Floppy) (data : List Nat),
      csize = g.sector_size * g.cluster_sects →
      chain.Nodup →
      (∀ c ∈ chain, 2 ≤ c ∧ clusterOffset g c + csize ≤ g.data.length) →
      (writeChainData g chain data).data.length = g.data.length ∧
      (∀ a n, (∀ c ∈ chain, a + n ≤ clusterOffset g c ∨ clusterOffset g c + csize ≤ a) →
        sliceN (writeChainData g chain data).data a n = sliceN g.data a n) ∧
      (∀ k, k < chain.length →
        sliceN (writeChainData g chain data).data (clusterOffset g (chain.getD k 0))
          (min csize (data.length - k * csize)) =
        sliceN data (k * csize) (min csize (data.length - k * csize))) := by
  intro chain
  induction chain with
  | nil =>
    intro g data hcs hnd hb
    refine ⟨?_, ?_, ?_⟩
    · cases data <;> rfl
    · intro a n _
      cases data <;> rfl
    · intro k hk
      exact absurd hk (by simp)
  | cons c rest ih =>
    intro g data hcs hnd hb
    obtain ⟨hc2, hcb⟩ := hb c (List.mem_cons_self ..)
    cases data with
    | nil =>
      refine ⟨rfl, fun a n _ => rfl, ?_⟩
      intro k hk
      simp only [List.length_nil, Nat.zero_sub, Nat.min_zero, sliceN_zero]
    | cons b bs =>
      have hw : min (b :: bs).length csize ≤ csize := Nat.min_le_right ..
      have hwd : (List.take (min (b :: bs).length csize) (b :: bs)).length
          = min (b :: bs).length csize := by
        rw [List.length_take]
        omega
      have hoff : clusterOffset g c ≤ g.data.length := by omega
      have hsplen : (splice g.data (clusterOffset g c)
          ((b :: bs).take (min (b :: bs).length csize))).length = g.data.length := by
        rw [splice_length]
        rw [hwd]
        omega
      have ihg := ih { g with data := (splice g.data (clusterOffset g c)
          ((b :: bs).take (min (b :: bs).length csize))) }
        ((b :: bs).drop (min (b :: bs).length csize)) hcs
        (List.nodup_cons.mp hnd).2
        (by
          intro c' hc'
          obtain ⟨h2', hb'⟩ := hb c' (List.mem_cons_of_mem _ hc')
          exact ⟨h2', by rw [show clusterOffset { g with data := (splice g.data
            (clusterOffset g c) ((b :: bs).take (min (b :: bs).length csize))) } c'
            = clusterOffset g c' from rfl, hsplen]; exact hb'⟩)
      obtain ⟨ihL, ihFrame, ihChunks⟩ := ihg
      have hres : writeChainData g (c :: rest) (b :: bs) =
          writeChainData { g with data := (splice g.data (clusterOffset g c)
            ((b :: bs).take (min (b :: bs).length csize))) } rest
            ((b :: bs).drop (min (b :: bs).length csize)) := by
        rw [writeChainData, ← hcs]
        simp
      have hcnotin : c ∉ rest := (List.nodup_cons.mp hnd).1
      refine ⟨?_, ?_, ?_⟩
      · rw [hres, ihL, hsplen]
      · intro a n hdisj
        rw [hres, ihFrame a n (fun c' hc' => hdisj c' (List.mem_cons_of_mem _ hc'))]
        rcases hdisj c (List.mem_cons_self ..) with hL | hR
        · exact sliceN_splice_left _ _ _ _ _ hoff (by omega)
        · exact sliceN_splice_right _ _ _ _ _ hoff (by rw [hwd]; omega)
      · intro k hk
        cases k with
        | zero =>
          rw [hres]
          have hmin : min csize ((b :: bs).length - 0 * csize) = min (b :: bs).length csize := by
            rw [Nat.min_comm]
            congr 1
            omega
          rw [hmin]
          have hframe := ihFrame (clusterOffset g c) (min (b :: bs).length csize)
            (fun c' hc' => by
              have h2' := (hb c' (List.mem_cons_of_mem _ hc')).1
              have hco : clusterOffset { g with data := (splice g.data (clusterOffset g c)
                  ((b :: bs).take (min (b :: bs).length csize))) } c'
                  = clusterOffset g c' := rfl
              rw [hco]
              rcases clusterOffset_disjoint g c c' hc2 h2'
                (fun he => hcnotin (he ▸ hc')) with hx | hx
              · left; omega
              · right; omega)
          have hfr2 : sliceN (writeChainData { g with data := (splice g.data
              (clusterOffset g c) ((b :: bs).take (min (b :: bs).length csize))) } rest
              ((b :: bs).drop (min (b :: bs).length csize))).data
              (clusterOffset g c) (min (b :: bs).length csize) =
              sliceN (splice g.data (clusterOffset g c)
                ((b :: bs).take (min (b :: bs).length csize)))
                (clusterOffset g c) (min (b :: bs).length csize) := hframe
          rw [show (List.getD (c :: rest) 0 0) = c from rfl, hfr2]
          have hexact := sliceN_splice_exact g.data
            ((b :: bs).take (min (b :: bs).length csize)) (clusterOffset g c)
            (by rw [hwd]; omega)
          rw [hwd] at hexact
          rw [hexact]
          show List.take (min (b :: bs).length csize) (b :: bs)
            = sliceN (b :: bs) (0 * csize) (min (b :: bs).length csize)
          rw [Nat.zero_mul, sliceN, List.drop_zero]
        | succ k =>
          rw [hres]
          have hih := ihChunks k (by simpa using hk)
          have hgetD : List.getD (c :: rest) (k + 1) 0 = List.getD rest k 0 := rfl
          rw [hgetD]
          have hoffeq : clusterOffset { g with data := (splice g.data (clusterOffset g c)
              ((b :: bs).take (min (b :: bs).length csize))) } (List.getD rest k 0)
              = clusterOffset g (List.getD rest k 0) := rfl
          rw [hoffeq] at hih
          by_cases hshort : (b :: bs).length ≤ csize
          · have hmin0 : min csize ((b :: bs).length - (k + 1) * csize) = 0 := by
              have : (b :: bs).length - (k + 1) * csize = 0 := by
                have : csize ≤ (k + 1) * csize := by
                  calc csize = 1 * csize := by omega
                  _ ≤ (k + 1) * csize := Nat.mul_le_mul_right _ (by omega)
                omega
              rw [this, Nat.min_zero]
            rw [hmin0, sliceN_zero, sliceN_zero]
          · have hdrop : ((b :: bs).drop (min (b :: bs).length csize)).length
                = (b :: bs).length - csize := by
              rw [List.length_drop]
              omega
            have hmineq : min csize (((b :: bs).drop (min (b :: bs).length csize)).length
                - k * csize) = min csize ((b :: bs).length - (k + 1) * csize) := by
              rw [hdrop]
              congr 1
              have : (k + 1) * csize = k * csize + csize := by ring
              omega
            rw [hmineq] at hih
            rw [hih]
            have hslice : sliceN ((b :: bs).drop (min (b :: bs).length csize)) (k * csize)
                (min csize ((b :: bs).length - (k + 1) * csize)) =
                sliceN (b :: bs) ((k + 1) * csize)
                  (min csize ((b :: bs).length - (k + 1) * csize)) := by
              rw [sliceN, sliceN, List.drop_drop]
              congr 2
              have : min (b :: bs).length csize = csize := by omega
              rw [this]
              ring
            rw [hslice]

theorem fatLink_links :
    ∀ (chain fat : List Nat), chain.Nodup → (∀ c ∈ chain, c < fat.length) →
      (∀ k, k + 1 < chain.length →
        (fatLink fat chain).getD (chain.getD k 0) 0 = chain.getD (k + 1) 0) ∧
      (chain ≠ [] →
        (fatLink fat chain).getD (chain.getD (chain.length - 1) 0) 0 = 4095) := by
  intro chain
  induction chain with
  | nil =>
    intro fat _ _
    exact ⟨fun k hk => absurd hk (by simp), fun h => absurd rfl h⟩
  | cons c rest ih =>
    intro fat hnd hb
    cases rest with
    | nil =>
      refine ⟨fun k hk => absurd hk (by simp), fun _ => ?_⟩
      show (fat.set c 4095).getD (List.getD [c] 0 0) 0 = 4095
      exact getD_set_self fat c 4095 (hb c (List.mem_cons_self ..))
    | cons c2 r2 =>
      have hcn : c ∉ c2 :: r2 := (List.nodup_cons.mp hnd).1
      have ihr := ih (fat.set c c2) (List.nodup_cons.mp hnd).2
        (fun x hx => by rw [List.length_set]; exact hb x (List.mem_cons_of_mem _ hx))
      refine ⟨?_, ?_⟩
      · intro k hk
        cases k with
        | zero =>
          show (fatLink (fat.set c c2) (c2 :: r2)).getD c 0 = c2
          rw [fatLink_getD_notmem _ _ _ hcn]
          exact getD_set_self fat c c2 (hb c (List.mem_cons_self ..))
        | succ k =>
          show (fatLink (fat.set c c2) (c2 :: r2)).getD ((c2 :: r2).getD k 0) 0
            = (c2 :: r2).getD (k + 1) 0
          exact ihr.1 k (by simpa using hk)
      · intro _
        have hlen : (c :: c2 :: r2).length - 1 = ((c2 :: r2).length - 1) + 1 := by simp
        show (fatLink (fat.set c c2) (c2 :: r2)).getD
          ((c :: c2 :: r2).getD ((c :: c2 :: r2).length - 1) 0) 0 = 4095
        rw [hlen, List.getD_cons_succ]
        exact ihr.2 (by simp)

theorem readChain_chunks (h : Floppy) :
    ∀ (chain : List Nat) (data : List Nat) (fuel : Nat),
      chain ≠ [] →
      0 < h.sector_size * h.cluster_sects →
      data.length ≤ chain.length * (h.sector_size * h.cluster_sects) →
      (∀ c ∈ chain, 2 ≤ c ∧ c < 4080) →
      (∀ k, k < chain.length →
        sliceN h.data (clusterOffset h (chain.getD k 0))
          (min (h.sector_size * h.cluster_sects)
            (data.length - k * (h.sector_size * h.cluster_sects))) =
        sliceN data (k * (h.sector_size * h.cluster_sects))
          (min (h.sector_size * h.cluster_sects)
            (data.length - k * (h.sector_size * h.cluster_sects)))) →
      (∀ k, k + 1 < chain.length →
        h.fat.getD (chain.getD k 0) 0 = chain.getD (k + 1) 0) →
      chain.length < fuel →
      readChain h fuel (chain.getD 0 0) data.length = data := by
  intro chain
  induction chain with
  | nil => intro data fuel hne; exact absurd rfl hne
  | cons c rest ih =>
    intro data fuel _ hcs hsize hb hchunks hlink hfuel
    obtain ⟨hc2, hc4080⟩ := hb c (List.mem_cons_self ..)
    obtain ⟨fuel, rfl⟩ : ∃ k, fuel = k + 1 := ⟨fuel - 1, by omega⟩
    show readChain h (fuel + 1) c data.length = data
    rw [readChain]
    rw [if_pos (by omega), if_neg (by omega)]
    have hchunk0 := hchunks 0 (by simp)
    simp only [List.getD_cons_zero, Nat.zero_mul, Nat.sub_zero] at hchunk0
    by_cases hstop : data.length ≤ h.sector_size * h.cluster_sects
    · have hread : min data.length (h.sector_size * h.cluster_sects) = data.length :=
        Nat.min_eq_left hstop
      rw [if_pos]
      · rw [hread]
        have hmin : min (h.sector_size * h.cluster_sects) data.length = data.length :=
          Nat.min_eq_right hstop
        rw [hmin] at hchunk0
        rw [hchunk0, sliceN, List.drop_zero, List.take_of_length_le (by omega)]
      · rw [hread]
        omega
    · have hread : min data.length (h.sector_size * h.cluster_sects)
          = h.sector_size * h.cluster_sects := Nat.min_eq_right (by omega)
      rw [if_neg (by rw [hread]; omega), hread]
      have hmin : min (h.sector_size * h.cluster_sects) data.length
          = h.sector_size * h.cluster_sects := Nat.min_eq_left (by omega)
      rw [hmin] at hchunk0
      cases rest with
      | nil =>
        exfalso
        simp only [List.length_cons, List.length_nil] at hsize
        omega
      | cons c2 r2 =>
        have hlink0 := hlink 0 (by simp)
        simp only [List.getD_cons_zero, List.getD_cons_succ] at hlink0
        rw [hlink0]
        have hih := ih (data.drop (h.sector_size * h.cluster_sects)) fuel
          (by simp)
          hcs
          (by
            rw [List.length_drop]
            simp only [List.length_cons] at hsize ⊢
            have h1 : (r2.length + 1 + 1) * (h.sector_size * h.cluster_sects) =
                (r2.length + 1) * (h.sector_size * h.cluster_sects) +
                (h.sector_size * h.cluster_sects) := by ring
            omega)
          (fun x hx => hb x (List.mem_cons_of_mem _ hx))
          (by
            intro k hk
            have hk1 := hchunks (k + 1) (by simpa using hk)
            simp only [List.getD_cons_succ] at hk1
            have harith : data.length - (k + 1) * (h.sector_size * h.cluster_sects) =
                (data.drop (h.sector_size * h.cluster_sects)).length -
                  k * (h.sector_size * h.cluster_sects) := by
              rw [List.length_drop]
              have : (k + 1) * (h.sector_size * h.cluster_sects) =
                  k * (h.sector_size * h.cluster_sects) +
                  (h.sector_size * h.cluster_sects) := by ring
              omega
            rw [harith] at hk1
            rw [hk1, sliceN, sliceN, List.drop_drop]
            congr 2
            ring)
          (by
            intro k hk
            have := hlink (k + 1) (by simpa using hk)
            simpa using this)
          (by simp only [List.length_cons] at hfuel ⊢; omega)
        show sliceN h.data (clusterOffset h c) (h.sector_size * h.cluster_sects) ++
          readChain h fuel ((c2 :: r2).getD 0 0)
            (data.length - h.sector_size * h.cluster_sects) = data
        have hdroplen : (data.drop (h.sector_size * h.cluster_sects)).length =
            data.length - h.sector_size * h.cluster_sects := List.length_drop ..
        rw [← hdroplen, hih, hchunk0, sliceN, List.drop_zero, List.take_append_drop]

/-! ## Directory-scan lemmas -/

/-- An entry the `_find_path_dir` scan passes over without effect when
seeking `seek` with no remaining path. -/
def scanSkips (seek : List Nat) (e : FileEntry) : Prop :=
  e.incipit ≠ 0 ∧
  (e.incipit = 229 ∨ e.attributes / 8 % 2 = 1 ∨
    (e.attributes / 16 % 2 = 1 ∧ (e.path = [46] ∨ e.path = [46, 46] ∨ e.path ≠ seek)) ∨
    (e.attributes / 16 % 2 ≠ 1 ∧ e.path ≠ seek))

theorem findScanHit_append_skips (seek next : List Nat) :
    ∀ xs ys, (∀ e ∈ xs, scanSkips seek e) →
      findScanHit seek next (xs ++ ys) = findScanHit seek next ys := by
  intro xs
  induction xs with
  | nil => intro ys _; rfl
  | cons e rest ih =>
    intro ys hsk
    obtain ⟨h0, hcases⟩ := hsk e (List.mem_cons_self ..)
    have hrest := fun x hx => hsk x (List.mem_cons_of_mem _ hx)
    show findScanHit seek next (e :: (rest ++ ys)) = _
    rw [findScanHit]
    rw [if_neg h0]
    rcases hcases with h229 | hlabel | ⟨hdir, hsub⟩ | ⟨hfile, hne⟩
    · rw [if_pos h229]
      exact ih ys hrest
    · by_cases h229 : e.incipit = 229
      · rw [if_pos h229]
        exact ih ys hrest
      · rw [if_neg h229, if_pos hlabel]
        exact ih ys hrest
    · by_cases h229 : e.incipit = 229
      · rw [if_pos h229]
        exact ih ys hrest
      · rw [if_neg h229]
        by_cases hlabel : e.attributes / 8 % 2 = 1
        · rw [if_pos hlabel]
          exact ih ys hrest
        · rw [if_neg hlabel, if_pos hdir]
          rcases hsub with hdot | hdot | hne
          · rw [if_pos (Or.inl hdot)]
            exact ih ys hrest
          · rw [if_pos (Or.inr hdot)]
            exact ih ys hrest
          · by_cases hdot : e.path = [46] ∨ e.path = [46, 46]
            · rw [if_pos hdot]
              exact ih ys hrest
            · rw [if_neg hdot, if_neg hne]
              exact ih ys hrest
    · by_cases h229 : e.incipit = 229
      · rw [if_pos h229]
        exact ih ys hrest
      · rw [if_neg h229]
        by_cases hlabel : e.attributes / 8 % 2 = 1
        · rw [if_pos hlabel]
          exact ih ys hrest
        · rw [if_neg hlabel, if_neg hfile,
            if_neg (fun hc => hne hc.1)]
          exact ih ys hrest

theorem freeSlotScan_bounds :
    ∀ (es : List FileEntry) (n i : Nat) (t : Bool),
      freeSlotScan es n = some (i, t) → n ≤ i ∧ i - n < es.length := by
  intro es
  induction es with
  | nil => intro n i t h; exact absurd h (by rw [freeSlotScan]; simp)
  | cons e rest ih =>
    intro n i t h
    rw [freeSlotScan] at h
    split at h
    · injection h with h
      obtain ⟨h1, _⟩ := (Prod.mk.injEq ..).mp h
      subst h1
      simp
    · split at h
      · injection h with h
        obtain ⟨h1, _⟩ := (Prod.mk.injEq ..).mp h
        subst h1
        simp
      · obtain ⟨ha, hb⟩ := ih (n + 1) i t h
        constructor
        · omega
        · simp only [List.length_cons]
          omega

theorem freeSlot_prefix_skips (seek : List Nat) :
    ∀ (es : List FileEntry) (n i : Nat) (t : Bool),
      freeSlotScan es n = some (i, t) →
      (findScanHit seek [] es = none ∨ findScanHit seek [] es = some .terminal) →
      ∀ e ∈ es.take (i - n), scanSkips seek e := by
  intro es
  induction es with
  | nil => intro n i t h; exact absurd h (by rw [freeSlotScan]; simp)
  | cons e rest ih =>
    intro n i t hfs hscan x hx
    rw [freeSlotScan] at hfs
    by_cases h0 : e.incipit = 0
    · rw [if_pos h0] at hfs
      injection hfs with hfs
      obtain ⟨h1, _⟩ := (Prod.mk.injEq ..).mp hfs
      subst h1
      rw [Nat.sub_self] at hx
      exact absurd hx (by simp)
    · rw [if_neg h0] at hfs
      by_cases h229 : e.incipit = 229
      · rw [if_pos h229] at hfs
        injection hfs with hfs
        obtain ⟨h1, _⟩ := (Prod.mk.injEq ..).mp hfs
        subst h1
        rw [Nat.sub_self] at hx
        exact absurd hx (by simp)
      · rw [if_neg h229] at hfs
        have hbound := (freeSlotScan_bounds rest (n + 1) i t hfs).1
        have htake : (e :: rest).take (i - n) = e :: rest.take (i - (n + 1)) := by
          have : i - n = (i - (n + 1)) + 1 := by omega
          rw [this, List.take_succ_cons]
        rw [htake] at hx
        rw [findScanHit, if_neg h0, if_neg h229] at hscan
        rcases List.mem_cons.mp hx with hxe | hxr
        · subst hxe
          refine ⟨h0, ?_⟩
          by_cases hlabel : x.attributes / 8 % 2 = 1
          · exact Or.inr (Or.inl hlabel)
          · rw [if_neg hlabel] at hscan
            by_cases hdir : x.attributes / 16 % 2 = 1
            · rw [if_pos hdir] at hscan
              by_cases hdot : x.path = [46] ∨ x.path = [46, 46]
              · refine Or.inr (Or.inr (Or.inl ⟨hdir, ?_⟩))
                rcases hdot with h | h
                · exact Or.inl h
                · exact Or.inr (Or.inl h)
              · rw [if_neg hdot] at hscan
                by_cases hmatch : x.path = seek
                · rw [if_pos hmatch] at hscan
                  simp only [List.length_nil] at hscan
                  rcases hscan with h | h
                  · rw [if_neg (by omega)] at h
                    exact absurd h (by simp)
                  · rw [if_neg (by omega)] at h
                    injection h with h
                    exact absurd h (by intro hh; cases hh)
                · exact Or.inr (Or.inr (Or.inl ⟨hdir,
                    Or.inr (Or.inr hmatch)⟩))
            · rw [if_neg hdir] at hscan
              by_cases hmatch : x.path = seek
              · rw [if_pos ⟨hmatch, rfl⟩] at hscan
                rcases hscan with h | h
                · exact absurd h (by simp)
                · injection h with h
                  exact absurd h (by intro hh; cases hh)
              · exact Or.inr (Or.inr (Or.inr ⟨hdir, hmatch⟩))
        · refine ih (n + 1) i t hfs ?_ x hxr
          by_cases hlabel : e.attributes / 8 % 2 = 1
          · rw [if_pos hlabel] at hscan
            exact hscan
          · rw [if_neg hlabel] at hscan
            by_cases hdir : e.attributes / 16 % 2 = 1
            · rw [if_pos hdir] at hscan
              by_cases hdot : e.path = [46] ∨ e.path = [46, 46]
              · rw [if_pos hdot] at hscan
                exact hscan
              · rw [if_neg hdot] at hscan
                by_cases hmatch : e.path = seek
                · rw [if_pos hmatch] at hscan
                  simp only [List.length_nil] at hscan
                  rcases hscan with h | h
                  · rw [if_neg (by omega)] at h
                    exact absurd h (by simp)
                  · rw [if_neg (by omega)] at h
                    injection h with h
                    exact absurd h (by intro hh; cases hh)
                · rw [if_neg hmatch] at hscan
                  exact hscan
            · rw [if_neg hdir] at hscan
              by_cases hmatch : e.path = seek
              · rw [if_pos ⟨hmatch, rfl⟩] at hscan
                rcases hscan with h | h
                · exact absurd h (by simp)
                · injection h with h
                  exact absurd h (by intro hh; cases hh)
              · rw [if_neg (fun hc => hmatch hc.1)] at hscan
                exact hscan

theorem sliceN_sliceN (d : List Nat) (a m b n : Nat) (h : b + n ≤ m) :
    sliceN (sliceN d a m) b n = sliceN d (a + b) n := by
  apply List.ext_getElem?
  intro i
  simp only [sliceN, List.getElem?_take, List.getElem?_drop]
  by_cases hi : i < n
  · rw [if_pos hi, if_pos hi, if_pos (show b + i < m by omega)]
    congr 1
    omega
  · rw [if_neg hi, if_neg hi]

theorem dirEntries_eq (dir : List Nat) (cl m : Nat) (h : dir.length = 32 * m) :
    dirEntries dir cl =
      (List.range m).map (fun i => entryOfBytes (sliceN dir (i * 32) 32) cl i) := by
  rw [dirEntries, h, Nat.mul_div_cancel_left m (by omega)]

theorem chainSelect_length_le (f : Floppy) :
    ∀ n clusters i chain, chain.length < clusters →
      (chainSelect f n clusters i chain).length ≤ clusters := by
  intro n
  induction n with
  | zero => intro clusters i chain h; exact Nat.le_of_lt h
  | succ n ih =>
    intro clusters i chain h
    simp only [chainSelect]
    by_cases hskip : (f.cluster_limit : Int) ≤ ((sideJ f i : Nat) : Int)
    · rw [if_pos hskip]
      exact ih clusters (i + 1) chain h
    · rw [if_neg hskip]
      by_cases hz : f.fat.getD (sideJ f i) 0 = 0
      · simp only [if_pos hz]
        by_cases hstop : clusters ≤ (chain ++ [sideJ f i]).length
        · rw [if_pos hstop]
          simp only [List.length_append, List.length_cons, List.length_nil]
          omega
        · rw [if_neg hstop]
          exact ih clusters (i + 1) _ (by omega)
      · simp only [if_neg hz]
        by_cases hstop : clusters ≤ chain.length
        · rw [if_pos hstop]
          omega
        · rw [if_neg hstop]
          exact ih clusters (i + 1) chain h

theorem clustersNeeded_mul_ge (f : Floppy) (n : Nat)
    (hcs : 0 < f.sector_size * f.cluster_sects) :
    n ≤ clustersNeeded f n * (f.sector_size * f.cluster_sects) := by
  simp only [clustersNeeded]
  have hdm := Nat.div_add_mod (n + f.sector_size * f.cluster_sects - 1)
    (f.sector_size * f.cluster_sects)
  have hmlt := Nat.mod_lt (n + f.sector_size * f.cluster_sects - 1) hcs
  split
  next hlt =>
    have hc0 : (n + f.sector_size * f.cluster_sects - 1) /
        (f.sector_size * f.cluster_sects) = 0 := Nat.lt_one_iff.mp hlt
    have h0 : n + f.sector_size * f.cluster_sects - 1 <
        f.sector_size * f.cluster_sects := (Nat.div_eq_zero_iff hcs).mp hc0
    have hn0 : n = 0 := by omega
    rw [hn0]
    exact Nat.zero_le _
  next hge =>
    rw [Nat.mul_comm]
    omega

theorem clustersNeeded_le (f : Floppy) (n : Nat)
    (hcs : 0 < f.sector_size * f.cluster_sects) :
    clustersNeeded f n ≤ n + 1 := by
  simp only [clustersNeeded]
  have hdm := Nat.div_add_mod (n + f.sector_size * f.cluster_sects - 1)
    (f.sector_size * f.cluster_sects)
  have hmlt := Nat.mod_lt (n + f.sector_size * f.cluster_sects - 1) hcs
  have hle : (n + f.sector_size * f.cluster_sects - 1) /
      (f.sector_size * f.cluster_sects) ≤ n + 1 := by
    by_contra hc
    push_neg at hc
    have : (n + 2) * (f.sector_size * f.cluster_sects) ≤
        ((n + f.sector_size * f.cluster_sects - 1) /
          (f.sector_size * f.cluster_sects)) * (f.sector_size * f.cluster_sects) :=
      Nat.mul_le_mul_right _ (by omega)
    have hn2 : n + 2 ≤ (n + 2) * (f.sector_size * f.cluster_sects) :=
      Nat.le_mul_of_pos_right _ hcs
    have hexp : (n + 2) * (f.sector_size * f.cluster_sects)
        = n * (f.sector_size * f.cluster_sects) + 2 * (f.sector_size * f.cluster_sects) := by
      ring
    have hnn : n ≤ n * (f.sector_size * f.cluster_sects) + 1 := by
      rcases Nat.eq_zero_or_pos n with h0 | hpos
      · omega
      · have := Nat.le_mul_of_pos_right n hcs
        omega
    rw [Nat.mul_comm] at hdm
    omega
  split <;> omega

theorem findScanHit_no_descend (seek : List Nat) :
    ∀ es e, findScanHit seek [] es ≠ some (.descend e) := by
  intro es
  induction es with
  | nil => intro e h; exact absurd h (by rw [findScanHit]; simp)
  | cons x rest ih =>
    intro e h
    rw [findScanHit] at h
    split at h
    · injection h with h; cases h
    split at h
    · exact ih e h
    split at h
    · exact ih e h
    split at h
    · split at h
      · exact ih e h
      · split at h
        · rw [if_neg (by simp)] at h
          injection h with h
          cases h
        · exact ih e h
    · split at h
      · injection h with h; cases h
      · exact ih e h

theorem strFind_none (l : List Nat) (c : Nat) (h : l.contains c = false) :
    strFind l c = none := by
  rw [strFind, List.findIdx?_eq_none_iff]
  intro x hx
  rw [List.contains_eq_any_beq] at h
  simp only [List.any_eq_false, beq_iff_eq] at h
  simp only [beq_eq_false_iff_ne]
  exact fun hxc => h x hx hxc.symm

theorem strRFind_none (l : List Nat) (c : Nat) (h : l.contains c = false) :
    strRFind l c = none := by
  rw [strRFind, strFind_none]
  rw [show l.reverse.contains c = l.contains c by simp [List.contains_eq_any_beq]]
  exact h

theorem headD_eq_getD (l : List Nat) : l.headD 0 = l.getD 0 0 := by
  cases l <;> rfl

theorem getD_mem (l : List Nat) (i : Nat) (h : i < l.length) : l.getD i 0 ∈ l := by
  rw [List.getD_eq_getElem?_getD, List.getElem?_eq_getElem h]
  exact List.getElem_mem h

theorem dirEntries_length (dir : List Nat) (cl : Nat) :
    (dirEntries dir cl).length = dir.length / 32 := by
  rw [dirEntries, List.length_map, List.length_range]

theorem clusterOffset_ge (f : Floppy) (c : Nat) (h : 2 ≤ c) :
    f.cluster2 ≤ clusterOffset f c := by
  rw [clusterOffset, if_neg (by omega)]
  omega

theorem entryCompile_newTerminal : entryCompile newTerminal = .ok (List.replicate 32 0) := by
  rfl

theorem writeChainData_frame2 (f : Floppy) :
    ∀ chain data, (writeChainData f chain data).root = f.root ∧
      (writeChainData f chain data).root_max = f.root_max ∧
      (writeChainData f chain data).cluster2 = f.cluster2 ∧
      (writeChainData f chain data).sector_size = f.sector_size ∧
      (writeChainData f chain data).cluster_sects = f.cluster_sects ∧
      (writeChainData f chain data).fat = f.fat := by
  intro chain
  induction chain generalizing f with
  | nil =>
    intro data
    cases data <;> exact ⟨rfl, rfl, rfl, rfl, rfl, rfl⟩
  | cons c rest ih =>
    intro data
    cases data with
    | nil => exact ⟨rfl, rfl, rfl, rfl, rfl, rfl⟩
    | cons b bs =>
      exact ih _ _

theorem addChain_ok_eq (f : Floppy) (data : List Nat)
    (h : 0 ≤ (addChain f data).2) :
    (addChain f data).1 = writeChainData
      { f with fat := (fatLink f.fat (chainSelect f (f.fat.length - 2)
          (clustersNeeded f data.length) 2 [])) }
      (chainSelect f (f.fat.length - 2) (clustersNeeded f data.length) 2 []) data := by
  by_cases hc : (chainSelect f (f.fat.length - 2) (clustersNeeded f data.length) 2 []).length
      < clustersNeeded f data.length
  · exfalso
    simp only [addChain, if_pos hc] at h
    omega
  · simp only [addChain, if_neg hc]

/-- Positive complement to the C2 round-trip failures: a successful
`add_file_path(P, D)` followed by `extract_file_path(P)` does return
exactly the bytes `D` for a single-component path in canonical 8.3 form
(printable non-space ASCII, name of at most 8 characters, any dot
followed by a nonempty extension of at most 3 characters) that names no
existing entry, on an image with consistent geometry (positive cluster
size, FAT covering the cluster range, root directory below the cluster
area, clusters inside the image, an injective TwoSide scan map) and a
payload shorter than 2^32.  This localizes the round-trip failures of
C2 to the three slips exhibited there: name normalization on store but
not on lookup, the pseudo-entry skip on lookup only, and the directory
listing size cap. -/
theorem addFilePath_roundtrip
    (wd wt fuel : Nat) (f : Floppy) (path data : List Nat) (f' : Floppy)
    (hsep : path.contains 92 = false)
    (hcanon : canonical83 path = true)
    (hplen : path.length ≤ 12)
    (hfind : findPath f path = none)
    (hcs : 0 < f.sector_size * f.cluster_sects)
    (hlen2 : 2 ≤ f.fat.length)
    (hlim4080 : f.cluster_limit ≤ 4080)
    (hlimlen : f.cluster_limit ≤ (f.fat.length : Int))
    (hrootlen : f.root + 32 * f.root_max ≤ f.cluster2)
    (hrootdata : f.root + 32 * f.root_max ≤ f.data.length)
    (hclbound : ∀ c : Nat, c < f.cluster_limit.toNat → 2 ≤ c →
        clusterOffset f c + f.sector_size * f.cluster_sects ≤ f.data.length)
    (hinj : ∀ k1, k1 < f.fat.length → ∀ k2, k2 < f.fat.length →
      ¬(2 ≤ k1 ∧ 2 ≤ k2 ∧ k1 ≠ k2 ∧ sideJ f k1 = sideJ f k2))
    (hdsz : data.length < 4294967296)
    (h : addFilePath wd wt fuel f path data = .ok (f', true)) :
    extractFilePath f' path = some data := by
  -- ascii facts from canonicality
  have hall : ∀ c ∈ path, 33 ≤ c ∧ c < 128 := by
    have h1 := ((Bool.and_eq_true ..).mp hcanon).1
    intro c hc
    have h2 := List.all_eq_true.mp h1 c hc
    simp only [Bool.and_eq_true, decide_eq_true_eq] at h2
    exact h2
  -- stage 1: the deletion and directory stages are identities
  have hdel : deletePath fuel f path = .ok (f, false) := by
    rw [deletePath, hfind]
  have hsrf : strRFind path 92 = none := strRFind_none path 92 hsep
  have hsf : strFind path 92 = none := strFind_none path 92 hsep
  have hdir : addDirPath wd wt fuel f [] = .ok (f, (0 : Int)) := rfl
  rw [addFilePath] at h
  simp only [hdel, hsrf, hdir] at h
  rw [if_neg (by omega : ¬ (0 : Int) < 0)] at h
  by_cases hr : (addChain f data).2 < 0
  · rw [if_pos hr] at h
    injection h with h
    exact absurd ((Prod.mk.injEq ..).mp h).2 (by simp)
  rw [if_neg hr] at h
  have h0r : (0 : Int) ≤ (addChain f data).2 := by omega
  split at h
  · exact (Except.noConfusion h)
  next e0 he0 =>
    rw [show ((0 : Int)).toNat = 0 from rfl] at h
    split at h
    · exact (Except.noConfusion h)
    next f4 e2 ok hadd =>
      -- chain facts
      obtain ⟨hclen, hfat, hhead⟩ := addChain_ok_fat f data h0r
      have hr1 := addChain_ok_eq f data h0r
      have hKpos := clustersNeeded_pos f data.length
      have hlenK : (chainSelect f (f.fat.length - 2)
          (clustersNeeded f data.length) 2 []).length = clustersNeeded f data.length :=
        Nat.le_antisymm
          (chainSelect_length_le f (f.fat.length - 2) _ 2 [] (by
            simp only [List.length_nil]
            omega))
          hclen
      have hCHne : chainSelect f (f.fat.length - 2)
          (clustersNeeded f data.length) 2 [] ≠ [] := by
        intro hempty
        rw [hempty] at hlenK
        simp only [List.length_nil] at hlenK
        omega
      have hnodup : (chainSelect f (f.fat.length - 2)
          (clustersNeeded f data.length) 2 []).Nodup :=
        (chainSelect_nodup_aux f (clustersNeeded f data.length) (f.fat.length - 2) 2 []
          (by omega)
          (by intro q hq; exact absurd hq (List.not_mem_nil q))
          List.nodup_nil
          (fun k1 k2 a1 hb1 a2 hb2 hne => by
            have hk1 : k1 < f.fat.length := by omega
            have hk2 : k2 < f.fat.length := by omega
            intro hEq
            exact hinj k1 hk1 k2 hk2 ⟨a1, a2, hne, hEq⟩)).1
      have hbounds := chainSelect_bounds_aux f (clustersNeeded f data.length)
        (f.fat.length - 2) 2 [] (by intro q hq; exact absurd hq (List.not_mem_nil q))
      have hbounds' : ∀ c ∈ chainSelect f (f.fat.length - 2)
          (clustersNeeded f data.length) 2 [],
          2 ≤ c ∧ c < 4080 ∧ c < f.fat.length ∧
          clusterOffset f c + f.sector_size * f.cluster_sects ≤ f.data.length ∧
          f.cluster2 ≤ clusterOffset f c := by
        intro c hc
        obtain ⟨h2c, hLc⟩ := hbounds c hc
        refine ⟨h2c, by omega, by omega, ?_, clusterOffset_ge f c h2c⟩
        exact hclbound c (by omega) h2c
      -- write-stage facts
      obtain ⟨hWlen, hWframe, hWchunks⟩ := writeChainData_slices
        (f.sector_size * f.cluster_sects)
        (chainSelect f (f.fat.length - 2) (clustersNeeded f data.length) 2 [])
        { f with fat := (fatLink f.fat (chainSelect f (f.fat.length - 2)
          (clustersNeeded f data.length) 2 [])) } data rfl hnodup
        (fun c hc => ⟨(hbounds' c hc).1, (hbounds' c hc).2.2.2.1⟩)
      obtain ⟨hWroot, hWrm, hWc2, hWss, hWcs, hWfat⟩ := writeChainData_frame2
        { f with fat := (fatLink f.fat (chainSelect f (f.fat.length - 2)
          (clustersNeeded f data.length) 2 [])) }
        (chainSelect f (f.fat.length - 2) (clustersNeeded f data.length) 2 []) data
      -- the new-file entry
      have hf12 := filestring_ascii_ok path 12 (fun c hc => (hall c hc).2) hplen
      simp only [newFile, setName, hf12] at he0
      injection he0 with he0
      subst he0
      -- the root directory of the written state
      have hrsl : (sliceN f.data f.root (f.root_max * 32)).length = f.root_max * 32 :=
        sliceN_length _ _ _ (by omega)
      have hrdc : readDirChain (writeChainData
          { f with fat := (fatLink f.fat (chainSelect f (f.fat.length - 2)
            (clustersNeeded f data.length) 2 [])) }
          (chainSelect f (f.fat.length - 2) (clustersNeeded f data.length) 2 []) data) 0
          = sliceN f.data f.root (f.root_max * 32) := by
        rw [readDirChain, if_pos (by omega),
          show (writeChainData
            { f with fat := (fatLink f.fat (chainSelect f (f.fat.length - 2)
              (clustersNeeded f data.length) 2 [])) }
            (chainSelect f (f.fat.length - 2) (clustersNeeded f data.length) 2 []) data).root
            = f.root from hWroot,
          show (writeChainData
            { f with fat := (fatLink f.fat (chainSelect f (f.fat.length - 2)
              (clustersNeeded f data.length) 2 [])) }
            (chainSelect f (f.fat.length - 2) (clustersNeeded f data.length) 2 []) data).root_max
            = f.root_max from hWrm]
        exact hWframe f.root (f.root_max * 32) (fun c hc => Or.inl (by
          have := (hbounds' c hc).2.2.2.2
          show f.root + f.root_max * 32 ≤ clusterOffset f c
          omega))
      rw [hr1, addEntry] at hadd
      simp only [hrdc, hrsl, Nat.mul_div_cancel f.root_max (show 0 < 32 by omega)] at hadd
      by_cases hok : ok = true
      case neg =>
        rw [if_neg hok] at h
        injection h with h
        exact absurd ((Prod.mk.injEq ..).mp h).2 (by simp)
      case pos =>
        subst hok
        rw [if_pos rfl] at h
        split at hadd
        case h_2 hscan =>
          rw [if_pos (by omega)] at hadd
          injection hadd with hadd
          exact absurd (((Prod.mk.injEq ..).mp ((Prod.mk.injEq ..).mp hadd).2).2)
            (by simp)
        case h_1 i t hscan =>
          have hibound : i < f.root_max := by
            have hb := (freeSlotScan_bounds _ 0 i t hscan).2
            rw [dirEntries_length, hrsl, Nat.mul_div_cancel f.root_max
              (show 0 < 32 by omega)] at hb
            omega
          have hWroot2 : (writeChainData
            { f with fat := (fatLink f.fat (chainSelect f (f.fat.length - 2)
              (clustersNeeded f data.length) 2 [])) }
            (chainSelect f (f.fat.length - 2) (clustersNeeded f data.length) 2 []) data).root = f.root := hWroot
          have hWrm2 : (writeChainData
            { f with fat := (fatLink f.fat (chainSelect f (f.fat.length - 2)
              (clustersNeeded f data.length) 2 [])) }
            (chainSelect f (f.fat.length - 2) (clustersNeeded f data.length) 2 []) data).root_max = f.root_max := hWrm
          have hWdlen : (writeChainData
            { f with fat := (fatLink f.fat (chainSelect f (f.fat.length - 2)
              (clustersNeeded f data.length) 2 [])) }
            (chainSelect f (f.fat.length - 2) (clustersNeeded f data.length) 2 []) data).data.length = f.data.length := hWlen
          have hdeo : dirEntryOffsetTop (writeChainData
            { f with fat := (fatLink f.fat (chainSelect f (f.fat.length - 2)
              (clustersNeeded f data.length) 2 [])) }
            (chainSelect f (f.fat.length - 2) (clustersNeeded f data.length) 2 []) data) 0 i = .ok (f.root + 32 * i) := by
            simp only [dirEntryOffsetTop, dirEntryOffset]
            rw [if_pos (show (0 : Nat) < 2 by omega), hWroot2]
          rw [addEntryInsert] at hadd
          simp only [hdeo] at hadd
          have hincb : 32 ≤ (path ++ List.replicate (12 - path.length) 32).getD 0 0 ∧
              (path ++ List.replicate (12 - path.length) 32).getD 0 0 < 128 := by
            cases hp : path with
            | nil => simp [List.getD]
            | cons c t2 =>
              have hcb := hall c (by rw [hp]; exact List.mem_cons_self ..)
              simp only [List.cons_append, List.getD_cons_zero]
              omega
          obtain ⟨B, hcompB, hBlen, hBpath, hBi0, hBi229, hBattr, hBcl, hBsz⟩ :=
            entryCompile_roundtrip
              { data := entryNew.data, path := path,
                 incipit := ((path ++ List.replicate (12 - path.length) 32).getD 0 0),
                 attributes := 0, write_time := wt, write_date := wd,
                 cluster := ((addChain f data).2.toNat), size := data.length,
                 dir_cluster := 0, dir_index := i } 0 i
              (by simp [entryNew])
              hcanon
              ⟨by show (path ++ List.replicate (12 - path.length) 32).getD 0 0 ≠ 0; omega,
               by show (path ++ List.replicate (12 - path.length) 32).getD 0 0 ≠ 239; omega⟩
          simp only [hcompB] at hadd
          have hWss2 : (writeChainData
            { f with fat := (fatLink f.fat (chainSelect f (f.fat.length - 2)
              (clustersNeeded f data.length) 2 [])) }
            (chainSelect f (f.fat.length - 2) (clustersNeeded f data.length) 2 []) data).sector_size = f.sector_size := hWss
          have hWcs2 : (writeChainData
            { f with fat := (fatLink f.fat (chainSelect f (f.fat.length - 2)
              (clustersNeeded f data.length) 2 [])) }
            (chainSelect f (f.fat.length - 2) (clustersNeeded f data.length) 2 []) data).cluster_sects = f.cluster_sects := hWcs
          have hWc22 : (writeChainData
            { f with fat := (fatLink f.fat (chainSelect f (f.fat.length - 2)
              (clustersNeeded f data.length) 2 [])) }
            (chainSelect f (f.fat.length - 2) (clustersNeeded f data.length) 2 []) data).cluster2 = f.cluster2 := hWc2
          have hWfat2 : (writeChainData
            { f with fat := (fatLink f.fat (chainSelect f (f.fat.length - 2)
              (clustersNeeded f data.length) 2 [])) }
            (chainSelect f (f.fat.length - 2) (clustersNeeded f data.length) 2 []) data).fat = fatLink f.fat (chainSelect f (f.fat.length - 2) (clustersNeeded f data.length) 2 []) := hWfat
          have hfinal : ∀ F : Floppy,
              F.sector_size = f.sector_size → F.cluster_sects = f.cluster_sects →
              F.root = f.root → F.root_max = f.root_max → F.cluster2 = f.cluster2 →
              F.fat = fatLink f.fat (chainSelect f (f.fat.length - 2) (clustersNeeded f data.length) 2 []) →
              F.data.length = f.data.length →
              (∀ k, k < i → sliceN F.data (f.root + 32 * k) 32
                = sliceN f.data (f.root + 32 * k) 32) →
              sliceN F.data (f.root + 32 * i) 32 = B →
              (∀ k, k < (chainSelect f (f.fat.length - 2) (clustersNeeded f data.length) 2 []).length →
                sliceN F.data (clusterOffset f ((chainSelect f (f.fat.length - 2) (clustersNeeded f data.length) 2 []).getD k 0))
                  (min (f.sector_size * f.cluster_sects)
                    (data.length - k * (f.sector_size * f.cluster_sects)))
                = sliceN data (k * (f.sector_size * f.cluster_sects))
                  (min (f.sector_size * f.cluster_sects)
                    (data.length - k * (f.sector_size * f.cluster_sects)))) →
              extractFilePath F path = some data := by
            intro F hFss hFcs hFroot hFrm hFc2 hFfat hFdlen hFpre hFslot hFchunks
            have hrdcf : readDirChain f 0 = sliceN f.data f.root (f.root_max * 32) := by
              rw [readDirChain, if_pos (by omega)]
            have hfindscan :
                findScanHit path [] (dirEntries (sliceN f.data f.root (f.root_max * 32)) 0)
                  = none ∨
                findScanHit path [] (dirEntries (sliceN f.data f.root (f.root_max * 32)) 0)
                  = some .terminal := by
              rw [findPath] at hfind
              simp only [findPathDir, hsf, hrdcf] at hfind
              rcases hx : findScanHit path []
                  (dirEntries (sliceN f.data f.root (f.root_max * 32)) 0) with _ | sh
              · exact Or.inl rfl
              · cases sh with
                | terminal => exact Or.inr rfl
                | descend e => exact absurd hx (findScanHit_no_descend path _ e)
                | found e =>
                  rw [hx] at hfind
                  exact absurd hfind (by simp)
            have hrdcF : readDirChain F 0 = sliceN F.data f.root (f.root_max * 32) := by
              rw [readDirChain, if_pos (by omega), hFroot, hFrm]
            have hFslen : (sliceN F.data f.root (f.root_max * 32)).length
                = 32 * f.root_max := by
              rw [sliceN_length _ _ _ (by rw [hFdlen]; omega)]
              ring
            have hES : dirEntries (sliceN F.data f.root (f.root_max * 32)) 0 =
                (List.range f.root_max).map (fun k =>
                  entryOfBytes (sliceN (sliceN F.data f.root (f.root_max * 32))
                    (k * 32) 32) 0 k) := dirEntries_eq _ _ _ hFslen
            have hESf : dirEntries (sliceN f.data f.root (f.root_max * 32)) 0 =
                (List.range f.root_max).map (fun k =>
                  entryOfBytes (sliceN (sliceN f.data f.root (f.root_max * 32))
                    (k * 32) 32) 0 k) :=
              dirEntries_eq _ _ _ (by rw [hrsl]; ring)
            have hcompF : ∀ k, k < f.root_max →
                sliceN (sliceN F.data f.root (f.root_max * 32)) (k * 32) 32
                  = sliceN F.data (f.root + 32 * k) 32 := by
              intro k hk
              rw [sliceN_sliceN _ _ _ _ _ (by omega)]
              congr 1
              omega
            have hcompf : ∀ k, k < f.root_max →
                sliceN (sliceN f.data f.root (f.root_max * 32)) (k * 32) 32
                  = sliceN f.data (f.root + 32 * k) 32 := by
              intro k hk
              rw [sliceN_sliceN _ _ _ _ _ (by omega)]
              congr 1
              omega
            have hskipsOld := freeSlot_prefix_skips path
              (dirEntries (sliceN f.data f.root (f.root_max * 32)) 0) 0 i t
              hscan hfindscan
            have hBattr0 : (entryOfBytes B 0 i).attributes = 0 := hBattr
            have hBpathP : (entryOfBytes B 0 i).path = path := hBpath
            have hesl : ((List.range f.root_max).map (fun k =>
                entryOfBytes (sliceN (sliceN F.data f.root (f.root_max * 32))
                  (k * 32) 32) 0 k)).length = f.root_max := by
              rw [List.length_map, List.length_range]
            have hscanF : findScanHit path []
                (dirEntries (sliceN F.data f.root (f.root_max * 32)) 0)
                = some (.found (entryOfBytes B 0 i)) := by
              have hdropi : ((List.range f.root_max).map (fun k =>
                  entryOfBytes (sliceN (sliceN F.data f.root (f.root_max * 32))
                    (k * 32) 32) 0 k)).drop i
                  = entryOfBytes B 0 i :: ((List.range f.root_max).map (fun k =>
                    entryOfBytes (sliceN (sliceN F.data f.root (f.root_max * 32))
                      (k * 32) 32) 0 k)).drop (i + 1) := by
                rw [List.drop_eq_getElem_cons (by rw [hesl]; exact hibound)]
                congr 1
                rw [List.getElem_map, List.getElem_range]
                rw [hcompF i hibound, hFslot]
              rw [hES]
              rw [← List.take_append_drop i ((List.range f.root_max).map (fun k =>
                entryOfBytes (sliceN (sliceN F.data f.root (f.root_max * 32))
                  (k * 32) 32) 0 k))]
              rw [hdropi]
              rw [findScanHit_append_skips path [] _ _ ?hskips]
              case hskips =>
                intro e he
                rw [← List.map_take, List.take_range,
                  Nat.min_eq_left (Nat.le_of_lt hibound)] at he
                simp only [List.mem_map, List.mem_range] at he
                obtain ⟨k, hk, rfl⟩ := he
                have heq : entryOfBytes (sliceN (sliceN F.data f.root (f.root_max * 32))
                    (k * 32) 32) 0 k
                    = entryOfBytes (sliceN (sliceN f.data f.root (f.root_max * 32))
                      (k * 32) 32) 0 k := by
                  rw [hcompF k (by omega), hcompf k (by omega), hFpre k hk]
                rw [heq]
                refine hskipsOld _ ?_
                rw [hESf, Nat.sub_zero, ← List.map_take, List.take_range,
                  Nat.min_eq_left (Nat.le_of_lt hibound)]
                exact List.mem_map_of_mem _ (List.mem_range.mpr hk)
              rw [findScanHit]
              rw [if_neg hBi0, if_neg hBi229]
              rw [if_neg (by rw [hBattr0]; omega)]
              rw [if_neg (by rw [hBattr0]; omega)]
              rw [if_pos ⟨hBpathP, rfl⟩]
            have hfp : findPath F path = some (entryOfBytes B 0 i) := by
              rw [findPath]
              simp only [findPathDir, hsf, hrdcF, hscanF]
            rw [extractFilePath]
            simp only [hfp]
            have hmemCH : (chainSelect f (f.fat.length - 2) (clustersNeeded f data.length) 2 []).getD 0 0 ∈ (chainSelect f (f.fat.length - 2) (clustersNeeded f data.length) 2 []) :=
              getD_mem _ 0 (by rw [hlenK]; omega)
            have hclv : (entryOfBytes B 0 i).cluster = (chainSelect f (f.fat.length - 2) (clustersNeeded f data.length) 2 []).getD 0 0 := by
              have h1 : (addChain f data).2.toNat = (chainSelect f (f.fat.length - 2) (clustersNeeded f data.length) 2 []).getD 0 0 := by
                rw [hhead, Int.toNat_natCast, headD_eq_getD]
              have h2 := (hbounds' _ hmemCH).2.1
              rw [hBcl]
              show (addChain f data).2.toNat % 65536 = (chainSelect f (f.fat.length - 2) (clustersNeeded f data.length) 2 []).getD 0 0
              rw [h1, Nat.mod_eq_of_lt (by omega)]
            have hszv : (entryOfBytes B 0 i).size = data.length := by
              rw [hBsz]
              exact Nat.mod_eq_of_lt hdsz
            rw [hclv, hszv, readChainTop]
            have hco : ∀ c : Nat, clusterOffset F c = clusterOffset f c := by
              intro c
              rw [clusterOffset, clusterOffset, hFroot, hFc2, hFss, hFcs]
            rw [show readChain F (data.length + 2) ((chainSelect f (f.fat.length - 2) (clustersNeeded f data.length) 2 []).getD 0 0) data.length = data
              from ?_]
            refine readChain_chunks F (chainSelect f (f.fat.length - 2) (clustersNeeded f data.length) 2 []) data (data.length + 2) hCHne
              (by rw [hFss, hFcs]; exact hcs)
              (by rw [hFss, hFcs, hlenK]; exact clustersNeeded_mul_ge f data.length hcs)
              (fun c hc => ⟨(hbounds' c hc).1, (hbounds' c hc).2.1⟩)
              (fun k hk => by
                rw [hFss, hFcs, hco]
                exact hFchunks k hk)
              (fun k hk => by
                rw [hFfat]
                exact (fatLink_links (chainSelect f (f.fat.length - 2) (clustersNeeded f data.length) 2 []) f.fat hnodup
                  (fun c hc => (hbounds' c hc).2.2.1)).1 k hk)
              (by
                rw [hlenK]
                have := clustersNeeded_le f data.length hcs
                omega)
          by_cases hterm : t = true ∧ i + 1 < f.root_max
          · rw [if_pos hterm] at hadd
            split at hadd
            · exact (Except.noConfusion hadd)
            next offset2 heq2 =>
              simp only [dirEntryOffsetTop, dirEntryOffset] at heq2
              rw [if_pos (show (0 : Nat) < 2 by omega), hWroot2] at heq2
              injection heq2 with heq2
              subst heq2
              rw [entryCompile_newTerminal] at hadd
              injection hadd with hadd
              obtain ⟨hf4, hrest⟩ := (Prod.mk.injEq ..).mp hadd
              obtain ⟨he2, _⟩ := (Prod.mk.injEq ..).mp hrest
              subst hf4
              subst he2
              split at h
              · exact (Except.noConfusion h)
              next offset3 heq3 =>
                simp only [dirEntryOffsetTop, dirEntryOffset] at heq3
                rw [if_pos (show (0 : Nat) < 2 by omega), hWroot2] at heq3
                injection heq3 with heq3
                subst heq3
                simp only [hcompB] at h
                injection h with h
                obtain ⟨hf', _⟩ := (Prod.mk.injEq ..).mp h
                subst hf'
                refine hfinal _ hWss2 hWcs2 hWroot2 hWrm2 hWc22 hWfat2 ?_ ?_ ?_ ?_
                · have hl1 : (splice (writeChainData
            { f with fat := (fatLink f.fat (chainSelect f (f.fat.length - 2)
              (clustersNeeded f data.length) 2 [])) }
            (chainSelect f (f.fat.length - 2) (clustersNeeded f data.length) 2 []) data).data (f.root + 32 * i) B).length = f.data.length := by
                    rw [splice_length _ _ _ (by rw [hBlen, hWdlen]; omega)]
                    exact hWdlen
                  have hl2 : (splice (splice (writeChainData
            { f with fat := (fatLink f.fat (chainSelect f (f.fat.length - 2)
              (clustersNeeded f data.length) 2 [])) }
            (chainSelect f (f.fat.length - 2) (clustersNeeded f data.length) 2 []) data).data (f.root + 32 * i) B) (f.root + 32 * (i + 1)) (List.replicate 32 0)).length = f.data.length := by
                    rw [splice_length _ _ _
                      (by simp only [List.length_replicate]; rw [hl1]; omega)]
                    exact hl1
                  rw [splice_length _ _ _ (by rw [hBlen, hl2]; omega)]
                  exact hl2
                · intro k hk
                  have hl1 : (splice (writeChainData
            { f with fat := (fatLink f.fat (chainSelect f (f.fat.length - 2)
              (clustersNeeded f data.length) 2 [])) }
            (chainSelect f (f.fat.length - 2) (clustersNeeded f data.length) 2 []) data).data (f.root + 32 * i) B).length = f.data.length := by
                    rw [splice_length _ _ _ (by rw [hBlen, hWdlen]; omega)]
                    exact hWdlen
                  have hl2 : (splice (splice (writeChainData
            { f with fat := (fatLink f.fat (chainSelect f (f.fat.length - 2)
              (clustersNeeded f data.length) 2 [])) }
            (chainSelect f (f.fat.length - 2) (clustersNeeded f data.length) 2 []) data).data (f.root + 32 * i) B) (f.root + 32 * (i + 1)) (List.replicate 32 0)).length = f.data.length := by
                    rw [splice_length _ _ _
                      (by simp only [List.length_replicate]; rw [hl1]; omega)]
                    exact hl1
                  rw [sliceN_splice_left (splice (splice (writeChainData
            { f with fat := (fatLink f.fat (chainSelect f (f.fat.length - 2)
              (clustersNeeded f data.length) 2 [])) }
            (chainSelect f (f.fat.length - 2) (clustersNeeded f data.length) 2 []) data).data (f.root + 32 * i) B) (f.root + 32 * (i + 1)) (List.replicate 32 0)) B (f.root + 32 * i)
                    (f.root + 32 * k) 32 (by rw [hl2]; omega) (by omega)]
                  rw [sliceN_splice_left (splice (writeChainData
            { f with fat := (fatLink f.fat (chainSelect f (f.fat.length - 2)
              (clustersNeeded f data.length) 2 [])) }
            (chainSelect f (f.fat.length - 2) (clustersNeeded f data.length) 2 []) data).data (f.root + 32 * i) B) (List.replicate 32 0) (f.root + 32 * (i + 1))
                    (f.root + 32 * k) 32 (by rw [hl1]; omega) (by omega)]
                  rw [sliceN_splice_left (writeChainData
            { f with fat := (fatLink f.fat (chainSelect f (f.fat.length - 2)
              (clustersNeeded f data.length) 2 [])) }
            (chainSelect f (f.fat.length - 2) (clustersNeeded f data.length) 2 []) data).data B (f.root + 32 * i)
                    (f.root + 32 * k) 32 (by rw [hWdlen]; omega) (by omega)]
                  exact hWframe (f.root + 32 * k) 32 (fun c hc => Or.inl (by
                    have h5 := (hbounds' c hc).2.2.2.2
                    show f.root + 32 * k + 32 ≤ clusterOffset f c
                    omega))
                · have hl1 : (splice (writeChainData
            { f with fat := (fatLink f.fat (chainSelect f (f.fat.length - 2)
              (clustersNeeded f data.length) 2 [])) }
            (chainSelect f (f.fat.length - 2) (clustersNeeded f data.length) 2 []) data).data (f.root + 32 * i) B).length = f.data.length := by
                    rw [splice_length _ _ _ (by rw [hBlen, hWdlen]; omega)]
                    exact hWdlen
                  have hl2 : (splice (splice (writeChainData
            { f with fat := (fatLink f.fat (chainSelect f (f.fat.length - 2)
              (clustersNeeded f data.length) 2 [])) }
            (chainSelect f (f.fat.length - 2) (clustersNeeded f data.length) 2 []) data).data (f.root + 32 * i) B) (f.root + 32 * (i + 1)) (List.replicate 32 0)).length = f.data.length := by
                    rw [splice_length _ _ _
                      (by simp only [List.length_replicate]; rw [hl1]; omega)]
                    exact hl1
                  have hex := sliceN_splice_exact (splice (splice (writeChainData
            { f with fat := (fatLink f.fat (chainSelect f (f.fat.length - 2)
              (clustersNeeded f data.length) 2 [])) }
            (chainSelect f (f.fat.length - 2) (clustersNeeded f data.length) 2 []) data).data (f.root + 32 * i) B) (f.root + 32 * (i + 1)) (List.replicate 32 0)) B (f.root + 32 * i) (by rw [hBlen, hl2]; omega)
                  rw [hBlen] at hex
                  exact hex
                · intro k hk
                  have hl1 : (splice (writeChainData
            { f with fat := (fatLink f.fat (chainSelect f (f.fat.length - 2)
              (clustersNeeded f data.length) 2 [])) }
            (chainSelect f (f.fat.length - 2) (clustersNeeded f data.length) 2 []) data).data (f.root + 32 * i) B).length = f.data.length := by
                    rw [splice_length _ _ _ (by rw [hBlen, hWdlen]; omega)]
                    exact hWdlen
                  have hl2 : (splice (splice (writeChainData
            { f with fat := (fatLink f.fat (chainSelect f (f.fat.length - 2)
              (clustersNeeded f data.length) 2 [])) }
            (chainSelect f (f.fat.length - 2) (clustersNeeded f data.length) 2 []) data).data (f.root + 32 * i) B) (f.root + 32 * (i + 1)) (List.replicate 32 0)).length = f.data.length := by
                    rw [splice_length _ _ _
                      (by simp only [List.length_replicate]; rw [hl1]; omega)]
                    exact hl1
                  have hc := hbounds' ((chainSelect f (f.fat.length - 2) (clustersNeeded f data.length) 2 []).getD k 0) (getD_mem _ k hk)
                  rw [sliceN_splice_right (splice (splice (writeChainData
            { f with fat := (fatLink f.fat (chainSelect f (f.fat.length - 2)
              (clustersNeeded f data.length) 2 [])) }
            (chainSelect f (f.fat.length - 2) (clustersNeeded f data.length) 2 []) data).data (f.root + 32 * i) B) (f.root + 32 * (i + 1)) (List.replicate 32 0)) B (f.root + 32 * i)
                    (clusterOffset f ((chainSelect f (f.fat.length - 2) (clustersNeeded f data.length) 2 []).getD k 0)) (min (f.sector_size * f.cluster_sects)
                    (data.length - k * (f.sector_size * f.cluster_sects)))
                    (by rw [hl2]; omega)
                    (by rw [hBlen]; have h5 := hc.2.2.2.2; omega)]
                  rw [sliceN_splice_right (splice (writeChainData
            { f with fat := (fatLink f.fat (chainSelect f (f.fat.length - 2)
              (clustersNeeded f data.length) 2 [])) }
            (chainSelect f (f.fat.length - 2) (clustersNeeded f data.length) 2 []) data).data (f.root + 32 * i) B) (List.replicate 32 0) (f.root + 32 * (i + 1))
                    (clusterOffset f ((chainSelect f (f.fat.length - 2) (clustersNeeded f data.length) 2 []).getD k 0)) (min (f.sector_size * f.cluster_sects)
                    (data.length - k * (f.sector_size * f.cluster_sects)))
                    (by rw [hl1]; omega)
                    (by simp only [List.length_replicate]
                        have h5 := hc.2.2.2.2
                        have h6 := hterm.2
                        omega)]
                  rw [sliceN_splice_right (writeChainData
            { f with fat := (fatLink f.fat (chainSelect f (f.fat.length - 2)
              (clustersNeeded f data.length) 2 [])) }
            (chainSelect f (f.fat.length - 2) (clustersNeeded f data.length) 2 []) data).data B (f.root + 32 * i)
                    (clusterOffset f ((chainSelect f (f.fat.length - 2) (clustersNeeded f data.length) 2 []).getD k 0)) (min (f.sector_size * f.cluster_sects)
                    (data.length - k * (f.sector_size * f.cluster_sects)))
                    (by rw [hWdlen]; omega)
                    (by rw [hBlen]; have h5 := hc.2.2.2.2; omega)]
                  exact hWchunks k hk

          · rw [if_neg hterm] at hadd
            injection hadd with hadd
            obtain ⟨hf4, hrest⟩ := (Prod.mk.injEq ..).mp hadd
            obtain ⟨he2, _⟩ := (Prod.mk.injEq ..).mp hrest
            subst hf4
            subst he2
            split at h
            · exact (Except.noConfusion h)
            next offset3 heq3 =>
              simp only [dirEntryOffsetTop, dirEntryOffset] at heq3
              rw [if_pos (show (0 : Nat) < 2 by omega), hWroot2] at heq3
              injection heq3 with heq3
              subst heq3
              simp only [hcompB] at h
              injection h with h
              obtain ⟨hf', _⟩ := (Prod.mk.injEq ..).mp h
              subst hf'
              refine hfinal _ hWss2 hWcs2 hWroot2 hWrm2 hWc22 hWfat2 ?_ ?_ ?_ ?_
              · have hl1 : (splice (writeChainData
            { f with fat := (fatLink f.fat (chainSelect f (f.fat.length - 2)
              (clustersNeeded f data.length) 2 [])) }
            (chainSelect f (f.fat.length - 2) (clustersNeeded f data.length) 2 []) data).data (f.root + 32 * i) B).length = f.data.length := by
                  rw [splice_length _ _ _ (by rw [hBlen, hWdlen]; omega)]
                  exact hWdlen
                rw [splice_length _ _ _ (by rw [hBlen, hl1]; omega)]
                exact hl1
              · intro k hk
                have hl1 : (splice (writeChainData
            { f with fat := (fatLink f.fat (chainSelect f (f.fat.length - 2)
              (clustersNeeded f data.length) 2 [])) }
            (chainSelect f (f.fat.length - 2) (clustersNeeded f data.length) 2 []) data).data (f.root + 32 * i) B).length = f.data.length := by
                  rw [splice_length _ _ _ (by rw [hBlen, hWdlen]; omega)]
                  exact hWdlen
                rw [sliceN_splice_left (splice (writeChainData
            { f with fat := (fatLink f.fat (chainSelect f (f.fat.length - 2)
              (clustersNeeded f data.length) 2 [])) }
            (chainSelect f (f.fat.length - 2) (clustersNeeded f data.length) 2 []) data).data (f.root + 32 * i) B) B (f.root + 32 * i)
                  (f.root + 32 * k) 32 (by rw [hl1]; omega) (by omega)]
                rw [sliceN_splice_left (writeChainData
            { f with fat := (fatLink f.fat (chainSelect f (f.fat.length - 2)
              (clustersNeeded f data.length) 2 [])) }
            (chainSelect f (f.fat.length - 2) (clustersNeeded f data.length) 2 []) data).data B (f.root + 32 * i)
                  (f.root + 32 * k) 32 (by rw [hWdlen]; omega) (by omega)]
                exact hWframe (f.root + 32 * k) 32 (fun c hc => Or.inl (by
                  have h5 := (hbounds' c hc).2.2.2.2
                  show f.root + 32 * k + 32 ≤ clusterOffset f c
                  omega))
              · have hl1 : (splice (writeChainData
            { f with fat := (fatLink f.fat (chainSelect f (f.fat.length - 2)
              (clustersNeeded f data.length) 2 [])) }
            (chainSelect f (f.fat.length - 2) (clustersNeeded f data.length) 2 []) data).data (f.root + 32 * i) B).length = f.data.length := by
                  rw [splice_length _ _ _ (by rw [hBlen, hWdlen]; omega)]
                  exact hWdlen
                have hex := sliceN_splice_exact (splice (writeChainData
            { f with fat := (fatLink f.fat (chainSelect f (f.fat.length - 2)
              (clustersNeeded f data.length) 2 [])) }
            (chainSelect f (f.fat.length - 2) (clustersNeeded f data.length) 2 []) data).data (f.root + 32 * i) B) B (f.root + 32 * i) (by rw [hBlen, hl1]; omega)
                rw [hBlen] at hex
                exact hex
              · intro k hk
                have hl1 : (splice (writeChainData
            { f with fat := (fatLink f.fat (chainSelect f (f.fat.length - 2)
              (clustersNeeded f data.length) 2 [])) }
            (chainSelect f (f.fat.length - 2) (clustersNeeded f data.length) 2 []) data).data (f.root + 32 * i) B).length = f.data.length := by
                  rw [splice_length _ _ _ (by rw [hBlen, hWdlen]; omega)]
                  exact hWdlen
                have hc := hbounds' ((chainSelect f (f.fat.length - 2) (clustersNeeded f data.length) 2 []).getD k 0) (getD_mem _ k hk)
                rw [sliceN_splice_right (splice (writeChainData
            { f with fat := (fatLink f.fat (chainSelect f (f.fat.length - 2)
              (clustersNeeded f data.length) 2 [])) }
            (chainSelect f (f.fat.length - 2) (clustersNeeded f data.length) 2 []) data).data (f.root + 32 * i) B) B (f.root + 32 * i)
                  (clusterOffset f ((chainSelect f (f.fat.length - 2) (clustersNeeded f data.length) 2 []).getD k 0)) (min (f.sector_size * f.cluster_sects)
                    (data.length - k * (f.sector_size * f.cluster_sects)))
                  (by rw [hl1]; omega)
                  (by rw [hBlen]; have h5 := hc.2.2.2.2; omega)]
                rw [sliceN_splice_right (writeChainData
            { f with fat := (fatLink f.fat (chainSelect f (f.fat.length - 2)
              (clustersNeeded f data.length) 2 [])) }
            (chainSelect f (f.fat.length - 2) (clustersNeeded f data.length) 2 []) data).data B (f.root + 32 * i)
                  (clusterOffset f ((chainSelect f (f.fat.length - 2) (clustersNeeded f data.length) 2 []).getD k 0)) (min (f.sector_size * f.cluster_sects)
                    (data.length - k * (f.sector_size * f.cluster_sects)))
                  (by rw [hWdlen]; omega)
                  (by rw [hBlen]; have h5 := hc.2.2.2.2; omega)]
                exact hWchunks k hk




/-- The tiny image after adding the non-canonical component "A."
(stored normalized as "A"). -/
def tinyWithAdot : Floppy :=
  match addFilePath 0 0 50 tinyFloppy [65, 46] [1, 2] with
  | .ok r => r.1
  | .error _ => tinyFloppy

/-- The tiny image after adding "A." a second time: the overwrite
deletion inside the second add looks the path "A." up verbatim, misses
the entry stored as "A", and a second entry named "A" is appended. -/
def tinyTwoAdot : Floppy :=
  match addFilePath 0 0 50 tinyWithAdot [65, 46] [3, 4] with
  | .ok r => r.1
  | .error _ => tinyFloppy

/-- The tiny image after `add_file_path("..\X", [5, 6])`: the
directory stage finds no subdirectory named ".." in the root (the root
has none) and creates a real directory under that name. -/
def tinyDotdot : Floppy :=
  match addFilePath 0 0 50 tinyFloppy [46, 46, 92, 88] [5, 6] with
  | .ok r => r.1
  | .error _ => tinyFloppy

/-- A second fully valid synthetic image whose geometry has more than
one sector per cluster, so that `_read_dir_chain`'s size cap
`sector_size * sectors // cluster_sects` (src line 394) is smaller
than the data area: 16-byte sectors, 4 sectors per cluster (64-byte
clusters holding 2 directory entries each), 4 reserved sectors, one
FAT copy of 6 sectors, 1 root entry, 80 sectors, 12 sectors per
track, 2 heads.  Layout: FAT at byte 64, root directory at 160,
cluster 2 at byte 192 = sector_size * track_sects, clusters 2..18.
Directory listings are capped at 16 * 80 / 4 = 320 bytes = 5
clusters. -/
def capBytes : List Nat :=
  [0, 0, 0, 0, 0, 0, 0, 0, 0, 0, 0,
   16, 0,
   4,
   4, 0,
   1,
   1, 0,
   80, 0,
   249,
   6, 0,
   12, 0,
   2, 0,
   0, 0, 0, 0] ++
  List.replicate 32 0 ++
  ([240, 255, 255] ++ List.replicate 93 0) ++
  List.replicate 32 0 ++
  List.replicate 1088 0

/-- The `Floppy` state after `Floppy(capBytes)`. -/
def capFloppy : Floppy := {
  data := capBytes
  sector_size := 16
  cluster_sects := 4
  reserved_sects := 4
  fat_count := 1
  root_max := 1
  sectors := 80
  fat_sects := 6
  track_sects := 12
  heads := 2
  volume_id := 0
  volume_label := []
  root := 160
  cluster2 := 192
  cluster_limit := 19
  fat := 4080 :: 4095 :: List.replicate 62 0 }

/-- The capped image after the first `n` of the nine calls
`add_file_path("D\Fk", [65 + k])`, `k = 1..9`, paired with the
conjunction of their return values.  Each even-numbered file fills the
last slot of the directory's tail cluster; each odd-numbered file
(after the first two slots are taken by the "." and ".." entries of
the fresh directory) forces `_add_entry` to append one more cluster to
the chain of "D".  After the ninth add the chain of "D" is 6 clusters
long, one past the 5-cluster listing cap. -/
def capState (n : Nat) : Floppy × Bool :=
  (List.range n).foldl (fun acc k =>
    match addFilePath 0 0 100 acc.1 [68, 92, 70, 49 + k] [65 + k] with
    | .ok r => (r.1, acc.2 && r.2)
    | .error _ => (acc.1, false)) (capFloppy, true)

set_option maxRecDepth 100000 in
/-- C2.  The claim fails: a successful `add_file_path(P, D)` does not
guarantee that `extract_file_path(P)` returns `D`, for three
independent reasons, each exhibited concretely here.  (i) Name
normalization is applied when storing but not when looking up: the
8.3-representable component "A." is stored under the normalized name
"A", so after `add_file_path("A.", [1, 2])` returns True,
`extract_file_path("A.")` returns None; moreover a second
`add_file_path("A.", [3, 4])` fails to delete the first entry (its
deletion stage looks "A." up verbatim and misses), appends a second
entry also named "A", and the new bytes `[3, 4]` are unreachable while
`extract_file_path("A")` still returns the old `[1, 2]`.  (ii) The
pseudo-entry names "." and ".." are skipped on lookup but not when
creating directories: "..", which is in canonical 8.3 form, is created
as a real subdirectory of the root by `add_file_path("..\X", [5, 6])`
(which returns True), yet `extract_file_path("..\X")` returns None
because `_find_path_dir` skips every entry named "." or "..".
(iii) `_read_dir_chain` caps a directory listing at
`sector_size * sectors // cluster_sects` bytes, which for images with
more than one sector per cluster is less than the cluster area can
hold: on the valid `capBytes` image (4 sectors per cluster, listings
capped at 5 clusters) the nine adds of the canonically named files
"D\F1" .. "D\F9" all return True — the ninth lands in the sixth
cluster that `_add_entry` appends to the chain of "D" — and the first
eight extract correctly, but `extract_file_path("D\F9")` returns None
because every subsequent scan of "D" reads only the first 5 clusters
of its chain. -/
theorem addFilePath_roundtrip_failures :
    (addFilePath 0 0 50 tinyFloppy [65, 46] [1, 2] = .ok (tinyWithAdot, true) ∧
      extractFilePath tinyWithAdot [65, 46] = none ∧
      deletePath 50 tinyWithAdot [65, 46] = .ok (tinyWithAdot, false) ∧
      addFilePath 0 0 50 tinyWithAdot [65, 46] [3, 4] = .ok (tinyTwoAdot, true) ∧
      (dirEntries (readDirChain tinyTwoAdot 0) 0).map
          (fun e => (e.path, e.incipit)) = [([65], 65), ([65], 65), ([], 0), ([], 0)] ∧
      extractFilePath tinyTwoAdot [65, 46] = none ∧
      extractFilePath tinyTwoAdot [65] = some [1, 2]) ∧
    (canonical83 [46, 46] = true ∧
      addFilePath 0 0 50 tinyFloppy [46, 46, 92, 88] [5, 6] = .ok (tinyDotdot, true) ∧
      (dirEntries (readDirChain tinyDotdot 0) 0).map
          (fun e => (e.path, e.attributes)) = [([46, 46], 16), ([], 0), ([], 0), ([], 0)] ∧
      extractFilePath tinyDotdot [46, 46, 92, 88] = none) ∧
    (ofBytes capBytes = .ok capFloppy ∧
      (List.range 9).all (fun k => canonical83 [70, 49 + k]) = true ∧
      (capState 9).2 = true ∧
      (List.range 8).all (fun k =>
        extractFilePath (capState 9).1 [68, 92, 70, 49 + k] == some [65 + k]) = true ∧
      extractFilePath (capState 9).1 [68, 92, 70, 57] = none) :=
  ⟨⟨rfl, rfl, rfl, rfl, rfl, rfl, rfl⟩, ⟨rfl, rfl, rfl, rfl⟩, ⟨rfl, rfl, rfl, rfl, rfl⟩⟩

set_option maxRecDepth 100000 in
/-- The positive round-trip theorem applied to adding "F" with
payload `[1, 2, 3]` on the tiny image. -/
theorem addFilePath_roundtrip_witness :
    canonical83 [70] = true ∧
    findPath tinyFloppy [70] = none ∧
    extractFilePath tinyWithF [70] = some [1, 2, 3] :=
  ⟨by decide, by decide,
    addFilePath_roundtrip 0 0 50 tinyFloppy [70] [1, 2, 3] tinyWithF
      (by decide) (by decide) (by decide) (by decide) (by decide) (by decide)
      (by decide) (by decide) (by decide) (by decide) (by decide) (by decide)
      (by decide) rfl⟩
